import Mathlib

/-!
# APEX five-stage pipeline simulator (`apex_cpu.c`)

A shallow embedding of the pipeline engine of `src/apex_cpu.c`: the five stage
functions, the hazard unit `detect_data_hazards`, and one iteration of the loop
of `APEX_cpu_run`.

Conventions of the embedding.

* A C `int` is an `Int`; every arithmetic operation of the source is followed by
  `wrap32`, the reduction to the 32-bit two's-complement range.
* `TRUE`/`FALSE` valued fields (`has_insn`, `stall`, the three flags,
  `fetch_from_next_cycle`) are `Bool`.
* The arrays `regs`, `data_memory`, `code_memory` and `btb` are lists; an access
  outside the list is undefined behaviour in C and is `none` here, so every
  stage returns an `Option`.
* Printing (`printf`, `print_stage_content`, `print_reg_file`) has no effect on
  the state and is left out, together with the field `opcode_str`.
-/

namespace APEX

/-- The opcodes named by the `OPCODE_*` constants used in `apex_cpu.c`. -/
inductive Opcode where
  | ADD | SUB | MUL | DIV | AND | OR | XOR | MOVC
  | LOAD | LOADP | STORE | STOREP
  | BZ | BNZ | BP | BNP | BN | BNN
  | HALT | NOP | ADDL | SUBL | CMP | CML | JUMP | JALR
  deriving DecidableEq, Repr

/-- One entry of code memory (`APEX_Instruction`). -/
structure APEX_Instruction where
  opcode : Opcode
  rd : Int
  rs1 : Int
  rs2 : Int
  imm : Int
  deriving DecidableEq, Repr

/-- A pipeline latch (`CPU_Stage`). -/
structure CPU_Stage where
  pc : Int
  opcode : Opcode
  rs1 : Int
  rs2 : Int
  rd : Int
  imm : Int
  rs1_value : Int
  rs2_value : Int
  rd_value : Int
  result_buffer : Int
  memory_address : Int
  has_insn : Bool
  stall : Bool
  deriving DecidableEq, Repr

/-- One entry of the branch target buffer. -/
structure BTB_Entry where
  instruction_address : Int
  history_bits : Int
  target_address : Int
  deriving DecidableEq, Repr

/-- The simulator state (`APEX_CPU`), together with the global table `btb`. -/
structure APEX_CPU where
  pc : Int
  clock : Int
  insn_completed : Int
  regs : List Int
  code_memory : List APEX_Instruction
  data_memory : List Int
  zero_flag : Bool
  neg_flag : Bool
  pos_flag : Bool
  fetch_from_next_cycle : Bool
  fetch : CPU_Stage
  decode : CPU_Stage
  execute : CPU_Stage
  memory : CPU_Stage
  writeback : CPU_Stage
  btb : List BTB_Entry
  deriving DecidableEq, Repr

/-- Modelled from the spec: the constants of `apex_macros.h` and `apex_cpu.h`,
which are not among the sources. The sizes of the register file, of data memory
and of the BTB are left open, and so is the opcode whose `OPCODE_*` constant is
`0`, the value `calloc` leaves in the opcode field of every latch. -/
structure APEX_Params where
  REG_FILE_SIZE : Nat
  DATA_MEMORY_SIZE : Nat
  BTB_SIZE : Nat
  OPCODE_ZERO : Opcode
  deriving DecidableEq, Repr

/-- Reduction of an integer to the range of a 32-bit two's-complement `int`. -/
def wrap32 (x : Int) : Int :=
  (x + 2147483648) % 4294967296 - 2147483648

/-- Read `a[i]`; `none` when `i` is outside the array. -/
def readAt {α : Type} (a : List α) (i : Int) : Option α :=
  if 0 ≤ i then a.get? i.toNat else none

/-- Write `a[i] = v`; `none` when `i` is outside the array. -/
def writeAt {α : Type} (a : List α) (i : Int) (v : α) : Option (List α) :=
  if 0 ≤ i ∧ i.toNat < a.length then some (a.set i.toNat v) else none

/-- Source: `get_code_memory_index_from_pc`, `(pc - 4000) / 4` with the
truncating division of C. -/
def get_code_memory_index_from_pc (pc : Int) : Int :=
  Int.tdiv (wrap32 (pc - 4000)) 4

/-- Source: `initialize_BTB`. -/
def initialize_BTB (size : Nat) : List BTB_Entry :=
  List.replicate size
    { instruction_address := -1, history_bits := 0, target_address := -1 }

/-- Modelled from the spec: `find_in_BTB` is called by `APEX_fetch` but defined
outside `apex_cpu.c`. Per the spec it scans the table for an entry whose tag is
the given address and returns its index, or `-1` for "not found" (the value the
caller tests for). -/
def find_in_BTB : List BTB_Entry → Int → Int
  | [], _ => -1
  | e :: rest, address =>
    if e.instruction_address = address then 0
    else
      let r := find_in_BTB rest address
      if r = -1 then -1 else r + 1

/-- Source: `is_write_to_reg_instruction`. -/
def is_write_to_reg_instruction : Opcode → Bool
  | .ADD | .SUB | .MUL | .AND | .OR | .XOR | .MOVC | .ADDL | .SUBL => true
  | _ => false

/-- Source: `should_take_branch`. -/
def should_take_branch (history_bits : Int) (branch_type : Opcode) : Bool :=
  match branch_type with
  | .BNZ | .BP =>
    decide (Int.land history_bits 1 ≠ 0) || decide (Int.land history_bits 2 ≠ 0)
  | .BZ | .BNP =>
    !(decide (Int.land history_bits 1 ≠ 0) && decide (Int.land history_bits 2 ≠ 0))
  | _ => false

/-- Source: `APEX_fetch`, lines 243-262: the BTB consultation keyed on the
opcode and address still held in the Fetch latch. -/
def fetch_predict (cpu : APEX_CPU) : Option APEX_CPU :=
  if cpu.fetch.opcode = .BZ ∨ cpu.fetch.opcode = .BNZ ∨
      cpu.fetch.opcode = .BP ∨ cpu.fetch.opcode = .BNP then
    let btb_index := find_in_BTB cpu.btb cpu.fetch.pc
    if btb_index ≠ -1 then
      match readAt cpu.btb btb_index with
      | none => none
      | some e =>
        if should_take_branch e.history_bits cpu.fetch.opcode then
          some { cpu with pc := e.target_address }
        else
          some { cpu with pc := wrap32 (cpu.pc + 4) }
    else some cpu
  else some cpu

/-- Source: `APEX_fetch`, lines 264-310: the read of code memory and the copy of
the Fetch latch into the Decode latch. -/
def fetch_insn (cpu : APEX_CPU) : Option APEX_CPU :=
  if cpu.fetch.has_insn then
    if cpu.fetch_from_next_cycle then
      some { cpu with fetch_from_next_cycle := false }
    else
      match readAt cpu.code_memory (get_code_memory_index_from_pc cpu.pc) with
      | none => none
      | some current_ins =>
        let f : CPU_Stage :=
          { cpu.fetch with
            pc := cpu.pc, opcode := current_ins.opcode, rd := current_ins.rd,
            rs1 := current_ins.rs1, rs2 := current_ins.rs2, imm := current_ins.imm }
        some { cpu with
          pc := wrap32 (cpu.pc + 4)
          decode :=
            if current_ins.opcode = .NOP then { f with has_insn := false } else f
          fetch :=
            if current_ins.opcode = .HALT then { f with has_insn := false } else f }
  else some cpu

/-- Source: `APEX_fetch` from line 241 on, the part run when the Fetch latch is
not stalled. -/
def APEX_fetch_body (cpu : APEX_CPU) : Option APEX_CPU :=
  (fetch_predict cpu).bind fetch_insn

/-- Source: `detect_data_hazards`. The call `APEX_fetch(cpu)` of line 1104 is
made right after `cpu->fetch.stall` was cleared, so the callee skips its stall
test and runs `APEX_fetch_body`. -/
def detect_data_hazards (cpu : APEX_CPU) : Option APEX_CPU :=
  if cpu.execute.has_insn && cpu.decode.has_insn then
    if cpu.execute.opcode = .ADD ∨ cpu.execute.opcode = .SUB ∨
        cpu.execute.opcode = .MUL ∨ cpu.execute.opcode = .AND ∨
        cpu.execute.opcode = .OR ∨ cpu.execute.opcode = .XOR ∨
        cpu.execute.opcode = .MOVC ∨ cpu.execute.opcode = .ADDL ∨
        cpu.execute.opcode = .SUBL then
      if cpu.execute.rd ≠ 0 ∧
          (cpu.decode.rs1 = cpu.execute.rd ∨ cpu.decode.rs2 = cpu.execute.rd) then
        some { cpu with
          decode := { cpu.decode with stall := true }
          fetch := { cpu.fetch with stall := true } }
      else
        APEX_fetch_body { cpu with
          decode := { cpu.decode with stall := false }
          fetch := { cpu.fetch with stall := false } }
    else
      some { cpu with
        decode := { cpu.decode with stall := false }
        fetch := { cpu.fetch with stall := false } }
  else some cpu

/-- Source: `APEX_fetch`. -/
def APEX_fetch (cpu : APEX_CPU) : Option APEX_CPU :=
  if cpu.fetch.stall then detect_data_hazards cpu else APEX_fetch_body cpu

/-- Source: `APEX_decode`, lines 327-348: forwarding from the Execute and
Memory latches into the Decode latch. -/
def decode_forward (cpu : APEX_CPU) : CPU_Stage :=
  let d := cpu.decode
  let d1 : CPU_Stage :=
    if is_write_to_reg_instruction cpu.execute.opcode ∧
        (d.rs1 = cpu.execute.rd ∨ d.rs2 = cpu.execute.rd) then
      let a := if d.rs1 = cpu.execute.rd then
        { d with rs1_value := cpu.execute.result_buffer } else d
      if d.rs2 = cpu.execute.rd then
        { a with rs2_value := cpu.execute.result_buffer } else a
    else d
  if is_write_to_reg_instruction cpu.memory.opcode ∧
      (d1.rs1 = cpu.memory.rd ∨ d1.rs2 = cpu.memory.rd) then
    let a := if d1.rs1 = cpu.memory.rd then
      { d1 with rs1_value := cpu.memory.result_buffer } else d1
    if d1.rs2 = cpu.memory.rd then
      { a with rs2_value := cpu.memory.result_buffer } else a
  else d1

/-- Source: `APEX_decode`, lines 350-448: the register reads of the opcode
switch, applied to the latch left by `decode_forward`. -/
def decode_read (regs : List Int) (d : CPU_Stage) : Option CPU_Stage :=
  match d.opcode with
  | .ADD | .ADDL | .SUB | .SUBL | .OR | .XOR | .AND | .MUL
  | .STORE | .STOREP | .CMP =>
    match readAt regs d.rs1, readAt regs d.rs2 with
    | some v1, some v2 => some { d with rs1_value := v1, rs2_value := v2 }
    | _, _ => none
  | .LOAD | .CML | .JUMP =>
    match readAt regs d.rs1 with
    | some v1 => some { d with rs1_value := v1 }
    | none => none
  | .LOADP | .JALR =>
    match readAt regs d.rs1, readAt regs d.rd with
    | some v1, some vd => some { d with rs1_value := v1, rd_value := vd }
    | _, _ => none
  | _ => some d

/-- Source: `APEX_decode`. -/
def APEX_decode (cpu : APEX_CPU) : Option APEX_CPU :=
  if cpu.decode.stall then some cpu
  else if cpu.decode.has_insn then
    match decode_read cpu.regs (decode_forward cpu) with
    | none => none
    | some d =>
      some { cpu with execute := d, decode := { d with has_insn := false } }
  else some cpu

/-- The flag assignment shared by ADD, ADDL, SUB, SUBL, MOVC and AND: `zero_flag`
is set from the result buffer of the Execute latch. -/
def set_zero_flag (cpu : APEX_CPU) : APEX_CPU :=
  { cpu with zero_flag := decide (cpu.execute.result_buffer = 0) }

/-- Store `v` in the result buffer of the Execute latch. -/
def set_result (cpu : APEX_CPU) (v : Int) : APEX_CPU :=
  { cpu with execute := { cpu.execute with result_buffer := v } }

/-- The three-way flag assignment written out in the CMP and CML cases. -/
def set_compare_flags (cpu : APEX_CPU) (a b : Int) : APEX_CPU :=
  if a = b then
    { cpu with zero_flag := true, neg_flag := false, pos_flag := false }
  else if a < b then
    { cpu with zero_flag := false, neg_flag := true, pos_flag := false }
  else
    { cpu with zero_flag := false, neg_flag := false, pos_flag := true }

/-- The redirect sequence of a taken branch or jump: new `pc`, refetch delay,
Decode flushed, Fetch enabled. -/
def redirect (cpu : APEX_CPU) (target : Int) : APEX_CPU :=
  { cpu with
    pc := target
    fetch_from_next_cycle := true
    decode := { cpu.decode with has_insn := false }
    fetch := { cpu.fetch with has_insn := true } }

/-- Source: `APEX_execute`, case `OPCODE_MOVC` (lines 785-799). -/
def execute_MOVC (cpu : APEX_CPU) : APEX_CPU :=
  set_zero_flag (set_result cpu cpu.execute.imm)

/-- Source: `APEX_execute`, case `OPCODE_CML` (lines 761-783); the case has no
`break`, so control continues into the MOVC case. -/
def execute_CML (cpu : APEX_CPU) : APEX_CPU :=
  execute_MOVC (set_compare_flags cpu cpu.execute.rs1_value cpu.execute.imm)

/-- Source: `APEX_execute`, case `OPCODE_CMP` (lines 737-759); the case has no
`break`, so control continues into the CML case. -/
def execute_CMP (cpu : APEX_CPU) : APEX_CPU :=
  execute_CML (set_compare_flags cpu cpu.execute.rs1_value cpu.execute.rs2_value)

/-- Source: `APEX_execute`, the opcode switch of lines 476-828. -/
def execute_switch (cpu : APEX_CPU) : Option APEX_CPU :=
  let e := cpu.execute
  match e.opcode with
  | .ADD => some (set_zero_flag (set_result cpu (wrap32 (e.rs1_value + e.rs2_value))))
  | .ADDL => some (set_zero_flag (set_result cpu (wrap32 (e.rs1_value + e.imm))))
  | .SUB => some (set_zero_flag (set_result cpu (wrap32 (e.rs1_value - e.rs2_value))))
  | .SUBL => some (set_zero_flag (set_result cpu (wrap32 (e.rs1_value - e.imm))))
  | .MUL => some (set_result cpu (wrap32 (e.rs1_value - e.rs2_value)))
  | .LOAD =>
    some { cpu with execute := { e with memory_address := wrap32 (e.rs1_value + e.imm) } }
  | .LOADP =>
    some { cpu with execute :=
      { e with memory_address := wrap32 (e.rs1_value + e.imm),
               rd := wrap32 (e.rd_value + 4) } }
  | .STORE | .STOREP =>
    some { cpu with execute :=
      { e with memory_address := wrap32 (e.rs1_value + e.imm),
               result_buffer := e.rs2_value } }
  | .JUMP =>
    let t := wrap32 (e.rs1_value + e.imm)
    some (redirect (set_result cpu t) t)
  | .JALR =>
    let t := wrap32 (e.rs1_value + e.imm)
    match writeAt cpu.regs e.rd_value (wrap32 (e.pc + 4)) with
    | none => none
    | some regs => some (redirect { set_result cpu t with regs := regs } t)
  | .BZ => some (if cpu.zero_flag = true then redirect cpu (wrap32 (e.pc + e.imm)) else cpu)
  | .BNZ => some (if cpu.zero_flag = false then redirect cpu (wrap32 (e.pc + e.imm)) else cpu)
  | .BP => some (if cpu.pos_flag = true then redirect cpu (wrap32 (e.pc + e.imm)) else cpu)
  | .BNP => some (if cpu.pos_flag = false then redirect cpu (wrap32 (e.pc + e.imm)) else cpu)
  | .BN => some (if cpu.neg_flag = true then redirect cpu (wrap32 (e.pc + e.imm)) else cpu)
  | .BNN => some (if cpu.neg_flag = false then redirect cpu (wrap32 (e.pc + e.imm)) else cpu)
  | .CMP => some (execute_CMP cpu)
  | .CML => some (execute_CML cpu)
  | .MOVC => some (execute_MOVC cpu)
  | .OR => some (set_result cpu (Int.lor e.rs1_value e.rs2_value))
  | .XOR => some (set_result cpu (Int.xor e.rs1_value e.rs2_value))
  | .AND => some (set_zero_flag (set_result cpu (Int.land e.rs1_value e.rs2_value)))
  | _ => some cpu

/-- Source: `APEX_execute`. -/
def APEX_execute (cpu : APEX_CPU) : Option APEX_CPU :=
  if cpu.execute.stall then some cpu
  else if cpu.execute.has_insn then
    match execute_switch cpu with
    | none => none
    | some c =>
      some { c with memory := c.execute, execute := { c.execute with has_insn := false } }
  else some cpu

/-- Source: `APEX_memory`, the opcode switch of lines 855-896. -/
def memory_switch (cpu : APEX_CPU) : Option APEX_CPU :=
  match cpu.memory.opcode with
  | .LOAD | .LOADP =>
    match readAt cpu.data_memory cpu.memory.memory_address with
    | none => none
    | some v => some { cpu with memory := { cpu.memory with result_buffer := v } }
  | .STORE | .STOREP =>
    match writeAt cpu.data_memory cpu.memory.memory_address cpu.memory.result_buffer with
    | none => none
    | some dm => some { cpu with data_memory := dm }
  | _ => some cpu

/-- Source: `APEX_memory`. -/
def APEX_memory (cpu : APEX_CPU) : Option APEX_CPU :=
  if cpu.memory.stall then some cpu
  else if cpu.memory.has_insn then
    match memory_switch cpu with
    | none => none
    | some c =>
      some { c with writeback := c.memory, memory := { c.memory with has_insn := false } }
  else some cpu

/-- Source: `APEX_writeback`, the opcode switch of lines 924-982. -/
def writeback_switch (cpu : APEX_CPU) : Option APEX_CPU :=
  match cpu.writeback.opcode with
  | .ADD | .ADDL | .SUB | .SUBL | .MUL | .LOAD | .LOADP | .MOVC
  | .OR | .XOR | .JALR | .AND =>
    match writeAt cpu.regs cpu.writeback.rd cpu.writeback.result_buffer with
    | none => none
    | some regs => some { cpu with regs := regs }
  | _ => some cpu

/-- Source: `APEX_writeback`; the Boolean is the return value, `true` when Halt
retires. -/
def APEX_writeback (cpu : APEX_CPU) : Option (Bool × APEX_CPU) :=
  if cpu.writeback.stall then some (false, cpu)
  else if cpu.writeback.has_insn then
    match writeback_switch cpu with
    | none => none
    | some c =>
      some (decide (c.writeback.opcode = .HALT),
        { c with
          insn_completed := wrap32 (c.insn_completed + 1)
          writeback := { c.writeback with has_insn := false } })
  else some (false, cpu)

/-- Source: `APEX_cpu_init`, for a program already parsed into `code`. -/
def APEX_cpu_init (p : APEX_Params) (code : List APEX_Instruction) : APEX_CPU :=
  let z : CPU_Stage :=
    { pc := 0, opcode := p.OPCODE_ZERO, rs1 := 0, rs2 := 0, rd := 0, imm := 0,
      rs1_value := 0, rs2_value := 0, rd_value := 0, result_buffer := 0,
      memory_address := 0, has_insn := false, stall := false }
  { pc := 4000, clock := 0, insn_completed := 0,
    regs := List.replicate p.REG_FILE_SIZE 0,
    code_memory := code,
    data_memory := List.replicate p.DATA_MEMORY_SIZE 0,
    zero_flag := false, neg_flag := false, pos_flag := false,
    fetch_from_next_cycle := false,
    fetch := { z with has_insn := true },
    decode := z, execute := z, memory := z, writeback := z,
    btb := initialize_BTB p.BTB_SIZE }

/-- Source: `APEX_cpu_run`, lines 1150-1182: the stages after Writeback and the
closing hazard check of one cycle. -/
def APEX_stages (cpu : APEX_CPU) : Option APEX_CPU :=
  ((((if cpu.memory.stall then detect_data_hazards cpu else APEX_memory cpu).bind
    fun c => if c.execute.stall then detect_data_hazards c else APEX_execute c).bind
    fun c => if c.decode.stall then detect_data_hazards c else APEX_decode c).bind
    fun c => if c.fetch.stall then detect_data_hazards c else APEX_fetch c).bind
    detect_data_hazards

/-- Source: `APEX_cpu_run`, one iteration of the `while` loop with single
stepping never answered by a quit. The result is `(true, cpu)` when Writeback
retires Halt and the loop is left (the clock is not advanced), and
`(false, cpu)` after a full cycle. -/
def APEX_cpu_cycle (cpu : APEX_CPU) : Option (Bool × APEX_CPU) :=
  match APEX_writeback cpu with
  | none => none
  | some (true, c) => some (true, c)
  | some (false, c) =>
    match APEX_stages c with
    | none => none
    | some c2 => some (false, { c2 with clock := wrap32 (c2.clock + 1) })

/-- Source: `APEX_cpu_run`, at most `fuel` iterations of the loop: `some cpu` is
the state in which the loop is left at a retiring Halt, `none` means that no
Halt retired within `fuel` cycles or that an access went out of bounds. -/
def APEX_cpu_run : Nat → APEX_CPU → Option APEX_CPU
  | 0, _ => none
  | fuel + 1, cpu =>
    match APEX_cpu_cycle cpu with
    | none => none
    | some (true, c) => some c
    | some (false, c) => APEX_cpu_run fuel c

/-- The state after `n` full cycles, none of which retires Halt; `none` if a
Halt retires or an access goes out of bounds on the way. -/
def APEX_cycles : Nat → APEX_CPU → Option APEX_CPU
  | 0, cpu => some cpu
  | n + 1, cpu =>
    match APEX_cpu_cycle cpu with
    | some (false, c) => APEX_cycles n c
    | _ => none



/-! ## Programs, sample configuration and observations -/

/-- A configuration with sixteen registers, 4096 words of data memory and a
four-entry BTB; `z` is the opcode numbered `0`. -/
def sampleParams (z : Opcode) : APEX_Params :=
  { REG_FILE_SIZE := 16, DATA_MEMORY_SIZE := 4096, BTB_SIZE := 4, OPCODE_ZERO := z }

/-- The addresses of the instructions processed by Execute during the first `n`
cycles: the Execute latch is valid at the start of exactly those cycles. -/
def executed : Nat → APEX_CPU → List Int
  | 0, _ => []
  | n + 1, cpu =>
    (if cpu.execute.has_insn then [cpu.execute.pc] else []) ++
      match APEX_cpu_cycle cpu with
      | some (false, c) => executed n c
      | _ => []

/-- The addresses of the instructions retired by Writeback during the first `n`
cycles, in order. -/
def retired : Nat → APEX_CPU → List Int
  | 0, _ => []
  | n + 1, cpu =>
    (if cpu.writeback.has_insn then [cpu.writeback.pc] else []) ++
      match APEX_cpu_cycle cpu with
      | some (false, c) => retired n c
      | _ => []

/-- The program `MOVC R1,#5; MOVC R2,#10; ADD R3,R1,R2; HALT`. -/
def progAdd : List APEX_Instruction :=
  [ { opcode := .MOVC, rd := 1, rs1 := 0, rs2 := 0, imm := 5 },
    { opcode := .MOVC, rd := 2, rs1 := 0, rs2 := 0, imm := 10 },
    { opcode := .ADD, rd := 3, rs1 := 1, rs2 := 2, imm := 0 },
    { opcode := .HALT, rd := 0, rs1 := 0, rs2 := 0, imm := 0 } ]

/-- The program `MOVC R1,#5; ADD R2,R1,R0; HALT`: the second instruction reads
the register the first one writes. -/
def progHazard : List APEX_Instruction :=
  [ { opcode := .MOVC, rd := 1, rs1 := 0, rs2 := 0, imm := 5 },
    { opcode := .ADD, rd := 2, rs1 := 1, rs2 := 0, imm := 0 },
    { opcode := .HALT, rd := 0, rs1 := 0, rs2 := 0, imm := 0 } ]

/-- The program `MOVC R1,#5; MOVC R2,#10; HALT`: no branch, no dependency. -/
def progIndependent : List APEX_Instruction :=
  [ { opcode := .MOVC, rd := 1, rs1 := 0, rs2 := 0, imm := 5 },
    { opcode := .MOVC, rd := 2, rs1 := 0, rs2 := 0, imm := 10 },
    { opcode := .HALT, rd := 0, rs1 := 0, rs2 := 0, imm := 0 } ]

/-- The program `MOVC R1,#0; BZ,#8; MOVC R2,#1; MOVC R2,#2; HALT`. -/
def progBz : List APEX_Instruction :=
  [ { opcode := .MOVC, rd := 1, rs1 := 0, rs2 := 0, imm := 0 },
    { opcode := .BZ, rd := 0, rs1 := 0, rs2 := 0, imm := 8 },
    { opcode := .MOVC, rd := 2, rs1 := 0, rs2 := 0, imm := 1 },
    { opcode := .MOVC, rd := 2, rs1 := 0, rs2 := 0, imm := 2 },
    { opcode := .HALT, rd := 0, rs1 := 0, rs2 := 0, imm := 0 } ]

/-- The program `JALR R1,R0,#4008; NOP; HALT`: the jump at address 4000 targets
the HALT at address 4008. -/
def progJalr : List APEX_Instruction :=
  [ { opcode := .JALR, rd := 1, rs1 := 0, rs2 := 0, imm := 4008 },
    { opcode := .NOP, rd := 0, rs1 := 0, rs2 := 0, imm := 0 },
    { opcode := .HALT, rd := 0, rs1 := 0, rs2 := 0, imm := 0 } ]

/-- The program consisting of `HALT` alone. -/
def progHalt : List APEX_Instruction :=
  [ { opcode := .HALT, rd := 0, rs1 := 0, rs2 := 0, imm := 0 } ]

/-- The state reached by `progHazard` once `MOVC R1,#5` has retired, with the
clock at `c`: Fetch and Decode hold the stalled `ADD R2,R1,R0`, the three later
latches are empty. -/
def hazardStuck (c : Int) : APEX_CPU :=
  let add : CPU_Stage :=
    { pc := 4004, opcode := .ADD, rs1 := 1, rs2 := 0, rd := 2, imm := 0,
      rs1_value := 0, rs2_value := 0, rd_value := 0, result_buffer := 0,
      memory_address := 0, has_insn := true, stall := true }
  let movc : CPU_Stage :=
    { pc := 4000, opcode := .MOVC, rs1 := 0, rs2 := 0, rd := 1, imm := 5,
      rs1_value := 0, rs2_value := 0, rd_value := 0, result_buffer := 5,
      memory_address := 0, has_insn := false, stall := false }
  { pc := 4008, clock := c, insn_completed := 1,
    regs := [0, 5, 0, 0, 0, 0, 0, 0, 0, 0, 0, 0, 0, 0, 0, 0],
    code_memory := progHazard,
    data_memory := List.replicate 4096 0,
    zero_flag := false, neg_flag := false, pos_flag := false,
    fetch_from_next_cycle := false,
    fetch := add, decode := add, execute := movc, memory := movc, writeback := movc,
    btb := initialize_BTB 4 }

/-- A state whose Execute latch holds a valid instruction `op` at address 4000
with operand values `a` and `b` and immediate `imm`; everything else is as
after `APEX_cpu_init`. -/
def executeState (op : Opcode) (a b imm : Int) : APEX_CPU :=
  let cpu := APEX_cpu_init (sampleParams .ADD) []
  { cpu with
    execute :=
      { cpu.execute with
        pc := 4000, opcode := op, rs1 := 1, rs2 := 2, imm := imm,
        rs1_value := a, rs2_value := b, has_insn := true } }

/-- The three condition flags of a state. -/
def flags (cpu : APEX_CPU) : Bool × Bool × Bool :=
  (cpu.zero_flag, cpu.neg_flag, cpu.pos_flag)

/-- The conditional branch opcodes. -/
def is_conditional_branch : Opcode → Bool
  | .BZ | .BNZ | .BP | .BNP | .BN | .BNN => true
  | _ => false

/-- The flag test the specification associates with each conditional branch:
Zero, Not-Zero, Positive, Not-Positive, Negative, Not-Negative. -/
def branch_test (op : Opcode) (cpu : APEX_CPU) : Bool :=
  match op with
  | .BZ => cpu.zero_flag
  | .BNZ => !cpu.zero_flag
  | .BP => cpu.pos_flag
  | .BNP => !cpu.pos_flag
  | .BN => cpu.neg_flag
  | .BNN => !cpu.neg_flag
  | _ => false

/-! ## Halt ordering -/

/-- The ordering invariant behind the retirement of Halt: the three later
latches are never stalled, a disabled Fetch last fetched `HALT`, and a valid
`HALT` in a latch has nothing valid behind it and Fetch disabled. -/
structure HaltOrder (cpu : APEX_CPU) : Prop where
  execute_stall : cpu.execute.stall = false
  memory_stall : cpu.memory.stall = false
  writeback_stall : cpu.writeback.stall = false
  fetch_off : cpu.fetch.has_insn = false → cpu.fetch.opcode = .HALT
  in_decode : cpu.decode.has_insn = true → cpu.decode.opcode = .HALT →
    cpu.fetch.has_insn = false
  in_execute : cpu.execute.has_insn = true → cpu.execute.opcode = .HALT →
    cpu.fetch.has_insn = false ∧ cpu.decode.has_insn = false
  in_memory : cpu.memory.has_insn = true → cpu.memory.opcode = .HALT →
    cpu.fetch.has_insn = false ∧ cpu.decode.has_insn = false ∧
      cpu.execute.has_insn = false
  in_writeback : cpu.writeback.has_insn = true → cpu.writeback.opcode = .HALT →
    cpu.fetch.has_insn = false ∧ cpu.decode.has_insn = false ∧
      cpu.execute.has_insn = false ∧ cpu.memory.has_insn = false

/-- One evaluation of all the stages in the order of the driver, Writeback
first, with the halt signal and the clock ignored: what "evaluating the stages
once more" means after the loop has been left. -/
def APEX_pass (cpu : APEX_CPU) : Option APEX_CPU :=
  match APEX_writeback cpu with
  | none => none
  | some (_, c) => APEX_stages c

/-- The stages evaluated `n` times in a row. -/
def APEX_passes : Nat → APEX_CPU → Option APEX_CPU
  | 0, cpu => some cpu
  | n + 1, cpu =>
    match APEX_pass cpu with
    | none => none
    | some c => APEX_passes n c

/-! ## Straight-line programs -/

/-- The opcodes allowed in the body of a straight-line program: no branch, no
jump, no `NOP` (which never retires), and none of the opcodes after which the
hazard check fetches a second time (the nine it treats as register-writing);
`LOADP`, which rewrites its own `rd`, is left out as well. -/
def straight_op : Opcode → Bool
  | .DIV | .CMP | .CML | .LOAD | .STORE | .STOREP => true
  | _ => false

/-- The opcodes of the body that access data memory. -/
def is_mem_op : Opcode → Bool
  | .LOAD | .STORE | .STOREP => true
  | _ => false

/-- A well-formed instruction of a straight-line body: an allowed opcode,
register indices inside the register file and, for a memory access, an
immediate that is an address of data memory. -/
def straight_insn (p : APEX_Params) (i : APEX_Instruction) : Prop :=
  straight_op i.opcode = true ∧
  0 ≤ i.rs1 ∧ i.rs1 < p.REG_FILE_SIZE ∧
  0 ≤ i.rs2 ∧ i.rs2 < p.REG_FILE_SIZE ∧
  0 ≤ i.rd ∧ i.rd < p.REG_FILE_SIZE ∧
  (is_mem_op i.opcode = true →
    0 ≤ i.imm ∧ i.imm < p.DATA_MEMORY_SIZE ∧ i.imm < 2147483648)

/-- A straight-line program: its last instruction is `HALT` and every
instruction before it is a well-formed instruction of a straight-line body. -/
def StraightProgram (p : APEX_Params) (code : List APEX_Instruction) : Prop :=
  ∀ j i, code.get? j = some i →
    (j + 1 = code.length → i.opcode = .HALT) ∧
    (j + 1 < code.length → straight_insn p i)

/-- What Decode needs of a valid latch of a straight-line program. -/
def okDecode (p : APEX_Params) (l : CPU_Stage) : Prop :=
  (straight_op l.opcode = true ∨ l.opcode = .HALT) ∧
  (straight_op l.opcode = true →
    0 ≤ l.rs1 ∧ l.rs1 < p.REG_FILE_SIZE ∧ 0 ≤ l.rs2 ∧ l.rs2 < p.REG_FILE_SIZE ∧
    0 ≤ l.rd ∧ l.rd < p.REG_FILE_SIZE) ∧
  (is_mem_op l.opcode = true →
    0 ≤ l.imm ∧ l.imm < p.DATA_MEMORY_SIZE ∧ l.imm < 2147483648)

/-- What Execute needs of a valid latch of a straight-line program. -/
def okExecute (p : APEX_Params) (l : CPU_Stage) : Prop :=
  (straight_op l.opcode = true ∨ l.opcode = .HALT) ∧
  (l.opcode = .LOAD → 0 ≤ l.rd ∧ l.rd < p.REG_FILE_SIZE) ∧
  (is_mem_op l.opcode = true →
    l.rs1_value = 0 ∧ 0 ≤ l.imm ∧ l.imm < p.DATA_MEMORY_SIZE ∧ l.imm < 2147483648) ∧
  (l.opcode = .STORE ∨ l.opcode = .STOREP → l.rs2_value = 0)

/-- What Memory needs of a valid latch of a straight-line program. -/
def okMemory (p : APEX_Params) (l : CPU_Stage) : Prop :=
  (straight_op l.opcode = true ∨ l.opcode = .HALT) ∧
  (l.opcode = .LOAD → 0 ≤ l.rd ∧ l.rd < p.REG_FILE_SIZE) ∧
  (is_mem_op l.opcode = true →
    0 ≤ l.memory_address ∧ l.memory_address < p.DATA_MEMORY_SIZE) ∧
  (l.opcode = .STORE ∨ l.opcode = .STOREP → l.result_buffer = 0)

/-- What Writeback needs of a valid latch of a straight-line program. -/
def okWriteback (p : APEX_Params) (l : CPU_Stage) : Prop :=
  (straight_op l.opcode = true ∨ l.opcode = .HALT) ∧
  (l.opcode = .LOAD → 0 ≤ l.rd ∧ l.rd < p.REG_FILE_SIZE ∧ l.result_buffer = 0)

/-- The latch `l` at distance `d` behind Fetch after `t` cycles of the program
`code`: it is not stalled, it is valid exactly when the instruction fetched in
cycle `t - d` exists, and then it carries the opcode of that instruction and
satisfies `ok`. -/
def Slot (code : List APEX_Instruction) (t d : Nat) (ok : CPU_Stage → Prop)
    (l : CPU_Stage) : Prop :=
  l.stall = false ∧
  l.has_insn = decide (d ≤ t ∧ t < d + code.length) ∧
  (l.has_insn = true →
    (∃ i, code.get? (t - d) = some i ∧ l.opcode = i.opcode) ∧ ok l)

/-- The state of the pipeline after `t` cycles of a straight-line program
`code`: registers and data memory are still zero, the instruction fetched in
cycle `j` sits `t - j` latches further on, and the counters follow `t`. -/
structure Flow (p : APEX_Params) (code : List APEX_Instruction) (t : Nat)
    (s : APEX_CPU) : Prop where
  code_eq : s.code_memory = code
  regs_eq : s.regs = List.replicate p.REG_FILE_SIZE 0
  mem_eq : s.data_memory = List.replicate p.DATA_MEMORY_SIZE 0
  clock_eq : s.clock = t
  count_eq : s.insn_completed = ((t - 4 : Nat) : Int)
  pc_eq : s.pc = 4000 + 4 * ((min t code.length : Nat) : Int)
  delay : s.fetch_from_next_cycle = false
  fetch_stall : s.fetch.stall = false
  fetch_on : s.fetch.has_insn = decide (t < code.length)
  predict : find_in_BTB s.btb s.fetch.pc = -1 ∨
    (s.fetch.opcode ≠ .BZ ∧ s.fetch.opcode ≠ .BNZ ∧ s.fetch.opcode ≠ .BP ∧
      s.fetch.opcode ≠ .BNP)
  decode : Slot code t 1 (okDecode p) s.decode
  execute : Slot code t 2 (okExecute p) s.execute
  memory : Slot code t 3 (okMemory p) s.memory
  writeback : Slot code t 4 (okWriteback p) s.writeback

/-- The latch Execute hands to Memory for the opcodes of a straight-line
program. -/
def execute_out (l : CPU_Stage) : CPU_Stage :=
  match l.opcode with
  | .LOAD => { l with memory_address := wrap32 (l.rs1_value + l.imm) }
  | .STORE | .STOREP =>
    { l with memory_address := wrap32 (l.rs1_value + l.imm), result_buffer := l.rs2_value }
  | .CMP | .CML => { l with result_buffer := l.imm }
  | _ => l

/-- The latch Memory hands to Writeback for the opcodes of a straight-line
program, data memory being zero. -/
def memory_out (l : CPU_Stage) : CPU_Stage :=
  match l.opcode with
  | .LOAD => { l with result_buffer := 0 }
  | _ => l

/-- The program `CMP R1,R2; HALT`. -/
def progCmp : List APEX_Instruction :=
  [ { opcode := .CMP, rd := 0, rs1 := 1, rs2 := 2, imm := 0 },
    { opcode := .HALT, rd := 0, rs1 := 0, rs2 := 0, imm := 0 } ]

/-- The state of `progHalt` after four cycles, when `HALT` is about to retire. -/
def haltReady : APEX_CPU :=
  (APEX_cycles 4 (APEX_cpu_init (sampleParams .ADD) progHalt)).getD
    (APEX_cpu_init (sampleParams .ADD) progHalt)

/-- The state Writeback leaves when it retires the `HALT` of `haltReady`. -/
def haltDone : APEX_CPU :=
  ((APEX_writeback haltReady).getD (false, haltReady)).2

/-! ## States and specification-side definitions for the stage contracts -/

/-- A state in which Decode holds a valid `ADD R3,R1,R2` while the Execute latch
holds `MOVC R1,#5` with its result 5 in the result buffer; the register file
still has the old value 7 in `R1`, and the Memory latch targets `R0`. -/
def forwardState : APEX_CPU :=
  let cpu := APEX_cpu_init (sampleParams .ADD) []
  { cpu with
    regs := [0, 7, 0, 0, 0, 0, 0, 0, 0, 0, 0, 0, 0, 0, 0, 0]
    decode :=
      { cpu.decode with
        pc := 4004, opcode := .ADD, rd := 3, rs1 := 1, rs2 := 2, has_insn := true }
    execute :=
      { cpu.execute with
        pc := 4000, opcode := .MOVC, rd := 1, imm := 5, result_buffer := 5 } }

/-- The opcodes for which the specification has Writeback write `registers[rd]`. -/
def writeback_writes : Opcode → Bool
  | .ADD | .SUB | .MUL | .AND | .OR | .XOR | .ADDL | .SUBL | .MOVC
  | .LOAD | .LOADP | .JALR => true
  | _ => false

/-- The result the specification gives for the arithmetic and logical opcodes,
in 32-bit two's-complement arithmetic; `none` for every other opcode. -/
def alu_result (op : Opcode) (a b imm : Int) : Option Int :=
  match op with
  | .ADD => some (wrap32 (a + b))
  | .SUB => some (wrap32 (a - b))
  | .ADDL => some (wrap32 (a + imm))
  | .SUBL => some (wrap32 (a - imm))
  | .AND => some (Int.land a b)
  | .OR => some (Int.lor a b)
  | .XOR => some (Int.xor a b)
  | _ => none

/-- The arithmetic and logical opcodes that set `zero_flag` from their result. -/
def alu_sets_zero : Opcode → Bool
  | .ADD | .SUB | .ADDL | .SUBL | .AND => true
  | _ => false

/-- No valid latch behind Fetch holds a `NOP`. -/
structure NoNop (cpu : APEX_CPU) : Prop where
  decode : cpu.decode.has_insn = true → cpu.decode.opcode ≠ .NOP
  execute : cpu.execute.has_insn = true → cpu.execute.opcode ≠ .NOP
  memory : cpu.memory.has_insn = true → cpu.memory.opcode ≠ .NOP
  writeback : cpu.writeback.has_insn = true → cpu.writeback.opcode ≠ .NOP

/-- A state whose Writeback latch holds a valid instruction `op` with
destination `rd` and result buffer `v`; everything else is as after
`APEX_cpu_init`. -/
def writebackState (op : Opcode) (rd v : Int) : APEX_CPU :=
  let cpu := APEX_cpu_init (sampleParams .ADD) []
  { cpu with
    writeback :=
      { cpu.writeback with
        pc := 4000, opcode := op, rd := rd, result_buffer := v, has_insn := true } }

/-- A state whose Memory latch holds a valid instruction `op` with memory
address `addr` and result buffer `v`, over a data memory of four words holding
10, 20, 30, 40. -/
def memoryState (op : Opcode) (addr v : Int) : APEX_CPU :=
  let cpu := APEX_cpu_init (sampleParams .ADD) []
  { cpu with
    data_memory := [10, 20, 30, 40]
    memory :=
      { cpu.memory with
        pc := 4000, opcode := op, rd := 1, memory_address := addr,
        result_buffer := v, has_insn := true } }

/-- The state of `progJalr` after one cycle: Fetch is about to read the `NOP`
at address 4004. -/
def nopBefore : APEX_CPU :=
  (APEX_cycles 1 (APEX_cpu_init (sampleParams .ADD) progJalr)).getD
    (APEX_cpu_init (sampleParams .ADD) progJalr)

/-- The state of `progJalr` after two cycles: the `NOP` has been fetched. -/
def nopAfter : APEX_CPU :=
  (APEX_cycles 2 (APEX_cpu_init (sampleParams .ADD) progJalr)).getD
    (APEX_cpu_init (sampleParams .ADD) progJalr)

/-! ## Latch protocol, stalls and the bounds of Fetch -/

/-- The state the closing hazard check of the second cycle of `progAdd` is
called on: Execute holds the valid `MOVC R1,#5` decoded in this cycle, Decode
the valid `MOVC R2,#10` fetched in this cycle, and `pc` is 4008. -/
def noHazardState : APEX_CPU :=
  let cpu := APEX_cpu_init (sampleParams .ADD) progAdd
  { cpu with
    pc := 4008
    clock := 1
    fetch := { cpu.fetch with pc := 4004, opcode := .MOVC, rd := 2, imm := 10 }
    decode :=
      { cpu.decode with pc := 4004, opcode := .MOVC, rd := 2, imm := 10, has_insn := true }
    execute :=
      { cpu.execute with pc := 4000, opcode := .MOVC, rd := 1, imm := 5, has_insn := true } }

/-- The instruction fields of a latch: address, opcode, the three register
indices and the immediate. -/
def insn_fields (l : CPU_Stage) : Int × Opcode × Int × Int × Int × Int :=
  (l.pc, l.opcode, l.rd, l.rs1, l.rs2, l.imm)
/-- The test under which Execute redirects the fetch for the opcode in its
latch: always for `JUMP` and `JALR`, and for each conditional branch the flag
test written in its case of the switch of `APEX_execute`. -/
def takes_branch (cpu : APEX_CPU) : Bool :=
  match cpu.execute.opcode with
  | .JUMP | .JALR => true
  | .BZ => cpu.zero_flag
  | .BNZ => !cpu.zero_flag
  | .BP => cpu.pos_flag
  | .BNP => !cpu.pos_flag
  | .BN => cpu.neg_flag
  | .BNN => !cpu.neg_flag
  | _ => false

/-- Whether the instruction in the Decode latch is flushed in the cycle that
starts in `cpu`: the Execute latch is valid and holds a jump or a branch that
is taken. -/
def flushes_decode (cpu : APEX_CPU) : Bool :=
  cpu.execute.has_insn && takes_branch cpu

/-- The state of `progAdd` after three cycles: the Memory, Execute and Decode
latches are all valid. -/
def advanceState : APEX_CPU :=
  (APEX_cycles 3 (APEX_cpu_init (sampleParams .ADD) progAdd)).getD
    (APEX_cpu_init (sampleParams .ADD) progAdd)

/-- The state one cycle after `advanceState`. -/
def advanceNext : APEX_CPU :=
  ((APEX_cpu_cycle advanceState).getD (false, advanceState)).2
/-- The invariant of the two stall flags: they are set and cleared together,
and while they are set the Decode latch is valid and a valid Execute latch
holds one of the opcodes of `is_write_to_reg_instruction`. -/
structure StallInv (cpu : APEX_CPU) : Prop where
  same : cpu.fetch.stall = cpu.decode.stall
  held : cpu.decode.stall = true → cpu.decode.has_insn = true
  writer : cpu.decode.stall = true → cpu.execute.has_insn = true →
    is_write_to_reg_instruction cpu.execute.opcode = true

/-- The state of `progHazard` after two cycles, at the end of the cycle in
which the stall is asserted. -/
def stallStart : APEX_CPU :=
  (APEX_cycles 2 (APEX_cpu_init (sampleParams .ADD) progHazard)).getD
    (APEX_cpu_init (sampleParams .ADD) progHazard)
/-- The branch and jump opcodes: the ones whose case in `APEX_execute` assigns
the program counter. -/
def is_branch_or_jump : Opcode → Bool
  | .BZ | .BNZ | .BP | .BNP | .BN | .BNN | .JUMP | .JALR => true
  | _ => false

/-- Source: `APEX_fetch`, lines 243-273: the index of code memory that the body
of Fetch reads when run on `cpu`, that is `get_code_memory_index_from_pc` of the
program counter left by the BTB consultation; `none` when the body performs no
read (Fetch disabled, a refetch delay pending, or the BTB access itself out of
bounds). The stall flags play no part in it. -/
def fetch_read_index (cpu : APEX_CPU) : Option Int :=
  match fetch_predict cpu with
  | none => none
  | some c =>
    if c.fetch.has_insn = true ∧ c.fetch_from_next_cycle = false then
      some (get_code_memory_index_from_pc c.pc)
    else none

/-- The calls the driver `APEX_cpu_run` makes in a cycle: the five stage
functions, `detect_data_hazards`, and the increment of the clock. -/
inductive Stage_call where
  | writeback | memory | execute | decode | fetch | hazards | tick
  deriving DecidableEq, Repr

/-- The effect of one call of the driver on the state; the return value of
Writeback is dropped. -/
def APEX_call : Stage_call → APEX_CPU → Option APEX_CPU
  | .writeback, cpu => (APEX_writeback cpu).map fun r => r.2
  | .memory, cpu => APEX_memory cpu
  | .execute, cpu => APEX_execute cpu
  | .decode, cpu => APEX_decode cpu
  | .fetch, cpu => APEX_fetch cpu
  | .hazards, cpu => detect_data_hazards cpu
  | .tick, cpu => some { cpu with clock := wrap32 (cpu.clock + 1) }

/-- A sequence of calls, in any order: the states the driver passes through
inside a cycle are reached from the state at the start of the cycle by an
initial part of the sequence Writeback, Memory, Execute, Decode, Fetch (each
replaced by the hazard check when its latch is stalled), the hazard check, the
clock increment. -/
def APEX_calls : List Stage_call → APEX_CPU → Option APEX_CPU
  | [], cpu => some cpu
  | x :: rest, cpu => (APEX_call x cpu).bind (APEX_calls rest)

/-- The invariant of a program without branches and jumps: code memory and the
empty BTB are untouched, the program counter is `4000 + 4 * j` after `j`
fetches, none of the instructions fetched so far is `HALT` while Fetch is
enabled, an enabled Fetch has not fetched `HALT` (its latch is the initial one,
of address 0, or holds another opcode), and the valid Decode and Execute
latches hold no branch or jump. -/
structure FetchInv (p : APEX_Params) (code : List APEX_Instruction)
    (cpu : APEX_CPU) : Prop where
  code_eq : cpu.code_memory = code
  btb_eq : cpu.btb = initialize_BTB p.BTB_SIZE
  fetch_pc : cpu.fetch.pc ≠ -1
  fetch_halt : cpu.fetch.has_insn = true → cpu.fetch.pc = 0 ∨ cpu.fetch.opcode ≠ .HALT
  pc_at : ∃ j : Nat, j ≤ code.length ∧ cpu.pc = 4000 + 4 * (j : Int) ∧
    (cpu.fetch.has_insn = true →
      ∀ i x, i < j → code.get? i = some x → x.opcode ≠ .HALT)
  decode_ok : cpu.decode.has_insn = true → is_branch_or_jump cpu.decode.opcode = false
  execute_ok : cpu.execute.has_insn = true → is_branch_or_jump cpu.execute.opcode = false

/-- The state of `progAdd` after one cycle. -/
def progAddCycle1 : APEX_CPU :=
  (APEX_cycles 1 (APEX_cpu_init (sampleParams .ADD) progAdd)).getD
    (APEX_cpu_init (sampleParams .ADD) progAdd)

/-! ## Theorems -/

/-- More fuel does not change the outcome of a run that has halted. -/
theorem APEX_cpu_run_add (k : Nat) :
    ∀ (n : Nat) (cpu r : APEX_CPU), APEX_cpu_run n cpu = some r →
      APEX_cpu_run (n + k) cpu = some r := by
  intro n
  induction n with
  | zero => intro cpu r h; simp [APEX_cpu_run] at h
  | succ m ih =>
    intro cpu r h
    rw [Nat.add_right_comm]
    simp only [APEX_cpu_run] at h ⊢
    cases hc : APEX_cpu_cycle cpu with
    | none => rw [hc] at h; simp at h
    | some v =>
      obtain ⟨b, c⟩ := v
      rw [hc] at h
      cases b with
      | true => simpa using h
      | false => simpa using ih c r (by simpa using h)

/-- A run that halts within `n` cycles gives the same observation with any
larger fuel. -/
theorem APEX_cpu_run_map_add {α : Type} (f : APEX_CPU → α) (n k : Nat) (cpu : APEX_CPU)
    (v : α) (h : (APEX_cpu_run n cpu).map f = some v) :
    (APEX_cpu_run (n + k) cpu).map f = some v := by
  cases hr : APEX_cpu_run n cpu with
  | none => rw [hr] at h; simp at h
  | some r =>
    rw [hr] at h
    rw [APEX_cpu_run_add k n cpu r hr]
    exact h

/-- Running after `n` full cycles is running with `n` more units of fuel. -/
theorem APEX_cpu_run_cycles :
    ∀ (n m : Nat) (cpu c : APEX_CPU), APEX_cycles n cpu = some c →
      APEX_cpu_run (n + m) cpu = APEX_cpu_run m c := by
  intro n
  induction n with
  | zero => intro m cpu c h; simp [APEX_cycles] at h; simp [h]
  | succ k ih =>
    intro m cpu c h
    rw [Nat.add_right_comm]
    simp only [APEX_cycles] at h
    simp only [APEX_cpu_run]
    cases hc : APEX_cpu_cycle cpu with
    | none => rw [hc] at h; simp at h
    | some v =>
      obtain ⟨b, c1⟩ := v
      rw [hc] at h
      cases b with
      | true => simp at h
      | false => simpa using ih m c1 c (by simpa using h)

/-- Full cycles compose. -/
theorem APEX_cycles_add :
    ∀ (n m : Nat) (cpu c : APEX_CPU), APEX_cycles n cpu = some c →
      APEX_cycles (n + m) cpu = APEX_cycles m c := by
  intro n
  induction n with
  | zero => intro m cpu c h; simp [APEX_cycles] at h; simp [h]
  | succ k ih =>
    intro m cpu c h
    rw [Nat.add_right_comm]
    simp only [APEX_cycles] at h ⊢
    cases hc : APEX_cpu_cycle cpu with
    | none => rw [hc] at h; simp at h
    | some v =>
      obtain ⟨b, c1⟩ := v
      rw [hc] at h
      cases b with
      | true => simp at h
      | false => simpa using ih m c1 c (by simpa using h)

/-- C1 (code defect). For `MOVC R1,#5; MOVC R2,#10; ADD R3,R1,R2; HALT` the run
from the initial state halts after six cycles, for every fuel of at least
seven, with `registers[3] == 0` and `completed_instruction_count == 3`, not 15
and 4: the hazard check at the end of cycle 1 fetches a second time and
overwrites `MOVC R2,#10` in the Decode latch, and `ADD` reads `R1` before
`MOVC R1,#5` has written it. -/
theorem C1_add_program_loses_an_instruction (z : Opcode) (k : Nat) :
    (APEX_cpu_run (7 + k) (APEX_cpu_init (sampleParams z) progAdd)).map
        (fun cpu => (cpu.regs, cpu.insn_completed, cpu.clock))
      = some ([0, 5, 0, 0, 0, 0, 0, 0, 0, 0, 0, 0, 0, 0, 0, 0], 3, 6) := by
  apply APEX_cpu_run_map_add
  cases z <;> decide

/-- The stalled state of `progHazard` is reached after five cycles. -/
theorem hazard_reaches_stuck (z : Opcode) :
    APEX_cycles 5 (APEX_cpu_init (sampleParams z) progHazard) = some (hazardStuck 5) := by
  cases z <;> rfl

/-- In the stalled state a cycle changes nothing but the clock. -/
theorem hazardStuck_cycle (c : Int) :
    APEX_cpu_cycle (hazardStuck c) = some (false, hazardStuck (wrap32 (c + 1))) := by
  rfl

/-- From the stalled state no Halt ever retires. -/
theorem hazardStuck_run (m : Nat) : ∀ c : Int, APEX_cpu_run m (hazardStuck c) = none := by
  induction m with
  | zero => intro c; rfl
  | succ k ih =>
    intro c
    simp only [APEX_cpu_run, hazardStuck_cycle]
    exact ih _

/-- From the stalled state every number of cycles leads to the stalled state. -/
theorem hazardStuck_cycles (m : Nat) :
    ∀ c : Int, ∃ c2 : Int, APEX_cycles m (hazardStuck c) = some (hazardStuck c2) := by
  induction m with
  | zero => intro c; exact ⟨c, rfl⟩
  | succ k ih =>
    intro c
    simp only [APEX_cycles, hazardStuck_cycle]
    exact ih _

/-- C2 (code defect). In `MOVC R1,#5; ADD R2,R1,R0; HALT` the `ADD` at address 4004
immediately follows the writer of its `rs1`. Run from the initial state, the
simulator never halts, whatever the fuel; every number `n` of cycles can be
performed, and after them the Execute latch does not hold the instruction of
address 4004 while, from the second cycle on, the Decode latch is stalled: the
stall asserted at the end of cycle 1 is never released, because the hazard
check only acts while Execute still holds a valid instruction. -/
theorem C2_raw_hazard_never_reaches_execute (z : Opcode) (n : Nat) :
    APEX_cpu_run n (APEX_cpu_init (sampleParams z) progHazard) = none ∧
    (APEX_cycles n (APEX_cpu_init (sampleParams z) progHazard)).map
        (fun cpu => (decide (cpu.execute.pc ≠ 4004), cpu.decode.stall))
      = some (true, decide (2 ≤ n)) := by
  rcases Nat.lt_or_ge n 5 with h | h
  · interval_cases n <;> cases z <;> decide
  · obtain ⟨m, rfl⟩ := Nat.exists_eq_add_of_le h
    constructor
    · rw [APEX_cpu_run_cycles 5 m _ _ (hazard_reaches_stuck z)]
      exact hazardStuck_run m 5
    · rw [APEX_cycles_add 5 m _ _ (hazard_reaches_stuck z)]
      obtain ⟨c2, hc⟩ := hazardStuck_cycles m 5
      rw [hc]
      have h2 : 2 ≤ 5 + m := by omega
      rw [decide_eq_true h2]
      rfl

/-- C4 (code defect). `MOVC R1,#5; MOVC R2,#10; HALT` has no branch and no
register dependency and `n = 2` instructions before `HALT`, so the clock at the
retiring Halt should be `5 + 2 - 1 = 6`. The run stops with the clock at 5:
the second fetch made by the hazard check at the end of cycle 1 replaces
`MOVC R2,#10` (address 4004) in the Decode latch by `HALT`, so only the
instructions of addresses 4000 and 4008 retire and Halt arrives a cycle early. -/
theorem C4_clock_one_cycle_short (z : Opcode) (k : Nat) :
    (APEX_cpu_run (6 + k) (APEX_cpu_init (sampleParams z) progIndependent)).map
        (fun cpu => cpu.clock) = some 5 ∧
    retired 6 (APEX_cpu_init (sampleParams z) progIndependent) = [4000, 4008] := by
  constructor
  · apply APEX_cpu_run_map_add
    cases z <;> decide
  · cases z <;> decide

/-- C5 (code defect). For `MOVC R1,#0; BZ,#8; MOVC R2,#1; MOVC R2,#2; HALT` the
run halts with `registers[2] == 1`, not 2. Execute only ever processes the
instructions of addresses 4000, 4008 and 4016, and exactly these retire: `BZ`
(address 4004) is overwritten in the Decode latch by the second fetch of the
hazard check and never reaches Execute, no redirect takes place, and the
sequential-path instruction `MOVC R2,#1` (address 4008) does retire. -/
theorem C5_bz_never_executes (z : Opcode) (k : Nat) :
    (APEX_cpu_run (7 + k) (APEX_cpu_init (sampleParams z) progBz)).map
        (fun cpu => (cpu.regs, cpu.insn_completed))
      = some ([0, 0, 1, 0, 0, 0, 0, 0, 0, 0, 0, 0, 0, 0, 0, 0], 3) ∧
    executed 7 (APEX_cpu_init (sampleParams z) progBz) = [4000, 4008, 4016] ∧
    retired 7 (APEX_cpu_init (sampleParams z) progBz) = [4000, 4008, 4016] := by
  refine ⟨?_, ?_, ?_⟩
  · apply APEX_cpu_run_map_add
    cases z <;> decide
  · cases z <;> decide
  · cases z <;> decide

/-- C7 (code defect). In `JALR R1,R0,#4008; NOP; HALT` the jump-and-link sits at
address `p = 4000` with link register `R1`. It retires (addresses 4000 and 4008
retire) and the run halts with `registers[1] == 4008`, the jump target, instead
of `p + 4 == 4004`; the return address went to `registers[0]`. Execute stores
`pc + 4` at index `rd_value`, the content of the link register, and Writeback
then writes the result buffer, which holds `rs1_value + imm`, into `rd`. -/
theorem C7_jalr_links_the_target (z : Opcode) (k : Nat) :
    (APEX_cpu_run (8 + k) (APEX_cpu_init (sampleParams z) progJalr)).map
        (fun cpu => cpu.regs)
      = some [4004, 4008, 0, 0, 0, 0, 0, 0, 0, 0, 0, 0, 0, 0, 0, 0] ∧
    retired 8 (APEX_cpu_init (sampleParams z) progJalr) = [4000, 4008] := by
  constructor
  · apply APEX_cpu_run_map_add
    cases z <;> decide
  · cases z <;> decide

/-- C8 (code defect). Execute on a valid, non-stalled `CMP` with `rs1_value = 1`,
`rs2_value = 2` and immediate `0` leaves `zero_flag` TRUE, `negative_flag`
FALSE and `positive_flag` TRUE, where the comparison of 1 with 2 asks for
FALSE, TRUE, FALSE: the CMP case has no `break`, so the CML case compares
`rs1_value` with the immediate and the MOVC case sets `zero_flag` from the
immediate. -/
theorem C8_cmp_falls_through :
    (APEX_execute (executeState .CMP 1 2 0)).map flags = some (true, false, true) := by
  decide

/-- C9 (code defect). Execute on a valid, non-stalled `CML` with `rs1_value = 1`
and immediate `1` leaves all three flags FALSE, so none of them is TRUE although
the operands are equal: the CML case has no `break`, and the MOVC case it falls
into sets `zero_flag` from the immediate, which is not zero. -/
theorem C9_cml_falls_through :
    (APEX_execute (executeState .CML 1 0 1)).map flags = some (false, false, false) := by
  decide

/-- On the range of a 32-bit `int`, `wrap32` is the identity. -/
theorem wrap32_of_range (x : Int) (h1 : -2147483648 ≤ x) (h2 : x < 2147483648) :
    wrap32 x = x := by
  unfold wrap32
  omega

/-- C10. For a valid, non-stalled Execute latch holding a conditional branch
(BZ, BNZ, BP, BNP, BN or BNN) with latch address `pc` and immediate `imm`,
Execute succeeds. If the flag test of the opcode passes, `program_counter`
becomes `pc + imm` (in 32-bit arithmetic, hence exactly `pc + imm` when the sum
is representable), the refetch-delay flag is set, the Decode latch is invalid
and Fetch is enabled. If the test fails, `program_counter`, the refetch-delay
flag and the valid bits of Decode and Fetch are unchanged. In both cases the
three flags and the register file are unchanged. -/
theorem C10_conditional_branch (cpu : APEX_CPU)
    (hv : cpu.execute.has_insn = true) (hs : cpu.execute.stall = false)
    (hb : is_conditional_branch cpu.execute.opcode = true) :
    ∃ c, APEX_execute cpu = some c ∧
      (branch_test cpu.execute.opcode cpu = true →
        c.pc = wrap32 (cpu.execute.pc + cpu.execute.imm) ∧
        (-2147483648 ≤ cpu.execute.pc + cpu.execute.imm →
          cpu.execute.pc + cpu.execute.imm < 2147483648 →
          c.pc = cpu.execute.pc + cpu.execute.imm) ∧
        c.fetch_from_next_cycle = true ∧ c.decode.has_insn = false ∧
        c.fetch.has_insn = true) ∧
      (branch_test cpu.execute.opcode cpu = false →
        c.pc = cpu.pc ∧ c.fetch_from_next_cycle = cpu.fetch_from_next_cycle ∧
        c.decode.has_insn = cpu.decode.has_insn ∧
        c.fetch.has_insn = cpu.fetch.has_insn) ∧
      c.zero_flag = cpu.zero_flag ∧ c.neg_flag = cpu.neg_flag ∧
      c.pos_flag = cpu.pos_flag ∧ c.regs = cpu.regs := by
  have hw := wrap32_of_range (cpu.execute.pc + cpu.execute.imm)
  cases hop : cpu.execute.opcode <;> simp [hop, is_conditional_branch] at hb
  · cases hz : cpu.zero_flag
    all_goals simp [APEX_execute, execute_switch, redirect, branch_test, hv, hs, hop, hz]
    all_goals exact hw
  · cases hz : cpu.zero_flag
    all_goals simp [APEX_execute, execute_switch, redirect, branch_test, hv, hs, hop, hz]
    all_goals exact hw
  · cases hz : cpu.pos_flag
    all_goals simp [APEX_execute, execute_switch, redirect, branch_test, hv, hs, hop, hz]
    all_goals exact hw
  · cases hz : cpu.pos_flag
    all_goals simp [APEX_execute, execute_switch, redirect, branch_test, hv, hs, hop, hz]
    all_goals exact hw
  · cases hz : cpu.neg_flag
    all_goals simp [APEX_execute, execute_switch, redirect, branch_test, hv, hs, hop, hz]
    all_goals exact hw
  · cases hz : cpu.neg_flag
    all_goals simp [APEX_execute, execute_switch, redirect, branch_test, hv, hs, hop, hz]
    all_goals exact hw

/-! ### Normal forms of the opcode switches -/

/-- The Writeback switch changes the register file only. -/
theorem writeback_switch_form (s c : APEX_CPU) (h : writeback_switch s = some c) :
    c = { s with regs := c.regs } := by
  unfold writeback_switch at h
  cases hw : writeAt s.regs s.writeback.rd s.writeback.result_buffer <;>
    cases hop : s.writeback.opcode <;> simp [hw, hop] at h <;> subst h <;> rfl

/-- The Memory switch changes the result buffer of its latch and data memory
only. -/
theorem memory_switch_form (s c : APEX_CPU) (h : memory_switch s = some c) :
    c = { s with memory := { s.memory with result_buffer := c.memory.result_buffer },
                 data_memory := c.data_memory } := by
  unfold memory_switch at h
  cases hr : readAt s.data_memory s.memory.memory_address <;>
    cases hw : writeAt s.data_memory s.memory.memory_address s.memory.result_buffer <;>
    cases hop : s.memory.opcode <;> simp [hr, hw, hop] at h <;> subst h <;>
    first
      | rfl
      | (simp; exact hop.symm)

/-- The Execute switch changes, besides flags and registers, only the result
buffer, memory address and `rd` of its own latch; a redirect additionally sets
`pc`, raises the refetch delay, invalidates Decode and enables Fetch, and is
never caused by `HALT`. -/
theorem execute_switch_form (s c : APEX_CPU) (h : execute_switch s = some c) :
    c = { s with
          pc := c.pc, regs := c.regs,
          zero_flag := c.zero_flag, neg_flag := c.neg_flag, pos_flag := c.pos_flag,
          fetch_from_next_cycle := c.fetch_from_next_cycle,
          fetch := { s.fetch with has_insn := c.fetch.has_insn },
          decode := { s.decode with has_insn := c.decode.has_insn },
          execute := { s.execute with
            result_buffer := c.execute.result_buffer,
            memory_address := c.execute.memory_address,
            rd := c.execute.rd } } ∧
    ((c.pc = s.pc ∧ c.fetch_from_next_cycle = s.fetch_from_next_cycle ∧
        c.fetch.has_insn = s.fetch.has_insn ∧ c.decode.has_insn = s.decode.has_insn) ∨
      (c.fetch_from_next_cycle = true ∧ c.fetch.has_insn = true ∧
        c.decode.has_insn = false ∧ s.execute.opcode ≠ .HALT)) := by
  unfold execute_switch at h
  cases hw : writeAt s.regs s.execute.rd_value (wrap32 (s.execute.pc + 4)) <;>
    cases hop : s.execute.opcode <;>
    simp [hw, hop, set_zero_flag, set_result, redirect, execute_CMP, execute_CML,
      execute_MOVC, set_compare_flags] at h
  all_goals try split_ifs at h
  all_goals subst h
  all_goals constructor
  all_goals first
    | rfl
    | simp [hop]

/-- Forwarding changes the two operand values of the Decode latch only. -/
theorem decode_forward_form (s : APEX_CPU) :
    decode_forward s = { s.decode with
      rs1_value := (decode_forward s).rs1_value,
      rs2_value := (decode_forward s).rs2_value } := by
  unfold decode_forward
  simp only []
  split_ifs <;> rfl

/-- The register reads of Decode change the three operand values only. -/
theorem decode_read_form (regs : List Int) (d e : CPU_Stage)
    (h : decode_read regs d = some e) :
    e = { d with rs1_value := e.rs1_value, rs2_value := e.rs2_value,
                 rd_value := e.rd_value } := by
  unfold decode_read at h
  cases h1 : readAt regs d.rs1 <;> cases h2 : readAt regs d.rs2 <;>
    cases h3 : readAt regs d.rd <;>
    cases hop : d.opcode <;> simp [h1, h2, h3, hop] at h <;> subst h <;>
    first
      | rfl
      | (cases d; simp_all)

/-! ### The Halt ordering is kept by every stage -/

theorem HaltOrder_writeback (s c : APEX_CPU) (b : Bool) (hI : HaltOrder s)
    (h : APEX_writeback s = some (b, c)) : HaltOrder c := by
  unfold APEX_writeback at h
  simp only [hI.writeback_stall] at h
  by_cases hv : s.writeback.has_insn = true
  · cases hs : writeback_switch s with
    | none => simp [hv, hs] at h
    | some c1 =>
      simp [hv, hs] at h
      obtain ⟨-, rfl⟩ := h
      rw [writeback_switch_form s c1 hs]
      obtain ⟨h1, h2, h3, h4, h5, h6, h7, h8⟩ := hI
      constructor <;> simp_all
  · simp [hv] at h
    obtain ⟨-, rfl⟩ := h
    exact hI

theorem HaltOrder_memory (s c : APEX_CPU) (hI : HaltOrder s)
    (h : APEX_memory s = some c) : HaltOrder c := by
  unfold APEX_memory at h
  simp only [hI.memory_stall] at h
  by_cases hv : s.memory.has_insn = true
  · cases hs : memory_switch s with
    | none => simp [hv, hs] at h
    | some c1 =>
      simp [hv, hs] at h
      subst h
      rw [memory_switch_form s c1 hs]
      obtain ⟨h1, h2, h3, h4, h5, h6, h7, h8⟩ := hI
      constructor <;> simp_all
  · simp [hv] at h
    subst h
    exact hI

theorem HaltOrder_execute (s c : APEX_CPU) (hI : HaltOrder s)
    (h : APEX_execute s = some c) : HaltOrder c := by
  unfold APEX_execute at h
  simp only [hI.execute_stall] at h
  by_cases hv : s.execute.has_insn = true
  · cases hs : execute_switch s with
    | none => simp [hv, hs] at h
    | some c1 =>
      simp [hv, hs] at h
      subst h
      obtain ⟨hf, hr⟩ := execute_switch_form s c1 hs
      rw [hf]
      clear hf hs
      obtain ⟨h1, h2, h3, h4, h5, h6, h7, h8⟩ := hI
      rcases hr with ⟨-, -, r3, r4⟩ | ⟨-, r2, r3, r4⟩
      · constructor <;> simp_all
      · constructor <;> simp_all
  · simp [hv] at h
    subst h
    exact hI

theorem HaltOrder_decode (s c : APEX_CPU) (hI : HaltOrder s)
    (h : APEX_decode s = some c) : HaltOrder c := by
  unfold APEX_decode at h
  by_cases hst : s.decode.stall = true
  · simp [hst] at h
    subst h
    exact hI
  · by_cases hv : s.decode.has_insn = true
    · cases hs : decode_read s.regs (decode_forward s) with
      | none => simp [hst, hv, hs] at h
      | some d =>
        simp [hst, hv, hs] at h
        subst h
        have hd := decode_read_form _ _ _ hs
        rw [decode_forward_form] at hd
        rw [hd]
        clear hd hs
        obtain ⟨h1, h2, h3, h4, h5, h6, h7, h8⟩ := hI
        constructor <;> simp_all
    · simp [hst, hv] at h
      subst h
      exact hI

/-- The BTB consultation of Fetch changes the program counter only. -/
theorem fetch_predict_form (s c : APEX_CPU) (h : fetch_predict s = some c) :
    c = { s with pc := c.pc } := by
  unfold fetch_predict at h
  simp only [] at h
  split_ifs at h
  · cases hr : readAt s.btb (find_in_BTB s.btb s.fetch.pc) with
    | none => simp [hr] at h
    | some e =>
      simp only [hr] at h
      split_ifs at h <;> simp at h <;> subst h <;> rfl
  · simp at h; subst h; rfl
  · simp at h; subst h; rfl

theorem HaltOrder_fetch_insn (s c : APEX_CPU) (hI : HaltOrder s)
    (h : fetch_insn s = some c) : HaltOrder c := by
  unfold fetch_insn at h
  by_cases hv : s.fetch.has_insn = true
  · by_cases hn : s.fetch_from_next_cycle = true
    · simp [hv, hn] at h
      subst h
      obtain ⟨h1, h2, h3, h4, h5, h6, h7, h8⟩ := hI
      constructor <;> simp_all
    · cases hr : readAt s.code_memory (get_code_memory_index_from_pc s.pc) with
      | none => simp [hv, hn, hr] at h
      | some ins =>
        simp [hv, hn, hr] at h
        subst h
        obtain ⟨h1, h2, h3, h4, h5, h6, h7, h8⟩ := hI
        by_cases e1 : ins.opcode = .HALT <;> by_cases e2 : ins.opcode = .NOP <;>
          constructor <;> simp_all
  · simp [hv] at h
    subst h
    exact hI

theorem HaltOrder_fetch_body (s c : APEX_CPU) (hI : HaltOrder s)
    (h : APEX_fetch_body s = some c) : HaltOrder c := by
  unfold APEX_fetch_body at h
  cases hp : fetch_predict s with
  | none => simp [hp] at h
  | some c1 =>
    simp [hp] at h
    apply HaltOrder_fetch_insn c1 c _ h
    rw [fetch_predict_form s c1 hp]
    obtain ⟨h1, h2, h3, h4, h5, h6, h7, h8⟩ := hI
    constructor <;> simp_all

/-- Setting both stall flags to the same value keeps the Halt ordering. -/
theorem HaltOrder_set_stall (s : APEX_CPU) (b : Bool) (hI : HaltOrder s) :
    HaltOrder { s with
      decode := { s.decode with stall := b }
      fetch := { s.fetch with stall := b } } := by
  obtain ⟨h1, h2, h3, h4, h5, h6, h7, h8⟩ := hI
  constructor <;> simp_all

theorem HaltOrder_detect (s c : APEX_CPU) (hI : HaltOrder s)
    (h : detect_data_hazards s = some c) : HaltOrder c := by
  unfold detect_data_hazards at h
  split_ifs at h
  · simp at h; subst h; exact HaltOrder_set_stall s true hI
  · exact HaltOrder_fetch_body _ c (HaltOrder_set_stall s false hI) h
  · simp at h; subst h; exact HaltOrder_set_stall s false hI
  · simp at h; subst h; exact hI

theorem HaltOrder_fetch (s c : APEX_CPU) (hI : HaltOrder s)
    (h : APEX_fetch s = some c) : HaltOrder c := by
  unfold APEX_fetch at h
  split_ifs at h
  · exact HaltOrder_detect s c hI h
  · exact HaltOrder_fetch_body s c hI h

theorem HaltOrder_stages (s c : APEX_CPU) (hI : HaltOrder s)
    (h : APEX_stages s = some c) : HaltOrder c := by
  unfold APEX_stages at h
  simp only [Option.bind_eq_some] at h
  obtain ⟨c4, ⟨c3, ⟨c2, ⟨c1, e1, e2⟩, e3⟩, e4⟩, e5⟩ := h
  have i1 : HaltOrder c1 := by
    split_ifs at e1
    · exact HaltOrder_detect s c1 hI e1
    · exact HaltOrder_memory s c1 hI e1
  have i2 : HaltOrder c2 := by
    split_ifs at e2
    · exact HaltOrder_detect c1 c2 i1 e2
    · exact HaltOrder_execute c1 c2 i1 e2
  have i3 : HaltOrder c3 := by
    split_ifs at e3
    · exact HaltOrder_detect c2 c3 i2 e3
    · exact HaltOrder_decode c2 c3 i2 e3
  have i4 : HaltOrder c4 := by
    split_ifs at e4
    · exact HaltOrder_detect c3 c4 i3 e4
    · exact HaltOrder_fetch c3 c4 i3 e4
  exact HaltOrder_detect c4 c i4 e5

theorem HaltOrder_cycle (s c : APEX_CPU) (b : Bool) (hI : HaltOrder s)
    (h : APEX_cpu_cycle s = some (b, c)) : HaltOrder c := by
  unfold APEX_cpu_cycle at h
  cases hw : APEX_writeback s with
  | none => simp [hw] at h
  | some v =>
    obtain ⟨b1, c1⟩ := v
    have i1 := HaltOrder_writeback s c1 b1 hI hw
    cases b1 with
    | true =>
      simp [hw] at h
      rw [← h.2]
      exact i1
    | false =>
      cases hs : APEX_stages c1 with
      | none => simp [hw, hs] at h
      | some c2 =>
        simp [hw, hs] at h
        have i2 := HaltOrder_stages c1 c2 i1 hs
        rw [← h.2]
        obtain ⟨h1, h2, h3, h4, h5, h6, h7, h8⟩ := i2
        constructor <;> simp_all

theorem HaltOrder_init (p : APEX_Params) (code : List APEX_Instruction) :
    HaltOrder (APEX_cpu_init p code) := by
  constructor <;> simp [APEX_cpu_init]

theorem HaltOrder_cycles (n : Nat) :
    ∀ (s c : APEX_CPU), HaltOrder s → APEX_cycles n s = some c → HaltOrder c := by
  induction n with
  | zero => intro s c hI h; simp [APEX_cycles] at h; subst h; exact hI
  | succ k ih =>
    intro s c hI h
    simp only [APEX_cycles] at h
    cases hc : APEX_cpu_cycle s with
    | none => simp [hc] at h
    | some v =>
      obtain ⟨b, c1⟩ := v
      cases b with
      | true => simp [hc] at h
      | false =>
        simp [hc] at h
        exact ih c1 c (HaltOrder_cycle s c1 false hI hc) h

/-- With every latch invalid, Fetch disabled at a fetched `HALT` and the later
latches not stalled, evaluating all the stages changes nothing. -/
theorem APEX_pass_quiet (s : APEX_CPU)
    (h1 : s.execute.stall = false) (h2 : s.memory.stall = false)
    (h3 : s.writeback.stall = false) (hw : s.writeback.has_insn = false)
    (hm : s.memory.has_insn = false) (he : s.execute.has_insn = false)
    (hd : s.decode.has_insn = false) (hf : s.fetch.has_insn = false)
    (ho : s.fetch.opcode = .HALT) : APEX_pass s = some s := by
  have e1 : detect_data_hazards s = some s := by simp [detect_data_hazards, he]
  have e2 : APEX_fetch_body s = some s := by
    simp [APEX_fetch_body, fetch_predict, fetch_insn, ho, hf]
  have e3 : APEX_fetch s = some s := by
    unfold APEX_fetch
    split_ifs
    · exact e1
    · exact e2
  have e4 : APEX_decode s = some s := by
    unfold APEX_decode
    split_ifs <;> simp_all
  have e5 : APEX_execute s = some s := by simp [APEX_execute, h1, he]
  have e6 : APEX_memory s = some s := by simp [APEX_memory, h2, hm]
  have e7 : APEX_writeback s = some (false, s) := by simp [APEX_writeback, h3, hw]
  by_cases a : s.decode.stall = true <;> by_cases b : s.fetch.stall = true <;>
    simp [APEX_pass, APEX_stages, a, b, e1, e3, e4, e5, e6, e7, h1, h2]

/-- Repeated evaluation of the stages in such a state changes nothing. -/
theorem APEX_passes_quiet (n : Nat) (s : APEX_CPU) (h : APEX_pass s = some s) :
    APEX_passes n s = some s := by
  induction n with
  | zero => rfl
  | succ k ih => simp only [APEX_passes, h]; exact ih

/-- C6. Let `s` be a state reached from the initial state of any program by full
cycles, and let Writeback retire Halt in `s`, leaving the state `r`. Then the
cycle driver stops in this cycle (the run with one more unit of fuel returns
`r`), in `r` the Writeback, Memory, Execute and Decode latches hold no valid
instruction and Fetch is disabled, and however often all the stages are
evaluated again the state stays `r`: no instruction retires, and
`completed_instruction_count` and the register file do not change. -/
theorem C6_halt_is_final (p : APEX_Params) (code : List APEX_Instruction) (n : Nat)
    (s r : APEX_CPU)
    (hreach : APEX_cycles n (APEX_cpu_init p code) = some s)
    (hhalt : APEX_writeback s = some (true, r)) :
    APEX_cpu_run (n + 1) (APEX_cpu_init p code) = some r ∧
    r.writeback.has_insn = false ∧ r.memory.has_insn = false ∧
    r.execute.has_insn = false ∧ r.decode.has_insn = false ∧
    r.fetch.has_insn = false ∧
    ∀ m, ∃ t, APEX_passes m r = some t ∧ t.writeback.has_insn = false ∧
      t.insn_completed = r.insn_completed ∧ t.regs = r.regs := by
  have hI : HaltOrder s := HaltOrder_cycles n _ s (HaltOrder_init p code) hreach
  have hc : APEX_cpu_cycle s = some (true, r) := by simp [APEX_cpu_cycle, hhalt]
  have hrun : APEX_cpu_run (n + 1) (APEX_cpu_init p code) = some r := by
    rw [APEX_cpu_run_cycles n 1 _ s hreach]
    simp [APEX_cpu_run, hc]
  have hr : HaltOrder r := HaltOrder_writeback s r true hI hhalt
  -- the retiring instruction is a valid HALT, so nothing valid is behind it
  unfold APEX_writeback at hhalt
  simp only [hI.writeback_stall] at hhalt
  by_cases hv : s.writeback.has_insn = true
  · cases hs : writeback_switch s with
    | none => simp [hv, hs] at hhalt
    | some c1 =>
      simp [hv, hs] at hhalt
      obtain ⟨hop, hrc⟩ := hhalt
      have hf := writeback_switch_form s c1 hs
      have hop2 : s.writeback.opcode = .HALT := by rw [hf] at hop; exact hop
      obtain ⟨q1, q2, q3, q4⟩ := hI.in_writeback hv hop2
      have w : r.writeback.has_insn = false := by rw [← hrc]
      have a1 : r.memory.has_insn = false := by rw [← hrc, hf]; exact q4
      have a2 : r.execute.has_insn = false := by rw [← hrc, hf]; exact q3
      have a3 : r.decode.has_insn = false := by rw [← hrc, hf]; exact q2
      have a4 : r.fetch.has_insn = false := by rw [← hrc, hf]; exact q1
      refine ⟨hrun, w, a1, a2, a3, a4, ?_⟩
      intro m
      have hq := APEX_pass_quiet r hr.execute_stall hr.memory_stall hr.writeback_stall
        w a1 a2 a3 a4 (hr.fetch_off a4)
      exact ⟨r, APEX_passes_quiet m r hq, w, rfl, rfl⟩
  · simp [hv] at hhalt

/-! ### Straight-line programs: the stages on a zero register file and memory -/

theorem readAt_replicate {α : Type} (n : Nat) (v : α) (i : Int) (h0 : 0 ≤ i) (h1 : i < n) :
    readAt (List.replicate n v) i = some v := by
  unfold readAt
  have : i.toNat < n := by omega
  simp [h0, this]

theorem writeAt_replicate {α : Type} (n : Nat) (v : α) (i : Int) (h0 : 0 ≤ i) (h1 : i < n) :
    writeAt (List.replicate n v) i v = some (List.replicate n v) := by
  unfold writeAt
  have : i.toNat < n := by omega
  simp [h0, this]

/-- Writeback on a straight-line latch: the instruction count grows when the
latch is valid, Halt is signalled for `HALT`, the register file stays zero. -/
theorem flow_writeback (p : APEX_Params) (s : APEX_CPU)
    (hst : s.writeback.stall = false)
    (hregs : s.regs = List.replicate p.REG_FILE_SIZE 0)
    (hok : s.writeback.has_insn = true → okWriteback p s.writeback) :
    APEX_writeback s = some
      (s.writeback.has_insn && decide (s.writeback.opcode = .HALT),
        { s with
          insn_completed :=
            if s.writeback.has_insn then wrap32 (s.insn_completed + 1) else s.insn_completed
          writeback := { s.writeback with has_insn := false } }) := by
  unfold APEX_writeback
  rw [hst]
  cases hv : s.writeback.has_insn with
  | false =>
    simp
    cases s with
    | mk _ _ _ _ _ _ _ _ _ _ _ _ _ _ wb _ =>
      cases wb
      simp_all
  | true =>
    obtain ⟨h1, h2⟩ := hok hv
    have hs : writeback_switch s = some s := by
      unfold writeback_switch
      rcases h1 with h1 | h1
      · cases hop : s.writeback.opcode <;> simp [hop, straight_op] at h1 ⊢
        obtain ⟨a, b, c⟩ := h2 hop
        rw [hregs, c, writeAt_replicate _ _ _ a b]
        simp [← hregs]
      · simp [h1]
    simp [hs]

/-- Witness for C10: `BNZ` at address 4000 with immediate 8 and `zero_flag`
FALSE redirects to 4008. -/
theorem C10_conditional_branch_witness :
    (executeState .BNZ 0 0 8).execute.has_insn = true ∧
    (executeState .BNZ 0 0 8).execute.stall = false ∧
    is_conditional_branch (executeState .BNZ 0 0 8).execute.opcode = true ∧
    ∃ c, APEX_execute (executeState .BNZ 0 0 8) = some c ∧ c.pc = 4008 ∧
      c.fetch_from_next_cycle = true ∧ c.decode.has_insn = false ∧
      c.fetch.has_insn = true ∧ c.regs = (executeState .BNZ 0 0 8).regs := by
  refine ⟨by decide, by decide, by decide, ?_⟩
  obtain ⟨c, h1, h2, -, -, -, -, h7⟩ :=
    C10_conditional_branch (executeState .BNZ 0 0 8) (by decide) (by decide) (by decide)
  obtain ⟨-, a2, a3, a4, a5⟩ := h2 (by decide)
  exact ⟨c, h1, a2 (by decide) (by decide), a3, a4, a5, h7⟩

/-- Witness for C6: the program `HALT`, whose Halt retires in the fifth cycle. -/
theorem C6_halt_is_final_witness :
    APEX_cycles 4 (APEX_cpu_init (sampleParams .ADD) progHalt) = some haltReady ∧
    APEX_writeback haltReady = some (true, haltDone) ∧
    APEX_cpu_run 5 (APEX_cpu_init (sampleParams .ADD) progHalt) = some haltDone ∧
    haltDone.fetch.has_insn = false ∧
    ∀ m, ∃ t, APEX_passes m haltDone = some t ∧ t.writeback.has_insn = false ∧
      t.insn_completed = haltDone.insn_completed ∧ t.regs = haltDone.regs :=
  have h := C6_halt_is_final (sampleParams .ADD) progHalt 4 haltReady haltDone rfl rfl
  ⟨rfl, rfl, h.1, h.2.2.2.2.2.1, h.2.2.2.2.2.2⟩

/-- `h & 1` is nonzero exactly when bit 0 of `h` is set. -/
theorem land_one_ne_zero (h : Int) : Int.land h 1 ≠ 0 ↔ h.testBit 0 = true := by
  have e1 : (1 : Int) = Int.bit true 0 := by decide
  have z : ∀ m : Int, Int.land m 0 = 0 := by
    intro m
    cases m with
    | ofNat n => simp [Int.land]
    | negSucc n =>
      have : Nat.ldiff 0 n = 0 :=
        Nat.eq_of_testBit_eq (fun i => by simp [Nat.testBit_ldiff])
      simp [Int.land, this]
  conv_lhs => rw [← Int.bit_decomp h, e1, Int.land_bit, z]
  conv_rhs => rw [← Int.bit_decomp h, Int.testBit_bit_zero]
  cases Int.bodd h <;> decide

/-- `h & 2` is nonzero exactly when bit 1 of `h` is set. -/
theorem land_two_ne_zero (h : Int) : Int.land h 2 ≠ 0 ↔ h.testBit 1 = true := by
  have e2 : (2 : Int) = Int.bit false 1 := by decide
  have t : h.testBit 1 = (Int.div2 h).testBit 0 := by
    conv_lhs => rw [← Int.bit_decomp h]
    exact Int.testBit_bit_succ 0 _ _
  rw [t, ← land_one_ne_zero]
  conv_lhs => rw [← Int.bit_decomp h, e2, Int.land_bit]
  simp [Int.bit_val]
/-- C11 (code defect). In the stalled state of `MOVC R1,#5; ADD R2,R1,R0; HALT`
the Execute latch is invalid, so the stall condition does not hold, yet
`detect_data_hazards` returns the state unchanged with `Fetch.stall` and
`Decode.stall` still 1: the flags are cleared only inside the test that both
Execute and Decode are valid, which has no `else`. -/
theorem C11_stall_not_cleared :
    (hazardStuck 5).execute.has_insn = false ∧
    detect_data_hazards (hazardStuck 5) = some (hazardStuck 5) ∧
    (hazardStuck 5).fetch.stall = true ∧ (hazardStuck 5).decode.stall = true := by
  exact ⟨rfl, rfl, rfl, rfl⟩

/-- C12 (code defect). Decode holds a valid `ADD R3,R1,R2`, the Execute latch
holds the register-writing `MOVC R1,#5` with result buffer 5, `registers[1]` is
7 and the Memory latch does not target `R1`. The `rs1_value` Decode hands to
Execute is 7, the content of the register file, not the forwarded 5: the
opcode switch reads the register file after the forwarding code and
overwrites the forwarded value. -/
theorem C12_forwarded_value_overwritten :
    forwardState.decode.rs1 = forwardState.execute.rd ∧
    is_write_to_reg_instruction forwardState.execute.opcode = true ∧
    forwardState.execute.result_buffer = 5 ∧
    (decode_forward forwardState).rs1_value = 5 ∧
    (APEX_decode forwardState).map (fun c => c.execute.rs1_value) = some 7 := by
  decide

/-- C13 (code defect). Execute on a valid `JALR` at address 4000 whose link
register holds 0 changes the register file: `registers[0]` becomes 4004.
The JALR case of Execute stores `pc + 4` into `regs[rd_value]` itself instead
of leaving the register write to Writeback. -/
theorem C13_execute_writes_register :
    (executeState .JALR 0 0 8).regs = [0, 0, 0, 0, 0, 0, 0, 0, 0, 0, 0, 0, 0, 0, 0, 0] ∧
    (APEX_execute (executeState .JALR 0 0 8)).map (fun c => c.regs)
      = some [4004, 0, 0, 0, 0, 0, 0, 0, 0, 0, 0, 0, 0, 0, 0, 0] := by
  decide

/-- C14 (code defect). For the kinds `BZ` and `BNP`, `should_take_branch`
returns `!((h & 1) && (h & 2))`: for every history value `h` the result is
taken unless bit 0 and bit 1 of `h` are both 1. With history value 1 (bit 0
set, bit 1 clear) and with history value 2 (bit 1 set, bit 0 clear) the
prediction is therefore taken, although not both history bits are clear. The
comment of the case, "predict not taken if any of the last two were not taken
(i.e., if any bit is 0)", asks for not-taken on these values as well. -/
theorem C14_bz_bnp_taken_with_a_bit_set :
    (∀ h : Int,
      should_take_branch h .BZ = !(h.testBit 0 && h.testBit 1) ∧
      should_take_branch h .BNP = !(h.testBit 0 && h.testBit 1)) ∧
    ((1 : Int).testBit 0 = true ∧ (1 : Int).testBit 1 = false ∧
      should_take_branch 1 .BZ = true ∧ should_take_branch 1 .BNP = true) ∧
    ((2 : Int).testBit 0 = false ∧ (2 : Int).testBit 1 = true ∧
      should_take_branch 2 .BZ = true ∧ should_take_branch 2 .BNP = true) := by
  refine ⟨fun h => ?_, by decide, by decide⟩
  have a := land_one_ne_zero h
  have b := land_two_ne_zero h
  constructor <;>
    · unfold should_take_branch
      cases h0 : h.testBit 0 <;> cases h1 : h.testBit 1 <;> simp_all

/-- C15. For the kinds `BNZ` and `BP`, `should_take_branch` predicts taken iff
bit 0 or bit 1 of the history value is set, for every history value; for every
opcode other than `BZ`, `BNZ`, `BP` and `BNP` it predicts not-taken. -/
theorem C15_bnz_bp_taken_if_any_set (h : Int) (op : Opcode) :
    should_take_branch h .BNZ = (h.testBit 0 || h.testBit 1) ∧
    should_take_branch h .BP = (h.testBit 0 || h.testBit 1) ∧
    (op ≠ .BZ → op ≠ .BNZ → op ≠ .BP → op ≠ .BNP → should_take_branch h op = false) := by
  have a := land_one_ne_zero h
  have b := land_two_ne_zero h
  refine ⟨?_, ?_, ?_⟩
  · unfold should_take_branch
    cases h0 : h.testBit 0 <;> cases h1 : h.testBit 1 <;> simp_all
  · unfold should_take_branch
    cases h0 : h.testBit 0 <;> cases h1 : h.testBit 1 <;> simp_all
  · intro n1 n2 n3 n4
    cases op <;> simp_all [should_take_branch]

/-- Witness for C15: history value 2 and the opcode `ADD`. -/
theorem C15_bnz_bp_taken_if_any_set_witness :
    should_take_branch 2 .BNZ = true ∧ should_take_branch 2 .BP = true ∧
    should_take_branch 2 .ADD = false :=
  have h := C15_bnz_bp_taken_if_any_set 2 .ADD
  ⟨by rw [h.1]; decide, by rw [h.2.1]; decide,
    h.2.2 (by decide) (by decide) (by decide) (by decide)⟩

/-- C16. If the Execute and Decode latches are both valid, the opcode in Execute
is one of ADD, SUB, MUL, AND, OR, XOR, MOVC, ADDL, SUBL, its `rd` is not 0 and
equals `rs1` or `rs2` of the Decode latch, then `detect_data_hazards` returns
the state with `Fetch.stall` and `Decode.stall` set to 1 and nothing else
changed. -/
theorem C16_hazard_asserts_stall (s : APEX_CPU)
    (he : s.execute.has_insn = true) (hd : s.decode.has_insn = true)
    (hop : s.execute.opcode ∈
      [Opcode.ADD, .SUB, .MUL, .AND, .OR, .XOR, .MOVC, .ADDL, .SUBL])
    (hrd : s.execute.rd ≠ 0)
    (hm : s.decode.rs1 = s.execute.rd ∨ s.decode.rs2 = s.execute.rd) :
    detect_data_hazards s = some
      { s with
        decode := { s.decode with stall := true }
        fetch := { s.fetch with stall := true } } := by
  unfold detect_data_hazards
  simp only [List.mem_cons, List.mem_singleton, List.not_mem_nil, or_false] at hop
  simp [he, hd, hrd, hm, hop]

/-- Witness for C16: `MOVC R1,#5` in Execute and `ADD R3,R1,R2` in Decode. -/
theorem C16_hazard_asserts_stall_witness :
    (detect_data_hazards
        { forwardState with execute := { forwardState.execute with has_insn := true } }).map
      (fun c => (c.fetch.stall, c.decode.stall)) = some (true, true) := by
  rw [C16_hazard_asserts_stall _ (by decide) (by decide) (by decide) (by decide) (by decide)]
  rfl

theorem readAt_set_self {α : Type} (a : List α) (i : Int) (v : α)
    (h0 : 0 ≤ i) (h1 : i.toNat < a.length) :
    readAt (a.set i.toNat v) i = some v := by
  unfold readAt
  simp [h0, h1]

theorem readAt_set_other {α : Type} (a : List α) (i j : Int) (v : α)
    (h0 : 0 ≤ i) (hne : j ≠ i) :
    readAt (a.set i.toNat v) j = readAt a j := by
  unfold readAt
  split_ifs with hj
  · have : i.toNat ≠ j.toNat := by omega
    simp [List.getElem?_set_ne this]
  · rfl

/-- C17. Writeback contract. A stalled or invalid Writeback latch leaves the
state unchanged and returns "not halted". For a valid, non-stalled latch:
if the opcode is one of ADD, SUB, MUL, AND, OR, XOR, ADDL, SUBL, MOVC, LOAD,
LOADP, JALR (and `rd` is a register index), `registers[rd]` becomes the result
buffer and every other register is unchanged; for every other opcode the
register file is unchanged; in both cases `completed_instruction_count` grows
by one (in 32-bit arithmetic), the latch becomes invalid, nothing else
changes, and Halt is signalled iff the opcode is `HALT`. -/
theorem C17_writeback_contract (s : APEX_CPU) :
    ((s.writeback.stall = true ∨ s.writeback.has_insn = false) →
      APEX_writeback s = some (false, s)) ∧
    (s.writeback.stall = false → s.writeback.has_insn = true →
      writeback_writes s.writeback.opcode = true →
      0 ≤ s.writeback.rd → s.writeback.rd.toNat < s.regs.length →
      ∃ regs,
        APEX_writeback s = some (decide (s.writeback.opcode = .HALT),
          { s with
            regs := regs
            insn_completed := wrap32 (s.insn_completed + 1)
            writeback := { s.writeback with has_insn := false } }) ∧
        decide (s.writeback.opcode = .HALT) = false ∧
        readAt regs s.writeback.rd = some s.writeback.result_buffer ∧
        (∀ j, j ≠ s.writeback.rd → readAt regs j = readAt s.regs j) ∧
        (s.insn_completed + 1 < 2147483648 → -2147483648 ≤ s.insn_completed + 1 →
          wrap32 (s.insn_completed + 1) = s.insn_completed + 1)) ∧
    (s.writeback.stall = false → s.writeback.has_insn = true →
      writeback_writes s.writeback.opcode = false →
      APEX_writeback s = some (decide (s.writeback.opcode = .HALT),
        { s with
          insn_completed := wrap32 (s.insn_completed + 1)
          writeback := { s.writeback with has_insn := false } })) := by
  refine ⟨?_, ?_, ?_⟩
  · intro h
    unfold APEX_writeback
    rcases h with h | h
    · simp [h]
    · simp [h]
  · intro hst hv hw h0 h1
    refine ⟨s.regs.set s.writeback.rd.toNat s.writeback.result_buffer, ?_, ?_,
      readAt_set_self _ _ _ h0 h1, fun j hj => readAt_set_other _ _ _ _ h0 hj,
      fun a b => wrap32_of_range _ b a⟩
    · unfold APEX_writeback writeback_switch writeAt
      cases hop : s.writeback.opcode <;> simp [hop, writeback_writes] at hw ⊢ <;>
        simp [hst, hv, h0, h1, hop]
    · cases hop : s.writeback.opcode <;> simp [hop, writeback_writes] at hw ⊢
  · intro hst hv hw
    unfold APEX_writeback writeback_switch
    cases hop : s.writeback.opcode <;> simp [hop, writeback_writes] at hw ⊢ <;>
      simp [hst, hv, hop]

/-- Witness for C17: a valid `MOVC` with `rd = 1` and result buffer 5. -/
theorem C17_writeback_contract_witness :
    ∃ regs c, APEX_writeback (writebackState .MOVC 1 5) = some (false, c) ∧
      c.regs = regs ∧ readAt regs 1 = some 5 ∧ readAt regs 2 = some 0 ∧
      c.insn_completed = 1 ∧ c.writeback.has_insn = false := by
  obtain ⟨regs, h1, -, h3, h4, -⟩ :=
    (C17_writeback_contract (writebackState .MOVC 1 5)).2.1
      (by decide) (by decide) (by decide) (by decide) (by decide)
  exact ⟨regs, _, h1, rfl, h3, by rw [h4 2 (by decide)]; decide, rfl, rfl⟩

/-- C18. Memory stage contract for a valid, non-stalled Memory latch. `LOAD` and
`LOADP` set the result buffer to `data_memory[memory_address]` and leave data
memory unchanged; `STORE` and `STOREP` set `data_memory[memory_address]` to the
result buffer and leave every other cell unchanged; every other opcode leaves
the latch fields and data memory unchanged. In each case the latch is copied
to the Writeback latch, the Memory latch becomes invalid and nothing else
changes. -/
theorem C18_memory_contract (s : APEX_CPU)
    (hst : s.memory.stall = false) (hv : s.memory.has_insn = true) :
    (s.memory.opcode = .LOAD ∨ s.memory.opcode = .LOADP →
      ∀ v, readAt s.data_memory s.memory.memory_address = some v →
        APEX_memory s = some
          { s with
            writeback := { s.memory with result_buffer := v }
            memory := { s.memory with result_buffer := v, has_insn := false } }) ∧
    (s.memory.opcode = .STORE ∨ s.memory.opcode = .STOREP →
      0 ≤ s.memory.memory_address →
      s.memory.memory_address.toNat < s.data_memory.length →
      ∃ dm,
        APEX_memory s = some
          { s with
            data_memory := dm
            writeback := s.memory
            memory := { s.memory with has_insn := false } } ∧
        readAt dm s.memory.memory_address = some s.memory.result_buffer ∧
        ∀ j, j ≠ s.memory.memory_address → readAt dm j = readAt s.data_memory j) ∧
    (s.memory.opcode ≠ .LOAD → s.memory.opcode ≠ .LOADP →
      s.memory.opcode ≠ .STORE → s.memory.opcode ≠ .STOREP →
      APEX_memory s = some
        { s with
          writeback := s.memory
          memory := { s.memory with has_insn := false } }) := by
  refine ⟨?_, ?_, ?_⟩
  · intro hop v hr
    unfold APEX_memory memory_switch
    rcases hop with hop | hop <;> simp [hst, hv, hop, hr]
  · intro hop h0 h1
    refine ⟨s.data_memory.set s.memory.memory_address.toNat s.memory.result_buffer, ?_,
      readAt_set_self _ _ _ h0 h1, fun j hj => readAt_set_other _ _ _ _ h0 hj⟩
    unfold APEX_memory memory_switch writeAt
    rcases hop with hop | hop <;> simp [hst, hv, hop, h0, h1]
  · intro n1 n2 n3 n4
    unfold APEX_memory memory_switch
    cases hop : s.memory.opcode <;> simp_all

/-- Witness for C18: a `STORE` of 7 to address 2 and a `LOAD` from address 2 of
the memory 10, 20, 30, 40. -/
theorem C18_memory_contract_witness :
    (∃ dm c, APEX_memory (memoryState .STORE 2 7) = some c ∧ c.data_memory = dm ∧
      readAt dm 2 = some 7 ∧ readAt dm 1 = some 20) ∧
    (APEX_memory (memoryState .LOAD 2 7)).map
      (fun c => (c.writeback.result_buffer, c.data_memory, c.memory.has_insn))
      = some (30, [10, 20, 30, 40], false) := by
  have h := C18_memory_contract (memoryState .STORE 2 7) (by decide) (by decide)
  have g := C18_memory_contract (memoryState .LOAD 2 7) (by decide) (by decide)
  obtain ⟨dm, h1, h2, h3⟩ := h.2.1 (by decide) (by decide) (by decide)
  refine ⟨⟨dm, _, h1, rfl, h2, by rw [h3 1 (by decide)]; decide⟩, ?_⟩
  rw [g.1 (by decide) 30 (by decide)]
  rfl

/-- C19. Execute arithmetic for a valid, non-stalled Execute latch holding ADD,
SUB, ADDL, SUBL, AND, OR or XOR. The result buffer becomes `rs1_value +
rs2_value`, `rs1_value - rs2_value`, `rs1_value + imm`, `rs1_value - imm` in
32-bit two's-complement arithmetic, resp. the bitwise and, or, xor of
`rs1_value` and `rs2_value` (bit `k` of the result is the and, or, xor of the
bits `k` of the operands). For ADD, SUB, ADDL, SUBL and AND `zero_flag` becomes
TRUE iff the result is 0; OR and XOR leave the flags unchanged. The updated
latch is copied to the Memory latch, the Execute latch becomes invalid and
nothing else changes. -/
theorem C19_execute_arithmetic (s : APEX_CPU) (r : Int)
    (hst : s.execute.stall = false) (hv : s.execute.has_insn = true)
    (hr : alu_result s.execute.opcode s.execute.rs1_value s.execute.rs2_value
      s.execute.imm = some r) :
    APEX_execute s = some
      { s with
        zero_flag := if alu_sets_zero s.execute.opcode then decide (r = 0) else s.zero_flag
        memory := { s.execute with result_buffer := r }
        execute := { s.execute with result_buffer := r, has_insn := false } } ∧
    (s.execute.opcode = .AND → ∀ k, r.testBit k =
      (s.execute.rs1_value.testBit k && s.execute.rs2_value.testBit k)) ∧
    (s.execute.opcode = .OR → ∀ k, r.testBit k =
      (s.execute.rs1_value.testBit k || s.execute.rs2_value.testBit k)) ∧
    (s.execute.opcode = .XOR → ∀ k, r.testBit k =
      xor (s.execute.rs1_value.testBit k) (s.execute.rs2_value.testBit k)) ∧
    (s.execute.opcode = .ADD → -2147483648 ≤ s.execute.rs1_value + s.execute.rs2_value →
      s.execute.rs1_value + s.execute.rs2_value < 2147483648 →
      r = s.execute.rs1_value + s.execute.rs2_value) := by
  refine ⟨?_, ?_, ?_, ?_, ?_⟩
  · unfold APEX_execute execute_switch
    cases hop : s.execute.opcode <;> simp [hop, alu_result] at hr <;> subst hr <;>
      simp [hst, hv, hop, alu_sets_zero, set_zero_flag, set_result]
  · intro hop k
    simp [hop, alu_result] at hr
    rw [← hr, Int.testBit_land]
  · intro hop k
    simp [hop, alu_result] at hr
    rw [← hr, Int.testBit_lor]
  · intro hop k
    simp [hop, alu_result] at hr
    rw [← hr, Int.testBit_lxor]
  · intro hop h1 h2
    simp [hop, alu_result] at hr
    rw [← hr, wrap32_of_range _ h1 h2]

/-- Witness for C19: `ADD` of 3 and 4. -/
theorem C19_execute_arithmetic_witness :
    (APEX_execute (executeState .ADD 3 4 0)).map
      (fun c => (c.memory.result_buffer, c.zero_flag, c.execute.has_insn))
      = some (7, false, false) := by
  rw [(C19_execute_arithmetic (executeState .ADD 3 4 0) 7 (by decide) (by decide)
    (by decide)).1]
  rfl

/-! ### A `NOP` never enters a valid latch -/

theorem NoNop_writeback (s c : APEX_CPU) (b : Bool) (hI : NoNop s)
    (h : APEX_writeback s = some (b, c)) :
    NoNop c ∧ (c.insn_completed = s.insn_completed ∨
      (s.writeback.has_insn = true ∧ s.writeback.opcode ≠ .NOP)) := by
  unfold APEX_writeback at h
  by_cases hst : s.writeback.stall = true
  · simp [hst] at h
    obtain ⟨-, rfl⟩ := h
    exact ⟨hI, Or.inl rfl⟩
  · by_cases hv : s.writeback.has_insn = true
    · cases hs : writeback_switch s with
      | none => simp [hst, hv, hs] at h
      | some c1 =>
        simp [hst, hv, hs] at h
        obtain ⟨-, rfl⟩ := h
        refine ⟨?_, Or.inr ⟨hv, hI.writeback hv⟩⟩
        rw [writeback_switch_form s c1 hs]
        obtain ⟨h1, h2, h3, h4⟩ := hI
        constructor <;> simp_all
    · simp [hst, hv] at h
      obtain ⟨-, rfl⟩ := h
      exact ⟨hI, Or.inl rfl⟩

theorem NoNop_memory (s c : APEX_CPU) (hI : NoNop s)
    (h : APEX_memory s = some c) : NoNop c ∧ c.insn_completed = s.insn_completed := by
  unfold APEX_memory at h
  by_cases hst : s.memory.stall = true
  · simp [hst] at h
    subst h
    exact ⟨hI, rfl⟩
  · by_cases hv : s.memory.has_insn = true
    · cases hs : memory_switch s with
      | none => simp [hst, hv, hs] at h
      | some c1 =>
        simp [hst, hv, hs] at h
        subst h
        rw [memory_switch_form s c1 hs]
        obtain ⟨h1, h2, h3, h4⟩ := hI
        refine ⟨?_, rfl⟩
        constructor <;> simp_all
    · simp [hst, hv] at h
      subst h
      exact ⟨hI, rfl⟩

theorem NoNop_execute (s c : APEX_CPU) (hI : NoNop s)
    (h : APEX_execute s = some c) : NoNop c ∧ c.insn_completed = s.insn_completed := by
  unfold APEX_execute at h
  by_cases hst : s.execute.stall = true
  · simp [hst] at h
    subst h
    exact ⟨hI, rfl⟩
  · by_cases hv : s.execute.has_insn = true
    · cases hs : execute_switch s with
      | none => simp [hst, hv, hs] at h
      | some c1 =>
        simp [hst, hv, hs] at h
        subst h
        obtain ⟨hf, hr⟩ := execute_switch_form s c1 hs
        rw [hf]
        clear hf hs
        obtain ⟨h1, h2, h3, h4⟩ := hI
        refine ⟨?_, rfl⟩
        rcases hr with ⟨-, -, r3, r4⟩ | ⟨-, r2, r3, r4⟩
        · constructor <;> simp_all
        · constructor <;> simp_all
    · simp [hst, hv] at h
      subst h
      exact ⟨hI, rfl⟩

theorem NoNop_decode (s c : APEX_CPU) (hI : NoNop s)
    (h : APEX_decode s = some c) : NoNop c ∧ c.insn_completed = s.insn_completed := by
  unfold APEX_decode at h
  by_cases hst : s.decode.stall = true
  · simp [hst] at h
    subst h
    exact ⟨hI, rfl⟩
  · by_cases hv : s.decode.has_insn = true
    · cases hs : decode_read s.regs (decode_forward s) with
      | none => simp [hst, hv, hs] at h
      | some d =>
        simp [hst, hv, hs] at h
        subst h
        have hd := decode_read_form _ _ _ hs
        rw [decode_forward_form] at hd
        rw [hd]
        clear hd hs
        obtain ⟨h1, h2, h3, h4⟩ := hI
        refine ⟨?_, rfl⟩
        constructor <;> simp_all
    · simp [hst, hv] at h
      subst h
      exact ⟨hI, rfl⟩

theorem NoNop_fetch_insn (s c : APEX_CPU) (hI : NoNop s)
    (h : fetch_insn s = some c) : NoNop c ∧ c.insn_completed = s.insn_completed := by
  unfold fetch_insn at h
  by_cases hv : s.fetch.has_insn = true
  · by_cases hn : s.fetch_from_next_cycle = true
    · simp [hv, hn] at h
      subst h
      obtain ⟨h1, h2, h3, h4⟩ := hI
      refine ⟨?_, rfl⟩
      constructor <;> simp_all
    · cases hr : readAt s.code_memory (get_code_memory_index_from_pc s.pc) with
      | none => simp [hv, hn, hr] at h
      | some ins =>
        simp [hv, hn, hr] at h
        subst h
        obtain ⟨h1, h2, h3, h4⟩ := hI
        refine ⟨?_, rfl⟩
        by_cases e2 : ins.opcode = .NOP <;> constructor <;> simp_all
  · simp [hv] at h
    subst h
    exact ⟨hI, rfl⟩

theorem NoNop_fetch_body (s c : APEX_CPU) (hI : NoNop s)
    (h : APEX_fetch_body s = some c) : NoNop c ∧ c.insn_completed = s.insn_completed := by
  unfold APEX_fetch_body at h
  cases hp : fetch_predict s with
  | none => simp [hp] at h
  | some c1 =>
    simp [hp] at h
    have h1 : NoNop c1 ∧ c1.insn_completed = s.insn_completed := by
      rw [fetch_predict_form s c1 hp]
      obtain ⟨h1, h2, h3, h4⟩ := hI
      refine ⟨?_, rfl⟩
      constructor <;> simp_all
    obtain ⟨a, b⟩ := NoNop_fetch_insn c1 c h1.1 h
    exact ⟨a, b.trans h1.2⟩

theorem NoNop_set_stall (s : APEX_CPU) (b : Bool) (hI : NoNop s) :
    NoNop { s with
      decode := { s.decode with stall := b }
      fetch := { s.fetch with stall := b } } := by
  obtain ⟨h1, h2, h3, h4⟩ := hI
  constructor <;> simp_all

theorem NoNop_detect (s c : APEX_CPU) (hI : NoNop s)
    (h : detect_data_hazards s = some c) :
    NoNop c ∧ c.insn_completed = s.insn_completed := by
  unfold detect_data_hazards at h
  split_ifs at h
  · simp at h; subst h; exact ⟨NoNop_set_stall s true hI, rfl⟩
  · have r := NoNop_fetch_body _ c (NoNop_set_stall s false hI) h
    exact r
  · simp at h; subst h; exact ⟨NoNop_set_stall s false hI, rfl⟩
  · simp at h; subst h; exact ⟨hI, rfl⟩

theorem NoNop_fetch (s c : APEX_CPU) (hI : NoNop s)
    (h : APEX_fetch s = some c) : NoNop c ∧ c.insn_completed = s.insn_completed := by
  unfold APEX_fetch at h
  split_ifs at h
  · exact NoNop_detect s c hI h
  · exact NoNop_fetch_body s c hI h

theorem NoNop_stages (s c : APEX_CPU) (hI : NoNop s)
    (h : APEX_stages s = some c) : NoNop c ∧ c.insn_completed = s.insn_completed := by
  unfold APEX_stages at h
  simp only [Option.bind_eq_some] at h
  obtain ⟨c4, ⟨c3, ⟨c2, ⟨c1, e1, e2⟩, e3⟩, e4⟩, e5⟩ := h
  have i1 : NoNop c1 ∧ c1.insn_completed = s.insn_completed := by
    split_ifs at e1
    · exact NoNop_detect s c1 hI e1
    · exact NoNop_memory s c1 hI e1
  have i2 : NoNop c2 ∧ c2.insn_completed = c1.insn_completed := by
    split_ifs at e2
    · exact NoNop_detect c1 c2 i1.1 e2
    · exact NoNop_execute c1 c2 i1.1 e2
  have i3 : NoNop c3 ∧ c3.insn_completed = c2.insn_completed := by
    split_ifs at e3
    · exact NoNop_detect c2 c3 i2.1 e3
    · exact NoNop_decode c2 c3 i2.1 e3
  have i4 : NoNop c4 ∧ c4.insn_completed = c3.insn_completed := by
    split_ifs at e4
    · exact NoNop_detect c3 c4 i3.1 e4
    · exact NoNop_fetch c3 c4 i3.1 e4
  obtain ⟨a, b⟩ := NoNop_detect c4 c i4.1 e5
  exact ⟨a, by rw [b, i4.2, i3.2, i2.2, i1.2]⟩

theorem NoNop_cycle (s c : APEX_CPU) (b : Bool) (hI : NoNop s)
    (h : APEX_cpu_cycle s = some (b, c)) :
    NoNop c ∧ (c.insn_completed = s.insn_completed ∨
      (s.writeback.has_insn = true ∧ s.writeback.opcode ≠ .NOP)) := by
  unfold APEX_cpu_cycle at h
  cases hw : APEX_writeback s with
  | none => simp [hw] at h
  | some v =>
    obtain ⟨b1, c1⟩ := v
    obtain ⟨i1, k1⟩ := NoNop_writeback s c1 b1 hI hw
    cases b1 with
    | true =>
      simp [hw] at h
      rw [← h.2]
      exact ⟨i1, k1⟩
    | false =>
      cases hs : APEX_stages c1 with
      | none => simp [hw, hs] at h
      | some c2 =>
        simp [hw, hs] at h
        obtain ⟨i2, k2⟩ := NoNop_stages c1 c2 i1 hs
        rw [← h.2]
        refine ⟨?_, ?_⟩
        · obtain ⟨h1, h2, h3, h4⟩ := i2
          constructor <;> simp_all
        · rcases k1 with k1 | k1
          · exact Or.inl (by simp [k2, k1])
          · exact Or.inr k1

theorem NoNop_init (p : APEX_Params) (code : List APEX_Instruction) :
    NoNop (APEX_cpu_init p code) := by
  constructor <;> simp [APEX_cpu_init]

theorem NoNop_cycles (n : Nat) :
    ∀ (s c : APEX_CPU), NoNop s → APEX_cycles n s = some c → NoNop c := by
  induction n with
  | zero => intro s c hI h; simp [APEX_cycles] at h; subst h; exact hI
  | succ k ih =>
    intro s c hI h
    simp only [APEX_cycles] at h
    cases hc : APEX_cpu_cycle s with
    | none => simp [hc] at h
    | some v =>
      obtain ⟨b, c1⟩ := v
      cases b with
      | true => simp [hc] at h
      | false =>
        simp [hc] at h
        exact ih c1 c (NoNop_cycle s c1 false hI hc).1 h

/-- C20. A `NOP` is consumed without being decoded. (1) Whenever Fetch, not
stalled, enabled and with no redirect pending, reads a `NOP` from code memory,
it succeeds and leaves the Decode latch invalid. (2) In every state reached
from the initial state of any program, no valid Decode, Execute, Memory or
Writeback latch holds a `NOP`. (3) In such a state a cycle changes
`completed_instruction_count` only by retiring an instruction that is not a
`NOP`. -/
theorem C20_nop_never_decoded (p : APEX_Params) (code : List APEX_Instruction)
    (n : Nat) (s : APEX_CPU)
    (hreach : APEX_cycles n (APEX_cpu_init p code) = some s) :
    (∀ (s0 s1 : APEX_CPU) (ins : APEX_Instruction),
      s0.fetch.stall = false → s0.fetch.has_insn = true →
      s0.fetch_from_next_cycle = false → fetch_predict s0 = some s1 →
      readAt s1.code_memory (get_code_memory_index_from_pc s1.pc) = some ins →
      ins.opcode = .NOP →
      ∃ c, APEX_fetch s0 = some c ∧ c.decode.has_insn = false ∧
        c.decode.opcode = .NOP) ∧
    NoNop s ∧
    (∀ b c, APEX_cpu_cycle s = some (b, c) →
      c.insn_completed = s.insn_completed ∨
        (s.writeback.has_insn = true ∧ s.writeback.opcode ≠ .NOP)) := by
  have hI : NoNop s := NoNop_cycles n _ s (NoNop_init p code) hreach
  refine ⟨?_, hI, fun b c h => (NoNop_cycle s c b hI h).2⟩
  intro s0 s1 ins hst hv hn hp hr hop
  have hf := fetch_predict_form s0 s1 hp
  have hv1 : s1.fetch.has_insn = true := by rw [hf]; exact hv
  have hn1 : s1.fetch_from_next_cycle = false := by rw [hf]; exact hn
  simp [APEX_fetch, APEX_fetch_body, hst, hp, fetch_insn, hv1, hn1, hr, hop]

/-- Witness for C20: in `JALR R1,R0,#4008; NOP; HALT` the `NOP` is fetched in
the second cycle. -/
theorem C20_nop_never_decoded_witness :
    APEX_cycles 2 (APEX_cpu_init (sampleParams .ADD) progJalr) = some nopAfter ∧
    (∃ c, APEX_fetch nopBefore = some c ∧ c.decode.has_insn = false ∧
      c.decode.opcode = .NOP) ∧
    NoNop nopAfter ∧ nopAfter.decode.opcode = .NOP ∧ nopAfter.decode.has_insn = false :=
  have h := C20_nop_never_decoded (sampleParams .ADD) progJalr 2 nopAfter rfl
  ⟨rfl,
    h.1 nopBefore nopBefore { opcode := .NOP, rd := 0, rs1 := 0, rs2 := 0, imm := 0 }
      rfl rfl rfl rfl rfl rfl,
    h.2.1, rfl, rfl⟩

/-- Memory on a straight-line latch with zero data memory. -/
theorem flow_memory (p : APEX_Params) (s : APEX_CPU)
    (hst : s.memory.stall = false)
    (hmem : s.data_memory = List.replicate p.DATA_MEMORY_SIZE 0)
    (hok : s.memory.has_insn = true → okMemory p s.memory) :
    APEX_memory s = some
      (if s.memory.has_insn then
        { s with
          writeback := memory_out s.memory
          memory := { memory_out s.memory with has_insn := false } }
      else s) := by
  unfold APEX_memory
  rw [hst]
  cases hv : s.memory.has_insn with
  | false => simp
  | true =>
    obtain ⟨h1, h2, h3, h4⟩ := hok hv
    have hs : memory_switch s = some { s with memory := memory_out s.memory } := by
      unfold memory_switch memory_out
      rcases h1 with h1 | h1
      · cases hop : s.memory.opcode <;> simp [hop, straight_op] at h1 ⊢
        · obtain ⟨a, b⟩ := h3 (by simp [hop, is_mem_op])
          rw [hmem, readAt_replicate _ _ _ a b]
        · obtain ⟨a, b⟩ := h3 (by simp [hop, is_mem_op])
          rw [hmem, h4 (Or.inl hop), writeAt_replicate _ _ _ a b]
        · obtain ⟨a, b⟩ := h3 (by simp [hop, is_mem_op])
          rw [hmem, h4 (Or.inr hop), writeAt_replicate _ _ _ a b]
      · simp [h1]
    simp [hs]

/-- The CML case of Execute changes the flags and the result buffer only. -/
theorem execute_CML_form (s : APEX_CPU) :
    execute_CML s = { s with
      zero_flag := (execute_CML s).zero_flag, neg_flag := (execute_CML s).neg_flag,
      pos_flag := (execute_CML s).pos_flag,
      execute := { s.execute with result_buffer := s.execute.imm } } := by
  unfold execute_CML execute_MOVC set_zero_flag set_result set_compare_flags
  split_ifs <;> rfl

/-- The CMP case of Execute changes the flags and the result buffer only. -/
theorem execute_CMP_form (s : APEX_CPU) :
    execute_CMP s = { s with
      zero_flag := (execute_CMP s).zero_flag, neg_flag := (execute_CMP s).neg_flag,
      pos_flag := (execute_CMP s).pos_flag,
      execute := { s.execute with result_buffer := s.execute.imm } } := by
  unfold execute_CMP execute_CML execute_MOVC set_zero_flag set_result set_compare_flags
  split_ifs <;> rfl

/-- Execute on a straight-line latch: flags may change, nothing is redirected. -/
theorem flow_execute (s : APEX_CPU)
    (hst : s.execute.stall = false)
    (hok : s.execute.has_insn = true →
      (straight_op s.execute.opcode = true ∨ s.execute.opcode = .HALT)) :
    ∃ z n q, APEX_execute s = some
      (if s.execute.has_insn then
        { s with
          zero_flag := z, neg_flag := n, pos_flag := q
          memory := execute_out s.execute
          execute := { execute_out s.execute with has_insn := false } }
      else s) := by
  unfold APEX_execute
  rw [hst]
  cases hv : s.execute.has_insn with
  | false => exact ⟨false, false, false, by simp⟩
  | true =>
    have hs : ∃ z n q, execute_switch s = some
        { s with zero_flag := z, neg_flag := n, pos_flag := q,
                 execute := execute_out s.execute } := by
      have h1 := hok hv
      cases hop : s.execute.opcode <;> simp [hop, straight_op] at h1
      · exact ⟨s.zero_flag, s.neg_flag, s.pos_flag, by simp [execute_switch, execute_out, hop]⟩
      · refine ⟨s.zero_flag, s.neg_flag, s.pos_flag, ?_⟩
        simp only [execute_switch, execute_out, hop]
      · refine ⟨s.zero_flag, s.neg_flag, s.pos_flag, ?_⟩
        simp only [execute_switch, execute_out, hop]
      · refine ⟨s.zero_flag, s.neg_flag, s.pos_flag, ?_⟩
        simp only [execute_switch, execute_out, hop]
      · exact ⟨s.zero_flag, s.neg_flag, s.pos_flag, by simp [execute_switch, execute_out, hop]⟩
      · have e0 : execute_out s.execute =
            { s.execute with result_buffer := s.execute.imm } := by
          simp only [execute_out, hop]
        have e1 := execute_CMP_form s
        have hsw : execute_switch s = some (execute_CMP s) := by
          simp [execute_switch, hop]
        rw [hsw, e0]
        exact ⟨_, _, _, congrArg some e1⟩
      · have e0 : execute_out s.execute =
            { s.execute with result_buffer := s.execute.imm } := by
          simp only [execute_out, hop]
        have e2 := execute_CML_form s
        have hsw : execute_switch s = some (execute_CML s) := by
          simp [execute_switch, hop]
        rw [hsw, e0]
        exact ⟨_, _, _, congrArg some e2⟩
    obtain ⟨z, n, q, hs⟩ := hs
    exact ⟨z, n, q, by simp [hs]⟩

/-- Decode on a straight-line latch over a zero register file: the latch moves
to Execute with the operand values a memory access needs equal to zero. -/
theorem flow_decode (p : APEX_Params) (s : APEX_CPU)
    (hst : s.decode.stall = false)
    (hregs : s.regs = List.replicate p.REG_FILE_SIZE 0)
    (hok : s.decode.has_insn = true → okDecode p s.decode) :
    ∃ D, APEX_decode s = some
        (if s.decode.has_insn then
          { s with execute := D, decode := { D with has_insn := false } }
        else s) ∧
      D.opcode = s.decode.opcode ∧ D.has_insn = s.decode.has_insn ∧
      D.stall = false ∧ (s.decode.has_insn = true → okExecute p D) := by
  unfold APEX_decode
  rw [hst]
  cases hv : s.decode.has_insn with
  | false => exact ⟨s.decode, by simp, rfl, hv, hst, by simp⟩
  | true =>
    obtain ⟨h1, h2, h3⟩ := hok hv
    have hf := decode_forward_form s
    generalize decode_forward s = d at hf
    have f1 : d.opcode = s.decode.opcode := by rw [hf]
    have f2 : d.rs1 = s.decode.rs1 := by rw [hf]
    have f3 : d.rs2 = s.decode.rs2 := by rw [hf]
    have f4 : d.rd = s.decode.rd := by rw [hf]
    have f5 : d.imm = s.decode.imm := by rw [hf]
    have f6 : d.has_insn = s.decode.has_insn := by rw [hf]
    have f7 : d.stall = s.decode.stall := by rw [hf]
    have hread : ∃ D, decode_read s.regs d = some D ∧
        (is_mem_op d.opcode = true → D.rs1_value = 0) ∧
        (d.opcode = .STORE ∨ d.opcode = .STOREP → D.rs2_value = 0) := by
      rw [hregs]
      unfold decode_read
      rw [← f1] at h1 h2
      rcases h1 with h1 | h1
      · obtain ⟨a1, a2, a3, a4, a5, a6⟩ := h2 h1
        rw [← f2] at a1 a2
        rw [← f3] at a3 a4
        have r1 := readAt_replicate p.REG_FILE_SIZE (0 : Int) d.rs1 a1 a2
        have r2 := readAt_replicate p.REG_FILE_SIZE (0 : Int) d.rs2 a3 a4
        cases hop : d.opcode <;> simp [hop, straight_op] at h1 <;>
          simp [hop, r1, r2, is_mem_op]
      · simp [h1, is_mem_op]
    obtain ⟨D, hD, v1, v2⟩ := hread
    have hform := decode_read_form _ _ _ hD
    have g1 : D.opcode = d.opcode := by rw [hform]
    have g4 : D.rd = d.rd := by rw [hform]
    have g5 : D.imm = d.imm := by rw [hform]
    have g6 : D.has_insn = d.has_insn := by rw [hform]
    have g7 : D.stall = d.stall := by rw [hform]
    refine ⟨D, by simp [hD], g1.trans f1, by rw [g6, f6, hv], g7.trans (f7.trans hst), ?_⟩
    intro _
    refine ⟨by rw [g1, f1]; exact h1, ?_, ?_, ?_⟩
    · intro hop
      rw [g1, f1] at hop
      have hs : straight_op s.decode.opcode = true := by simp [hop, straight_op]
      obtain ⟨-, -, -, -, a5, a6⟩ := h2 hs
      rw [g4, f4]
      exact ⟨a5, a6⟩
    · intro hm
      rw [g1] at hm
      have hm2 := hm
      rw [f1] at hm2
      obtain ⟨b1, b2, b3⟩ := h3 hm2
      rw [g5, f5]
      exact ⟨v1 hm, b1, b2, b3⟩
    · intro hop
      rw [g1] at hop
      exact v2 hop

/-- Fetch on an enabled, non-stalled Fetch latch with no redirect pending and no
BTB hit: the instruction at `pc` is copied into the Fetch and Decode latches. -/
theorem flow_fetch (s : APEX_CPU) (ins : APEX_Instruction)
    (hst : s.fetch.stall = false) (hv : s.fetch.has_insn = true)
    (hn : s.fetch_from_next_cycle = false) (hp : fetch_predict s = some s)
    (hr : readAt s.code_memory (get_code_memory_index_from_pc s.pc) = some ins)
    (hnop : ins.opcode ≠ .NOP) :
    APEX_fetch s = some
      { s with
        pc := wrap32 (s.pc + 4)
        decode :=
          { s.fetch with
            pc := s.pc, opcode := ins.opcode, rd := ins.rd, rs1 := ins.rs1,
            rs2 := ins.rs2, imm := ins.imm }
        fetch :=
          { s.fetch with
            pc := s.pc, opcode := ins.opcode, rd := ins.rd, rs1 := ins.rs1,
            rs2 := ins.rs2, imm := ins.imm,
            has_insn := !decide (ins.opcode = .HALT) } } := by
  unfold APEX_fetch APEX_fetch_body
  simp only [hst, hp, Option.some_bind]
  unfold fetch_insn
  by_cases e : ins.opcode = .HALT
  · simp [hv, hn, hr, hnop, e, hst]
  · simp [hv, hn, hr, hnop, e, hv, hst]

/-- A disabled, non-stalled Fetch with no BTB hit does nothing. -/
theorem flow_fetch_off (s : APEX_CPU)
    (hst : s.fetch.stall = false) (hv : s.fetch.has_insn = false)
    (hp : fetch_predict s = some s) : APEX_fetch s = some s := by
  unfold APEX_fetch APEX_fetch_body
  simp only [hst, hp, Option.some_bind]
  simp [fetch_insn, hv]

/-- The hazard check does nothing when no stall is set and Execute holds no
register-writing opcode. -/
theorem flow_detect (s : APEX_CPU)
    (h1 : s.fetch.stall = false) (h2 : s.decode.stall = false)
    (hop : s.execute.has_insn = true → is_write_to_reg_instruction s.execute.opcode = false) :
    detect_data_hazards s = some s := by
  unfold detect_data_hazards
  by_cases he : s.execute.has_insn = true
  · have ho := hop he
    by_cases hd : s.decode.has_insn = true
    · have e : ({ s with decode := { s.decode with stall := false },
                         fetch := { s.fetch with stall := false } } : APEX_CPU) = s := by
        cases s with
        | mk _ _ _ _ _ _ _ _ _ _ f d _ _ _ _ =>
          cases f; cases d; simp_all
      have hno : ¬ (s.execute.opcode = .ADD ∨ s.execute.opcode = .SUB ∨
          s.execute.opcode = .MUL ∨ s.execute.opcode = .AND ∨
          s.execute.opcode = .OR ∨ s.execute.opcode = .XOR ∨
          s.execute.opcode = .MOVC ∨ s.execute.opcode = .ADDL ∨
          s.execute.opcode = .SUBL) := by
        cases hopc : s.execute.opcode <;> simp [hopc, is_write_to_reg_instruction] at ho ⊢
      rw [if_pos (by simp [he, hd]), if_neg hno, e]
    · simp [he, hd]
  · simp [he]

/-- Without a BTB hit the prediction step of Fetch does nothing. -/
theorem flow_predict (s : APEX_CPU)
    (h : find_in_BTB s.btb s.fetch.pc = -1 ∨
      (s.fetch.opcode ≠ .BZ ∧ s.fetch.opcode ≠ .BNZ ∧ s.fetch.opcode ≠ .BP ∧
        s.fetch.opcode ≠ .BNP)) :
    fetch_predict s = some s := by
  unfold fetch_predict
  rcases h with h | ⟨h1, h2, h3, h4⟩
  · simp [h]
  · simp [h1, h2, h3, h4]

/-- The opcodes of a straight-line program are not register-writing for the
hazard check. -/
theorem straight_not_write (op : Opcode)
    (h : straight_op op = true ∨ op = .HALT) :
    is_write_to_reg_instruction op = false := by
  cases op <;> simp [straight_op, is_write_to_reg_instruction] at h ⊢

/-- `execute_out` keeps the valid bit, the stall flag, the opcode and `rd`. -/
theorem execute_out_frame (l : CPU_Stage) :
    (execute_out l).has_insn = l.has_insn ∧ (execute_out l).stall = l.stall ∧
    (execute_out l).opcode = l.opcode ∧ (execute_out l).rd = l.rd := by
  unfold execute_out
  split <;> exact ⟨rfl, rfl, rfl, rfl⟩

/-- `memory_out` keeps the valid bit, the stall flag, the opcode and `rd`. -/
theorem memory_out_frame (l : CPU_Stage) :
    (memory_out l).has_insn = l.has_insn ∧ (memory_out l).stall = l.stall ∧
    (memory_out l).opcode = l.opcode ∧ (memory_out l).rd = l.rd := by
  unfold memory_out
  split <;> exact ⟨rfl, rfl, rfl, rfl⟩

/-- The stages after Writeback on a straight-line pipeline state: every valid
latch moves one stage on, Fetch reads the next instruction if it is enabled,
and nothing else but the flags changes. -/
theorem flow_stages (p : APEX_Params) (s : APEX_CPU) (ins : APEX_Instruction)
    (st1 : s.fetch.stall = false) (st2 : s.decode.stall = false)
    (st3 : s.execute.stall = false) (st4 : s.memory.stall = false)
    (hregs : s.regs = List.replicate p.REG_FILE_SIZE 0)
    (hmem : s.data_memory = List.replicate p.DATA_MEMORY_SIZE 0)
    (hn : s.fetch_from_next_cycle = false)
    (hpred : find_in_BTB s.btb s.fetch.pc = -1 ∨
      (s.fetch.opcode ≠ .BZ ∧ s.fetch.opcode ≠ .BNZ ∧ s.fetch.opcode ≠ .BP ∧
        s.fetch.opcode ≠ .BNP))
    (okD : s.decode.has_insn = true → okDecode p s.decode)
    (okE : s.execute.has_insn = true → okExecute p s.execute)
    (okM : s.memory.has_insn = true → okMemory p s.memory)
    (hins : s.fetch.has_insn = true →
      readAt s.code_memory (get_code_memory_index_from_pc s.pc) = some ins ∧
        (straight_op ins.opcode = true ∨ ins.opcode = .HALT)) :
    ∃ c, APEX_stages s = some c ∧
      c.code_memory = s.code_memory ∧ c.regs = s.regs ∧
      c.data_memory = s.data_memory ∧ c.btb = s.btb ∧ c.clock = s.clock ∧
      c.insn_completed = s.insn_completed ∧ c.fetch_from_next_cycle = false ∧
      c.pc = (if s.fetch.has_insn then wrap32 (s.pc + 4) else s.pc) ∧
      c.fetch.stall = false ∧
      (s.fetch.has_insn = false → c.fetch = s.fetch) ∧
      (s.fetch.has_insn = true → c.fetch.opcode = ins.opcode ∧
        c.fetch.has_insn = !decide (ins.opcode = .HALT)) ∧
      c.decode.stall = false ∧ c.decode.has_insn = s.fetch.has_insn ∧
      (s.fetch.has_insn = true → c.decode.opcode = ins.opcode ∧
        c.decode.rs1 = ins.rs1 ∧ c.decode.rs2 = ins.rs2 ∧ c.decode.rd = ins.rd ∧
        c.decode.imm = ins.imm) ∧
      c.execute.stall = false ∧ c.execute.has_insn = s.decode.has_insn ∧
      (s.decode.has_insn = true → c.execute.opcode = s.decode.opcode ∧
        okExecute p c.execute) ∧
      c.memory.stall = false ∧ c.memory.has_insn = s.execute.has_insn ∧
      (s.execute.has_insn = true → c.memory = execute_out s.execute) ∧
      (s.memory.has_insn = true → c.writeback = memory_out s.memory) ∧
      (s.memory.has_insn = false → c.writeback = s.writeback) := by
  -- Memory
  have e1 := flow_memory p s st4 hmem okM
  have x1 : (if s.memory.has_insn = true then
        ({ s with writeback := memory_out s.memory,
                  memory := { memory_out s.memory with has_insn := false } } : APEX_CPU)
      else s) =
      { s with
        writeback := if s.memory.has_insn then memory_out s.memory else s.writeback
        memory := if s.memory.has_insn then
          { memory_out s.memory with has_insn := false } else s.memory } := by
    split_ifs <;> rfl
  rw [x1] at e1
  clear x1
  generalize hW : (if s.memory.has_insn then memory_out s.memory else s.writeback) = W at e1
  generalize hM : (if s.memory.has_insn then
    { memory_out s.memory with has_insn := false } else s.memory) = M at e1
  -- Execute
  obtain ⟨z, n, q, e2⟩ := flow_execute { s with writeback := W, memory := M } st3
    (fun h => (okE h).1)
  have x2 : (if s.execute.has_insn = true then
        ({ s with writeback := W, zero_flag := z, neg_flag := n, pos_flag := q,
                  memory := execute_out s.execute,
                  execute := { execute_out s.execute with has_insn := false } } : APEX_CPU)
      else { s with writeback := W, memory := M }) =
      { s with
        writeback := W
        zero_flag := if s.execute.has_insn then z else s.zero_flag
        neg_flag := if s.execute.has_insn then n else s.neg_flag
        pos_flag := if s.execute.has_insn then q else s.pos_flag
        memory := if s.execute.has_insn then execute_out s.execute else M
        execute := if s.execute.has_insn then
          { execute_out s.execute with has_insn := false } else s.execute } := by
    split_ifs <;> rfl
  simp only [] at e2
  rw [x2] at e2
  clear x2
  generalize hM2 : (if s.execute.has_insn then execute_out s.execute else M) = M2 at e2
  generalize hE : (if s.execute.has_insn then
    { execute_out s.execute with has_insn := false } else s.execute) = E at e2
  generalize (if s.execute.has_insn then z else s.zero_flag) = z2 at e2
  generalize (if s.execute.has_insn then n else s.neg_flag) = n2 at e2
  generalize (if s.execute.has_insn then q else s.pos_flag) = q2 at e2
  -- Decode
  obtain ⟨D, e3, d1, d2, d3, d4⟩ := flow_decode p
    { s with writeback := W, zero_flag := z2, neg_flag := n2, pos_flag := q2,
             memory := M2, execute := E } st2 hregs okD
  have x3 : (if s.decode.has_insn = true then
        ({ s with writeback := W, zero_flag := z2, neg_flag := n2, pos_flag := q2,
                  memory := M2, execute := D,
                  decode := { D with has_insn := false } } : APEX_CPU)
      else { s with writeback := W, zero_flag := z2, neg_flag := n2, pos_flag := q2,
                    memory := M2, execute := E }) =
      { s with
        writeback := W, zero_flag := z2, neg_flag := n2, pos_flag := q2, memory := M2
        execute := if s.decode.has_insn then D else E
        decode := if s.decode.has_insn then { D with has_insn := false } else s.decode } := by
    split_ifs <;> rfl
  simp only [] at e3 d1 d2 d3 d4
  rw [x3] at e3
  clear x3
  generalize hE2 : (if s.decode.has_insn then D else E) = E2 at e3
  generalize hD2 : (if s.decode.has_insn then
    { D with has_insn := false } else s.decode) = D2 at e3
  have sD2 : D2.stall = false := by
    rw [← hD2]; split_ifs
    · exact d3
    · exact st2
  have vD2 : D2.has_insn = false := by
    rw [← hD2]; split_ifs with hc
    · rfl
    · simpa using hc
  have sE2 : E2.stall = false := by
    rw [← hE2]; split_ifs
    · exact d3
    · rw [← hE]; split_ifs
      · exact (execute_out_frame _).2.1.trans st3
      · exact st3
  have vE2 : E2.has_insn = s.decode.has_insn := by
    rw [← hE2]; split_ifs with hc
    · rw [d2]
    · rw [← hE]
      have : s.decode.has_insn = false := by simpa using hc
      rw [this]
      split_ifs with he
      · rfl
      · simpa using he
  have oE2 : s.decode.has_insn = true →
      E2.opcode = s.decode.opcode ∧ okExecute p E2 := by
    intro hc
    rw [← hE2, if_pos hc]
    exact ⟨d1, d4 hc⟩
  have sM2 : M2.stall = false := by
    rw [← hM2]; split_ifs
    · exact (execute_out_frame _).2.1.trans st3
    · rw [← hM]; split_ifs
      · exact (memory_out_frame _).2.1.trans st4
      · exact st4
  have vM2 : M2.has_insn = s.execute.has_insn := by
    rw [← hM2]; split_ifs with hc
    · exact (execute_out_frame _).1
    · have : s.execute.has_insn = false := by simpa using hc
      rw [this, ← hM]
      split_ifs with hm
      · rfl
      · simpa using hm
  have oM2 : s.execute.has_insn = true → M2 = execute_out s.execute := by
    intro hc
    rw [← hM2, if_pos hc]
  have oW1 : s.memory.has_insn = true → W = memory_out s.memory := by
    intro hc
    rw [← hW, if_pos hc]
  have oW2 : s.memory.has_insn = false → W = s.writeback := by
    intro hc
    rw [← hW, hc]
    rfl
  have hnw : E2.has_insn = true → is_write_to_reg_instruction E2.opcode = false := by
    intro hc
    rw [vE2] at hc
    exact straight_not_write _ (oE2 hc).2.1
  clear hW hM hM2 hE hE2 hD2 d1 d2 d3 d4
  -- Fetch and the closing hazard check
  have hst : APEX_stages s = (APEX_fetch
      { s with writeback := W, zero_flag := z2, neg_flag := n2, pos_flag := q2,
               memory := M2, execute := E2, decode := D2 }).bind
      detect_data_hazards := by
    unfold APEX_stages
    have a1 : E.stall = false ∨ True := Or.inr trivial
    simp only [st4, e1, Option.some_bind, Bool.false_eq_true, if_false, st3, e2, st2, e3,
      st1]
  rw [hst]
  clear hst e1 e2 e3
  set S3 : APEX_CPU :=
    { s with writeback := W, zero_flag := z2, neg_flag := n2, pos_flag := q2,
             memory := M2, execute := E2, decode := D2 } with hS3
  cases hF : s.fetch.has_insn with
  | false =>
    have ef : APEX_fetch S3 = some S3 := flow_fetch_off S3 st1 hF (flow_predict S3 hpred)
    have ed : detect_data_hazards S3 = some S3 := flow_detect S3 st1 sD2 hnw
    rw [ef]
    simp only [Option.some_bind]
    rw [ed]
    refine ⟨_, rfl, rfl, rfl, rfl, rfl, rfl, rfl, hn, by simp, st1, fun _ => rfl,
      by simp, sD2, vD2, by simp, sE2, vE2, oE2, sM2, vM2, oM2, oW1, oW2⟩
  | true =>
    obtain ⟨hr, hso⟩ := hins hF
    have hnop : ins.opcode ≠ .NOP := by
      rcases hso with h | h
      · intro e; rw [e] at h; simp [straight_op] at h
      · rw [h]; decide
    have ef := flow_fetch S3 ins st1 hF hn (flow_predict S3 hpred) hr hnop
    rw [ef]
    simp only [Option.some_bind]
    have ed := flow_detect
      { S3 with
        pc := wrap32 (S3.pc + 4)
        decode :=
          { S3.fetch with
            pc := S3.pc, opcode := ins.opcode, rd := ins.rd, rs1 := ins.rs1,
            rs2 := ins.rs2, imm := ins.imm }
        fetch :=
          { S3.fetch with
            pc := S3.pc, opcode := ins.opcode, rd := ins.rd, rs1 := ins.rs1,
            rs2 := ins.rs2, imm := ins.imm,
            has_insn := !decide (ins.opcode = .HALT) } } st1 st1 hnw
    rw [ed]
    refine ⟨_, rfl, rfl, rfl, rfl, rfl, rfl, rfl, hn, by simp [hS3], st1, by simp,
      fun _ => ⟨rfl, rfl⟩, st1, hF, fun _ => ⟨rfl, rfl, rfl, rfl, rfl⟩,
      sE2, vE2, oE2, sM2, vM2, oM2, oW1, oW2⟩

/-- A latch that satisfies what Execute needs leaves Execute satisfying what
Memory needs. -/
theorem okMemory_execute_out (p : APEX_Params) (l : CPU_Stage) (h : okExecute p l) :
    okMemory p (execute_out l) := by
  obtain ⟨h1, h2, h3, h4⟩ := h
  unfold okMemory execute_out
  rcases h1 with h1 | h1
  · cases hop : l.opcode <;> simp [hop, straight_op] at h1 <;>
      simp [hop, straight_op, is_mem_op] at h2 h3 h4 ⊢
    · obtain ⟨a, b, c, d⟩ := h3
      rw [a, zero_add, wrap32_of_range _ (by omega) d]
      exact ⟨h2, b, c⟩
    · obtain ⟨a, b, c, d⟩ := h3
      rw [a, zero_add, wrap32_of_range _ (by omega) d]
      exact ⟨⟨b, c⟩, h4⟩
    · obtain ⟨a, b, c, d⟩ := h3
      rw [a, zero_add, wrap32_of_range _ (by omega) d]
      exact ⟨⟨b, c⟩, h4⟩
  · simp [h1, straight_op, is_mem_op]

/-- A latch that satisfies what Memory needs leaves Memory satisfying what
Writeback needs. -/
theorem okWriteback_memory_out (p : APEX_Params) (l : CPU_Stage) (h : okMemory p l) :
    okWriteback p (memory_out l) := by
  obtain ⟨h1, h2, h3, h4⟩ := h
  unfold okWriteback memory_out
  rcases h1 with h1 | h1
  · cases hop : l.opcode <;> simp [hop, straight_op] at h1 <;>
      simp [hop, straight_op] at h2 ⊢
    exact h2
  · simp [h1, straight_op]

/-- In a straight-line program every instruction is of the body or is `HALT`. -/
theorem StraightProgram_op (p : APEX_Params) (code : List APEX_Instruction)
    (hc : StraightProgram p code) (j : Nat) (i : APEX_Instruction)
    (h : code.get? j = some i) :
    straight_op i.opcode = true ∨ i.opcode = .HALT := by
  have hj : j < code.length := by
    rw [List.get?_eq_getElem?] at h
    exact (List.getElem?_eq_some_iff.mp h).1
  obtain ⟨a, b⟩ := hc j i h
  rcases Nat.lt_or_ge (j + 1) code.length with k | k
  · exact Or.inl (b k).1
  · exact Or.inr (a (by omega))

/-- Only the last instruction of a straight-line program is `HALT`. -/
theorem StraightProgram_halt (p : APEX_Params) (code : List APEX_Instruction)
    (hc : StraightProgram p code) (j : Nat) (i : APEX_Instruction)
    (h : code.get? j = some i) :
    i.opcode = .HALT ↔ j + 1 = code.length := by
  have hj : j < code.length := by
    rw [List.get?_eq_getElem?] at h
    exact (List.getElem?_eq_some_iff.mp h).1
  obtain ⟨a, b⟩ := hc j i h
  constructor
  · intro e
    by_contra k
    have := (b (by omega)).1
    rw [e] at this
    simp [straight_op] at this
  · exact a

/-- The instruction entering Decode satisfies what Decode needs. -/
theorem StraightProgram_okDecode (p : APEX_Params) (code : List APEX_Instruction)
    (hc : StraightProgram p code) (j : Nat) (i : APEX_Instruction)
    (h : code.get? j = some i) (l : CPU_Stage)
    (e0 : l.opcode = i.opcode) (e1 : l.rs1 = i.rs1) (e2 : l.rs2 = i.rs2)
    (e3 : l.rd = i.rd) (e4 : l.imm = i.imm) : okDecode p l := by
  have hj : j < code.length := by
    rw [List.get?_eq_getElem?] at h
    exact (List.getElem?_eq_some_iff.mp h).1
  have ho := StraightProgram_op p code hc j i h
  have hh := StraightProgram_halt p code hc j i h
  obtain ⟨a, b⟩ := hc j i h
  unfold okDecode
  rw [e0, e1, e2, e3, e4]
  refine ⟨ho, ?_, ?_⟩
  · intro hs
    have k : j + 1 < code.length := by
      by_contra k
      have : i.opcode = .HALT := a (by omega)
      rw [this] at hs
      simp [straight_op] at hs
    obtain ⟨-, c1, c2, c3, c4, c5, c6, -⟩ := b k
    exact ⟨c1, c2, c3, c4, c5, c6⟩
  · intro hm
    have k : j + 1 < code.length := by
      by_contra k
      have : i.opcode = .HALT := a (by omega)
      rw [this] at hm
      simp [is_mem_op] at hm
    exact (b k).2.2.2.2.2.2.2 hm

/-- Reading code memory at the program counter of the `t`-th fetch. -/
theorem flow_code_index (code : List APEX_Instruction) (t : Nat)
    (hb : code.length ≤ 500000000) (ht : t < code.length) :
    readAt code (get_code_memory_index_from_pc (4000 + 4 * ((min t code.length : Nat) : Int)))
      = code.get? t := by
  have hm : min t code.length = t := Nat.min_eq_left (Nat.le_of_lt ht)
  rw [hm]
  unfold get_code_memory_index_from_pc readAt
  have e : (4000 + 4 * (t : Int) - 4000) = 4 * (t : Int) := by ring
  rw [e, wrap32_of_range _ (by omega) (by omega),
    Int.mul_tdiv_cancel_left _ (by decide : (4 : Int) ≠ 0)]
  simp

/-- One cycle of a straight-line program before the cycle in which `HALT`
retires: no Halt is signalled and the pipeline state of the next cycle is
reached. -/
theorem Flow_step (p : APEX_Params) (code : List APEX_Instruction) (t : Nat)
    (s : APEX_CPU) (hc : StraightProgram p code) (hb : code.length ≤ 500000000)
    (hF : Flow p code t s) (ht : t < code.length + 3) :
    ∃ s', APEX_cpu_cycle s = some (false, s') ∧ Flow p code (t + 1) s' := by
  obtain ⟨f1, f2, f3, f4, f5, f6, f7, f8, f9, f10, fD, fE, fM, fW⟩ := hF
  obtain ⟨sD, vD, oD⟩ := fD
  obtain ⟨sE, vE, oE⟩ := fE
  obtain ⟨sM, vM, oM⟩ := fM
  obtain ⟨sW, vW, oW⟩ := fW
  -- Writeback does not signal Halt
  have hwb := flow_writeback p s sW f2 (fun h => (oW h).2)
  have hnh : (s.writeback.has_insn && decide (s.writeback.opcode = .HALT)) = false := by
    cases hv : s.writeback.has_insn with
    | false => rfl
    | true =>
      obtain ⟨⟨i, gi, oi⟩, -⟩ := oW hv
      rw [vW] at hv
      have hv2 := of_decide_eq_true hv
      have : ¬ i.opcode = .HALT := by
        rw [StraightProgram_halt p code hc _ i gi]
        omega
      simp [oi, this]
  rw [hnh] at hwb
  clear hnh
  set s1 : APEX_CPU :=
    { s with
      insn_completed :=
        if s.writeback.has_insn then wrap32 (s.insn_completed + 1) else s.insn_completed
      writeback := { s.writeback with has_insn := false } } with hs1
  -- the instruction Fetch reads in this cycle, if any
  have hins : ∃ ins : APEX_Instruction, s.fetch.has_insn = true →
      code.get? t = some ins ∧
      readAt s1.code_memory (get_code_memory_index_from_pc s1.pc) = some ins := by
    by_cases hlt : t < code.length
    · have hg : code.get? t = some (code.get ⟨t, hlt⟩) := List.get?_eq_get hlt
      refine ⟨code.get ⟨t, hlt⟩, fun _ => ⟨hg, ?_⟩⟩
      have : readAt s.code_memory (get_code_memory_index_from_pc s.pc) = code.get? t := by
        rw [f1, f6]
        exact flow_code_index code t hb hlt
      exact this.trans hg
    · refine ⟨{ opcode := .HALT, rd := 0, rs1 := 0, rs2 := 0, imm := 0 }, fun h => ?_⟩
      rw [f9] at h
      exact absurd (of_decide_eq_true h) hlt
  obtain ⟨ins, hins⟩ := hins
  obtain ⟨c, hst, c1, c2, c3, c4, c5, c6, c7, c8, c9, c10, c11, c12, c13, c14, c15, c16,
      c17, c18, c19, c20, c21, c22⟩ :=
    flow_stages p s1 ins f8 sD sE sM f2 f3 f7 f10 (fun h => (oD h).2) (fun h => (oE h).2)
      (fun h => (oM h).2)
      (fun h => ⟨(hins h).2, StraightProgram_op p code hc t ins (hins h).1⟩)
  refine ⟨{ c with clock := wrap32 (c.clock + 1) }, ?_, ?_⟩
  · simp only [APEX_cpu_cycle, hwb, hst]
  · have g9 : s1.fetch.has_insn = decide (t < code.length) := f9
    have gD : s1.decode.has_insn = decide (1 ≤ t ∧ t < 1 + code.length) := vD
    have gE : s1.execute.has_insn = decide (2 ≤ t ∧ t < 2 + code.length) := vE
    have gM : s1.memory.has_insn = decide (3 ≤ t ∧ t < 3 + code.length) := vM
    refine
      { code_eq := c1.trans f1, regs_eq := c2.trans f2, mem_eq := c3.trans f3,
        clock_eq := ?_, count_eq := ?_, pc_eq := ?_, delay := c7, fetch_stall := c9,
        fetch_on := ?_, predict := ?_, decode := ⟨c12, ?_, ?_⟩,
        execute := ⟨c15, ?_, ?_⟩, memory := ⟨c18, ?_, ?_⟩, writeback := ?_ }
    · show wrap32 (c.clock + 1) = _
      rw [c5]
      show wrap32 (s.clock + 1) = _
      rw [f4, wrap32_of_range _ (by omega) (by omega)]
      push_cast
      rfl
    · show c.insn_completed = _
      rw [c6]
      show (if s.writeback.has_insn = true then wrap32 (s.insn_completed + 1)
        else s.insn_completed) = _
      rw [vW, f5]
      by_cases h4 : 4 ≤ t
      · have : (4 ≤ t ∧ t < 4 + code.length) := ⟨h4, by omega⟩
        rw [if_pos (decide_eq_true this), wrap32_of_range _ (by omega) (by omega)]
        omega
      · have : ¬ (4 ≤ t ∧ t < 4 + code.length) := fun h => h4 h.1
        rw [if_neg (by simpa using this)]
        omega
    · show c.pc = _
      rw [c8, g9]
      show (if decide (t < code.length) = true then wrap32 (s.pc + 4) else s.pc) = _
      rw [f6]
      by_cases hlt : t < code.length
      · rw [if_pos (decide_eq_true hlt), Nat.min_eq_left (Nat.le_of_lt hlt),
          Nat.min_eq_left (show t + 1 ≤ code.length from hlt),
          wrap32_of_range _ (by omega) (by omega)]
        push_cast
        ring
      · rw [if_neg (by simpa using hlt), Nat.min_eq_right (by omega),
          Nat.min_eq_right (by omega)]
    · show c.fetch.has_insn = _
      by_cases hlt : t < code.length
      · have hv : s.fetch.has_insn = true := by rw [f9]; exact decide_eq_true hlt
        rw [(c11 hv).2]
        have hh := StraightProgram_halt p code hc t ins (hins hv).1
        by_cases e : ins.opcode = .HALT
        · have : ¬ (t + 1 < code.length) := by have := hh.mp e; omega
          simp [e, this]
        · have : t + 1 < code.length := by
            have : ¬ (t + 1 = code.length) := fun k => e (hh.mpr k)
            omega
          simp [e, this]
      · have hv : s.fetch.has_insn = false := by rw [f9]; simpa using hlt
        rw [c10 hv]
        show s.fetch.has_insn = _
        rw [hv]
        have : ¬ (t + 1 < code.length) := by omega
        simp [this]
    · show find_in_BTB c.btb c.fetch.pc = -1 ∨ _
      by_cases hlt : t < code.length
      · have hv : s.fetch.has_insn = true := by rw [f9]; exact decide_eq_true hlt
        right
        show c.fetch.opcode ≠ .BZ ∧ c.fetch.opcode ≠ .BNZ ∧ c.fetch.opcode ≠ .BP ∧
          c.fetch.opcode ≠ .BNP
        rw [(c11 hv).1]
        rcases StraightProgram_op p code hc t ins (hins hv).1 with k | k
        · cases ho : ins.opcode <;> simp [ho, straight_op] at k ⊢
        · simp [k]
      · have hv : s.fetch.has_insn = false := by rw [f9]; simpa using hlt
        show find_in_BTB c.btb c.fetch.pc = -1 ∨
          (c.fetch.opcode ≠ .BZ ∧ c.fetch.opcode ≠ .BNZ ∧ c.fetch.opcode ≠ .BP ∧
            c.fetch.opcode ≠ .BNP)
        rw [c10 hv, c4]
        exact f10
    · show c.decode.has_insn = _
      rw [c13, g9]
      exact decide_eq_decide.mpr ⟨fun h => ⟨by omega, by omega⟩, fun h => by omega⟩
    · intro hv
      have hv2 : s.fetch.has_insn = true := by
        have : c.decode.has_insn = s.fetch.has_insn := c13
        rw [← this]; exact hv
      obtain ⟨a0, a1, a2, a3, a4⟩ := c14 hv2
      have hg := (hins hv2).1
      exact ⟨⟨ins, by simpa using hg, a0⟩,
        StraightProgram_okDecode p code hc t ins hg _ a0 a1 a2 a3 a4⟩
    · show c.execute.has_insn = _
      rw [c16, gD]
      exact decide_eq_decide.mpr ⟨fun h => ⟨by omega, by omega⟩, fun h => ⟨by omega, by omega⟩⟩
    · intro hv
      have hv2 : s.decode.has_insn = true := by
        have : c.execute.has_insn = s.decode.has_insn := c16
        rw [← this]; exact hv
      obtain ⟨⟨i, gi, oi⟩, -⟩ := oD hv2
      obtain ⟨b0, b1⟩ := c17 hv2
      have e : t + 1 - 2 = t - 1 := by omega
      exact ⟨⟨i, by rw [e]; exact gi, b0.trans oi⟩, b1⟩
    · show c.memory.has_insn = _
      rw [c19, gE]
      exact decide_eq_decide.mpr ⟨fun h => ⟨by omega, by omega⟩, fun h => ⟨by omega, by omega⟩⟩
    · intro hv
      have hv2 : s.execute.has_insn = true := by
        have : c.memory.has_insn = s.execute.has_insn := c19
        rw [← this]; exact hv
      obtain ⟨⟨i, gi, oi⟩, ok⟩ := oE hv2
      have e : t + 1 - 3 = t - 2 := by omega
      have em : c.memory = execute_out s.execute := c20 hv2
      show (∃ i, code.get? (t + 1 - 3) = some i ∧ c.memory.opcode = i.opcode) ∧
        okMemory p c.memory
      rw [em]
      exact ⟨⟨i, by rw [e]; exact gi, (execute_out_frame _).2.2.1.trans oi⟩,
        okMemory_execute_out p _ ok⟩
    · cases hm : s.memory.has_insn with
      | true =>
        have ew : c.writeback = memory_out s.memory := c21 hm
        obtain ⟨⟨i, gi, oi⟩, ok⟩ := oM hm
        have e : t + 1 - 4 = t - 3 := by omega
        show Slot code (t + 1) 4 (okWriteback p) c.writeback
        rw [ew]
        refine ⟨(memory_out_frame _).2.1.trans sM, ?_, fun _ =>
          ⟨⟨i, by rw [e]; exact gi, (memory_out_frame _).2.2.1.trans oi⟩,
            okWriteback_memory_out p _ ok⟩⟩
        rw [(memory_out_frame _).1, vM]
        exact decide_eq_decide.mpr ⟨fun h => ⟨by omega, by omega⟩, fun h => ⟨by omega, by omega⟩⟩
      | false =>
        have ew : c.writeback = s1.writeback := c22 hm
        show Slot code (t + 1) 4 (okWriteback p) c.writeback
        rw [ew]
        rw [vM] at hm
        have hm2 : ¬ (3 ≤ t ∧ t < 3 + code.length) := by simpa using hm
        have : ¬ (4 ≤ t + 1 ∧ t + 1 < 4 + code.length) := fun h => hm2 ⟨by omega, by omega⟩
        refine ⟨sW, ?_, fun h => ?_⟩
        · exact (decide_eq_false this).symm
        · exact absurd h (by simp [hs1])

/-- In the initialised BTB no address other than the sentinel is found. -/
theorem find_in_BTB_initialize (n : Nat) (a : Int) (h : a ≠ -1) :
    find_in_BTB (initialize_BTB n) a = -1 := by
  induction n with
  | zero => rfl
  | succ k ih =>
    have e : initialize_BTB (k + 1) =
        { instruction_address := -1, history_bits := 0, target_address := -1 } ::
          initialize_BTB k := by
      simp [initialize_BTB, List.replicate_succ]
    rw [e]
    simp only [find_in_BTB]
    rw [if_neg (fun h2 => h h2.symm), ih]
    rfl

/-- The initial state of a non-empty program is the pipeline state of cycle 0. -/
theorem Flow_init (p : APEX_Params) (code : List APEX_Instruction)
    (hne : 0 < code.length) : Flow p code 0 (APEX_cpu_init p code) := by
  refine
    { code_eq := rfl, regs_eq := rfl, mem_eq := rfl, clock_eq := rfl, count_eq := rfl,
      pc_eq := ?_, delay := rfl, fetch_stall := rfl, fetch_on := ?_, predict := ?_,
      decode := ⟨rfl, ?_, ?_⟩, execute := ⟨rfl, ?_, ?_⟩, memory := ⟨rfl, ?_, ?_⟩,
      writeback := ⟨rfl, ?_, ?_⟩ }
  · simp [APEX_cpu_init]
  · simp [APEX_cpu_init, hne]
  · left
    exact find_in_BTB_initialize p.BTB_SIZE 0 (by decide)
  all_goals simp [APEX_cpu_init]

/-- In the cycle after `code.length + 3` cycles the `HALT` of a straight-line
program retires and the driver stops. -/
theorem Flow_halt (p : APEX_Params) (code : List APEX_Instruction) (s : APEX_CPU)
    (hc : StraightProgram p code) (hb : code.length ≤ 500000000)
    (hne : 0 < code.length) (hF : Flow p code (code.length + 3) s) :
    ∃ r, APEX_cpu_cycle s = some (true, r) ∧
      r.insn_completed = (code.length : Int) ∧ r.clock = (code.length : Int) + 3 := by
  obtain ⟨sW, vW, oW⟩ := hF.writeback
  have hv : s.writeback.has_insn = true := by
    rw [vW]
    exact decide_eq_true ⟨by omega, by omega⟩
  obtain ⟨⟨i, gi, oi⟩, ok⟩ := oW hv
  have hh : s.writeback.opcode = .HALT := by
    rw [oi, StraightProgram_halt p code hc _ i gi]
    omega
  have hwb := flow_writeback p s sW hF.regs_eq (fun _ => ok)
  rw [hv, hh] at hwb
  refine ⟨_, by simp only [APEX_cpu_cycle, hwb]; rfl, ?_, ?_⟩
  · show (if true = true then wrap32 (s.insn_completed + 1) else s.insn_completed) = _
    rw [if_pos rfl, hF.count_eq, wrap32_of_range _ (by omega) (by omega)]
    omega
  · show s.clock = _
    rw [hF.clock_eq]
    push_cast
    rfl

/-- A straight-line program run from the pipeline state of cycle `t` halts in
the cycle after `code.length + 3` cycles. -/
theorem Flow_run (p : APEX_Params) (code : List APEX_Instruction)
    (hc : StraightProgram p code) (hb : code.length ≤ 500000000)
    (hne : 0 < code.length) (k : Nat) :
    ∀ (t : Nat) (s : APEX_CPU), Flow p code t s → t + k = code.length + 3 →
      ∃ r, APEX_cpu_run (k + 1) s = some r ∧
        r.insn_completed = (code.length : Int) ∧ r.clock = (code.length : Int) + 3 := by
  induction k with
  | zero =>
    intro t s hF ht
    have : t = code.length + 3 := by omega
    subst this
    obtain ⟨r, h1, h2, h3⟩ := Flow_halt p code s hc hb hne hF
    exact ⟨r, by simp [APEX_cpu_run, h1], h2, h3⟩
  | succ k ih =>
    intro t s hF ht
    obtain ⟨s', h1, h2⟩ := Flow_step p code t s hc hb hF (by omega)
    obtain ⟨r, g1, g2, g3⟩ := ih (t + 1) s' h2 (by omega)
    refine ⟨r, ?_, g2, g3⟩
    rw [APEX_cpu_run, h1]
    exact g1

/-- Counterexample to C3: `CMP R1,R2; HALT` has no branch, no register
dependency and one instruction before `HALT`, and the run halts with
`completed_instruction_count == 2`. -/
theorem C3_counterexample :
    (APEX_cpu_run 6 (APEX_cpu_init (sampleParams .ADD) progCmp)).map
        (fun cpu => cpu.insn_completed) = some 2 ∧
    (progCmp.filter (fun i => decide (i.opcode ≠ .HALT))).length = 1 := by
  decide

/-- C3 (amended). Let a program consist of a body of instructions with opcodes
among CMP, CML, DIV, LOAD, STORE, STOREP (so no branch, jump or `NOP`, and none
of the nine opcodes the hazard check treats as register-writing), with register
indices inside the register file and, for the memory accesses, immediates that
are addresses of data memory, followed by `HALT`. Then the run from the initial
state terminates, `completed_instruction_count` at halt is the number of
instructions of the body plus one, the Halt being counted, and the clock at
halt is that number of instructions plus 4. -/
theorem C3_count_includes_halt (p : APEX_Params) (body : List APEX_Instruction)
    (h : APEX_Instruction) (hh : h.opcode = .HALT)
    (hbody : ∀ i ∈ body, straight_insn p i) (hlen : body.length < 500000000) :
    ∃ r, APEX_cpu_run (body.length + 5) (APEX_cpu_init p (body ++ [h])) = some r ∧
      r.insn_completed = (body.length : Int) + 1 ∧
      r.clock = (body.length : Int) + 4 := by
  have hl : (body ++ [h]).length = body.length + 1 := by simp
  have hc : StraightProgram p (body ++ [h]) := by
    intro j i hg
    rw [List.get?_eq_getElem?] at hg
    obtain ⟨hj, hv⟩ := List.getElem?_eq_some_iff.mp hg
    rw [hl] at hj
    rw [hl]
    constructor
    · intro e
      have : j = body.length := by omega
      subst this
      rw [List.getElem_append_right (Nat.le_refl _)] at hv
      simp at hv
      rw [← hv]
      exact hh
    · intro e
      have hj2 : j < body.length := by omega
      rw [List.getElem_append_left hj2] at hv
      exact hbody i (hv ▸ List.getElem_mem hj2)
  obtain ⟨r, h1, h2, h3⟩ := Flow_run p (body ++ [h]) hc (by rw [hl]; omega)
    (by rw [hl]; omega) (body.length + 4) 0 _
    (Flow_init p (body ++ [h]) (by rw [hl]; omega)) (by rw [hl]; omega)
  refine ⟨r, h1, ?_, ?_⟩
  · rw [h2, hl]; push_cast; rfl
  · rw [h3, hl]; push_cast; ring

/-- Witness for C3: the body `CMP R1,R2; STORE R1,R2,#3; LOAD R3,R1,#3`. -/
theorem C3_count_includes_halt_witness :
    ∃ r, APEX_cpu_run 8 (APEX_cpu_init (sampleParams .ADD)
        ([ { opcode := .CMP, rd := 0, rs1 := 1, rs2 := 2, imm := 0 },
           { opcode := .STORE, rd := 0, rs1 := 1, rs2 := 2, imm := 3 },
           { opcode := .LOAD, rd := 3, rs1 := 1, rs2 := 0, imm := 3 } ] ++
          [{ opcode := .HALT, rd := 0, rs1 := 0, rs2 := 0, imm := 0 }])) = some r ∧
      r.insn_completed = 4 ∧ r.clock = 7 := by
  obtain ⟨r, h1, h2, h3⟩ := C3_count_includes_halt (sampleParams .ADD)
    [ { opcode := .CMP, rd := 0, rs1 := 1, rs2 := 2, imm := 0 },
      { opcode := .STORE, rd := 0, rs1 := 1, rs2 := 2, imm := 3 },
      { opcode := .LOAD, rd := 3, rs1 := 1, rs2 := 0, imm := 3 } ]
    { opcode := .HALT, rd := 0, rs1 := 0, rs2 := 0, imm := 0 } rfl
    (by
      intro i hi
      simp only [List.mem_cons, List.mem_singleton, List.not_mem_nil, or_false] at hi
      rcases hi with rfl | rfl | rfl <;>
        simp [straight_insn, straight_op, is_mem_op, sampleParams])
    (by decide)
  exact ⟨r, h1, by rw [h2]; rfl, by rw [h3]; rfl⟩

/-! ### What each stage leaves alone -/

/-- The Execute switch redirects the fetch only under `takes_branch`. -/
theorem execute_switch_redirect (s c : APEX_CPU) (h : execute_switch s = some c)
    (hn : takes_branch s = false) :
    c.pc = s.pc ∧ c.fetch_from_next_cycle = s.fetch_from_next_cycle ∧
      c.fetch.has_insn = s.fetch.has_insn ∧ c.decode.has_insn = s.decode.has_insn := by
  unfold execute_switch at h
  unfold takes_branch at hn
  cases hop : s.execute.opcode <;>
    simp [hop, set_zero_flag, set_result, redirect, execute_CMP, execute_CML,
      execute_MOVC, set_compare_flags] at h hn
  all_goals try split_ifs at h
  all_goals first
    | (subst h; exact ⟨rfl, rfl, rfl, rfl⟩)
    | simp_all

/-- The Execute switch changes `rd` of its latch for `LOADP` only. -/
theorem execute_switch_rd (s c : APEX_CPU) (h : execute_switch s = some c) :
    c.execute.rd =
      if s.execute.opcode = .LOADP then wrap32 (s.execute.rd_value + 4)
      else s.execute.rd := by
  unfold execute_switch at h
  cases hw : writeAt s.regs s.execute.rd_value (wrap32 (s.execute.pc + 4)) <;>
    cases hop : s.execute.opcode <;>
    simp [hw, hop, set_zero_flag, set_result, redirect, execute_CMP, execute_CML,
      execute_MOVC, set_compare_flags] at h
  all_goals try split_ifs at h
  all_goals subst h
  all_goals simp

/-- Writeback changes the register file, the instruction count and its own
latch only. -/
theorem writeback_form (s c : APEX_CPU) (b : Bool) (h : APEX_writeback s = some (b, c)) :
    c = { s with regs := c.regs, insn_completed := c.insn_completed,
                 writeback := c.writeback } := by
  unfold APEX_writeback at h
  split_ifs at h
  · simp at h; obtain ⟨-, rfl⟩ := h; rfl
  · cases hs : writeback_switch s with
    | none => simp [hs] at h
    | some c1 =>
      simp [hs] at h
      obtain ⟨-, rfl⟩ := h
      rw [writeback_switch_form s c1 hs]
  · simp at h; obtain ⟨-, rfl⟩ := h; rfl

/-- Memory changes data memory, its own latch and the Writeback latch only, and
a valid, non-stalled latch is handed on with at most a new result buffer. -/
theorem memory_form (s c : APEX_CPU) (h : APEX_memory s = some c) :
    c = { s with data_memory := c.data_memory, memory := c.memory,
                 writeback := c.writeback } ∧
    (s.memory.stall = false → s.memory.has_insn = true →
      c.writeback = { s.memory with result_buffer := c.writeback.result_buffer }) := by
  unfold APEX_memory at h
  split_ifs at h with h1 h2
  · simp at h; subst h; exact ⟨rfl, fun g => by simp [h1] at g⟩
  · cases hs : memory_switch s with
    | none => simp [hs] at h
    | some c1 =>
      simp [hs] at h
      subst h
      have hf := memory_switch_form s c1 hs
      constructor
      · rw [hf]
      · intro _ _
        show c1.memory = { s.memory with result_buffer := c1.memory.result_buffer }
        rw [hf]
  · simp at h; subst h; exact ⟨rfl, fun _ g => absurd g h2⟩

/-- Execute leaves data memory, code memory, the counters and the Writeback
latch alone, and keeps the stall flags of Fetch and Decode; a valid,
non-stalled latch is handed on with at most a new result buffer, memory
address and `rd`; without a taken branch or jump Decode is left alone. -/
theorem execute_form (s c : APEX_CPU) (h : APEX_execute s = some c) :
    c.writeback = s.writeback ∧ c.data_memory = s.data_memory ∧
    c.code_memory = s.code_memory ∧ c.btb = s.btb ∧
    c.decode = { s.decode with has_insn := c.decode.has_insn } ∧
    c.fetch = { s.fetch with has_insn := c.fetch.has_insn } ∧
    (s.execute.stall = false → s.execute.has_insn = true →
      c.memory = { s.execute with
        result_buffer := c.memory.result_buffer,
        memory_address := c.memory.memory_address,
        rd := c.memory.rd } ∧
      c.memory.rd =
        (if s.execute.opcode = .LOADP then wrap32 (s.execute.rd_value + 4)
         else s.execute.rd)) ∧
    (flushes_decode s = false → c.decode = s.decode ∧ c.pc = s.pc ∧
      c.fetch = s.fetch ∧ c.fetch_from_next_cycle = s.fetch_from_next_cycle) := by
  unfold APEX_execute at h
  split_ifs at h with h1 h2
  · simp at h; subst h
    exact ⟨rfl, rfl, rfl, rfl, rfl, rfl, fun g => by simp [h1] at g, fun _ => ⟨rfl, rfl, rfl, rfl⟩⟩
  · cases hs : execute_switch s with
    | none => simp [hs] at h
    | some c1 =>
      simp [hs] at h
      subst h
      obtain ⟨hf, -⟩ := execute_switch_form s c1 hs
      have hrd := execute_switch_rd s c1 hs
      refine ⟨?_, ?_, ?_, ?_, ?_, ?_, ?_, ?_⟩
      · show c1.writeback = _; rw [hf]
      · show c1.data_memory = _; rw [hf]
      · show c1.code_memory = _; rw [hf]
      · show c1.btb = _; rw [hf]
      · show c1.decode = { s.decode with has_insn := c1.decode.has_insn }; rw [hf]
      · show c1.fetch = { s.fetch with has_insn := c1.fetch.has_insn }; rw [hf]
      · intro _ _
        refine ⟨?_, hrd⟩
        show c1.execute = { s.execute with
          result_buffer := c1.execute.result_buffer,
          memory_address := c1.execute.memory_address,
          rd := c1.execute.rd }
        rw [hf]
      · intro hfl
        have ht : takes_branch s = false := by
          simpa [flushes_decode, h2] using hfl
        obtain ⟨r1, r2, r3, r4⟩ := execute_switch_redirect s c1 hs ht
        refine ⟨?_, r1, ?_, r2⟩
        · show c1.decode = s.decode
          have : c1.decode = { s.decode with has_insn := c1.decode.has_insn } := by rw [hf]
          rw [this, r4]
        · show c1.fetch = s.fetch
          have : c1.fetch = { s.fetch with has_insn := c1.fetch.has_insn } := by rw [hf]
          rw [this, r3]
  · simp at h; subst h
    exact ⟨rfl, rfl, rfl, rfl, rfl, rfl, fun _ g => absurd g h2, fun _ => ⟨rfl, rfl, rfl, rfl⟩⟩
/-- Decode changes its own latch and the Execute latch only, and a valid,
non-stalled latch is handed on with at most new operand values. -/
theorem decode_form (s c : APEX_CPU) (h : APEX_decode s = some c) :
    c = { s with decode := c.decode, execute := c.execute } ∧
    (s.decode.stall = false → s.decode.has_insn = true →
      c.execute = { s.decode with
        rs1_value := c.execute.rs1_value, rs2_value := c.execute.rs2_value,
        rd_value := c.execute.rd_value }) := by
  unfold APEX_decode at h
  split_ifs at h with h1 h2
  · simp at h; subst h; exact ⟨rfl, fun g => by simp [h1] at g⟩
  · cases hs : decode_read s.regs (decode_forward s) with
    | none => simp [hs] at h
    | some d =>
      simp [hs] at h
      subst h
      refine ⟨rfl, fun _ _ => ?_⟩
      have hd := decode_read_form _ _ _ hs
      rw [decode_forward_form] at hd
      show d = { s.decode with
        rs1_value := d.rs1_value, rs2_value := d.rs2_value, rd_value := d.rd_value }
      rw [hd]
  · simp at h; subst h; exact ⟨rfl, fun _ g => absurd g h2⟩

/-- The body of Fetch changes the program counter, the refetch delay and the
Fetch and Decode latches only. -/
theorem fetch_body_form (s c : APEX_CPU) (h : APEX_fetch_body s = some c) :
    c = { s with pc := c.pc, fetch_from_next_cycle := c.fetch_from_next_cycle,
                 fetch := c.fetch, decode := c.decode } := by
  unfold APEX_fetch_body at h
  cases hp : fetch_predict s with
  | none => simp [hp] at h
  | some c1 =>
    simp [hp] at h
    have hf := fetch_predict_form s c1 hp
    unfold fetch_insn at h
    split_ifs at h
    · simp at h; subst h; rw [hf]
    · cases hr : readAt c1.code_memory (get_code_memory_index_from_pc c1.pc) with
      | none => simp [hr] at h
      | some ins =>
        simp [hr] at h
        subst h
        rw [hf]
    · simp at h; subst h; rw [hf]

/-- The hazard check changes the program counter, the refetch delay and the
Fetch and Decode latches only. -/
theorem detect_form (s c : APEX_CPU) (h : detect_data_hazards s = some c) :
    c = { s with pc := c.pc, fetch_from_next_cycle := c.fetch_from_next_cycle,
                 fetch := c.fetch, decode := c.decode } := by
  unfold detect_data_hazards at h
  split_ifs at h
  · simp at h; subst h; rfl
  · have r := fetch_body_form _ c h
    rw [r]
  · simp at h; subst h; rfl
  · simp at h; subst h; rfl

/-- Fetch changes the program counter, the refetch delay and the Fetch and
Decode latches only. -/
theorem fetch_form (s c : APEX_CPU) (h : APEX_fetch s = some c) :
    c = { s with pc := c.pc, fetch_from_next_cycle := c.fetch_from_next_cycle,
                 fetch := c.fetch, decode := c.decode } := by
  unfold APEX_fetch at h
  split_ifs at h
  · exact detect_form s c h
  · exact fetch_body_form s c h

/-- C21. One cycle of the driver that starts with no stall flag set (that of
Writeback plays no part) and in which no Halt retires advances the instruction
of each latch by one stage.
If the Memory latch was valid, the Writeback latch holds it afterwards, valid
and changed at most in the result buffer. If the Execute latch was valid, the
Memory latch holds it afterwards, valid and changed at most in the result
buffer, the memory address and (for `LOADP` only) `rd`. If the Decode latch
was valid and is not flushed by a taken branch or jump in Execute, the Execute
latch holds it afterwards, valid and changed at most in the operand values. -/
theorem C21_latches_advance_one_stage (s r : APEX_CPU)
    (hf : s.fetch.stall = false) (hd : s.decode.stall = false)
    (he : s.execute.stall = false) (hm : s.memory.stall = false)
    (h : APEX_cpu_cycle s = some (false, r)) :
    (s.memory.has_insn = true →
      r.writeback = { s.memory with result_buffer := r.writeback.result_buffer }) ∧
    (s.execute.has_insn = true →
      r.memory = { s.execute with
        result_buffer := r.memory.result_buffer,
        memory_address := r.memory.memory_address,
        rd := r.memory.rd } ∧
      (s.execute.opcode ≠ .LOADP → r.memory.rd = s.execute.rd)) ∧
    (s.decode.has_insn = true → flushes_decode s = false →
      r.execute = { s.decode with
        rs1_value := r.execute.rs1_value, rs2_value := r.execute.rs2_value,
        rd_value := r.execute.rd_value }) := by
  unfold APEX_cpu_cycle at h
  cases hwb : APEX_writeback s with
  | none => simp [hwb] at h
  | some v =>
    obtain ⟨b, w⟩ := v
    cases b with
    | true => simp [hwb] at h
    | false =>
      cases hs : APEX_stages w with
      | none => simp [hwb, hs] at h
      | some c5 =>
        simp [hwb, hs] at h
        subst h
        have fw := writeback_form s w false hwb
        unfold APEX_stages at hs
        simp only [Option.bind_eq_some] at hs
        obtain ⟨c4, ⟨c3, ⟨c2, ⟨c1, e1, e2⟩, e3⟩, e4⟩, e5⟩ := hs
        -- Memory
        have wm : w.memory = s.memory := by rw [fw]
        have we : w.execute = s.execute := by rw [fw]
        have wd : w.decode = s.decode := by rw [fw]
        have wf : w.fetch = s.fetch := by rw [fw]
        have wfl : flushes_decode w = flushes_decode s := by rw [fw]; rfl
        rw [wm, hm] at e1
        simp only [Bool.false_eq_true, if_false] at e1
        obtain ⟨f1, g1⟩ := memory_form w c1 e1
        have ce : c1.execute = s.execute := by rw [f1]; exact we
        have cd : c1.decode = s.decode := by rw [f1]; exact wd
        have cf : c1.fetch = s.fetch := by rw [f1]; exact wf
        have cfl : flushes_decode c1 = flushes_decode s := by rw [f1]; exact wfl
        -- Execute
        rw [ce, he] at e2
        simp only [Bool.false_eq_true, if_false] at e2
        obtain ⟨x1, -, -, -, x5, x6, x7, x8⟩ := execute_form c1 c2 e2
        have ds : c2.decode.stall = false := by rw [x5, cd]; exact hd
        have fs : c2.fetch.stall = false := by rw [x6, cf]; exact hf
        -- Decode
        rw [ds] at e3
        simp only [Bool.false_eq_true, if_false] at e3
        obtain ⟨y1, y2⟩ := decode_form c2 c3 e3
        have fs3 : c3.fetch.stall = false := by rw [y1]; exact fs
        -- Fetch and the closing hazard check
        rw [fs3] at e4
        simp only [Bool.false_eq_true, if_false] at e4
        have z1 := fetch_form c3 c4 e4
        have z2 := detect_form c4 c5 e5
        have kw : c5.writeback = c1.writeback := by rw [z2, z1, y1]; exact x1
        have km : c5.memory = c2.memory := by rw [z2, z1, y1]
        have ke : c5.execute = c3.execute := by rw [z2, z1]
        refine ⟨?_, ?_, ?_⟩
        · intro hv
          show c5.writeback = { s.memory with result_buffer := c5.writeback.result_buffer }
          rw [kw, ← wm]
          exact g1 (by rw [wm]; exact hm) (by rw [wm]; exact hv)
        · intro hv
          obtain ⟨a1, a2⟩ := x7 (by rw [ce]; exact he) (by rw [ce]; exact hv)
          rw [ce] at a1 a2
          refine ⟨?_, ?_⟩
          · show c5.memory = { s.execute with
              result_buffer := c5.memory.result_buffer,
              memory_address := c5.memory.memory_address,
              rd := c5.memory.rd }
            rw [km]
            exact a1
          · intro hop
            show c5.memory.rd = s.execute.rd
            rw [km, a2, if_neg hop]
        · intro hv hfl
          obtain ⟨b1, -, -, -⟩ := x8 (by rw [cfl]; exact hfl)
          show c5.execute = { s.decode with
            rs1_value := c5.execute.rs1_value, rs2_value := c5.execute.rs2_value,
            rd_value := c5.execute.rd_value }
          rw [ke, ← cd, ← b1]
          exact y2 ds (by rw [b1, cd]; exact hv)

/-- Witness for C21: the fourth cycle of `MOVC R1,#5; MOVC R2,#10; ADD R3,R1,R2;
HALT`, which starts with the instructions of addresses 4000, 4008 and 4012 in
the Memory, Execute and Decode latches. -/
theorem C21_latches_advance_one_stage_witness :
    APEX_cycles 3 (APEX_cpu_init (sampleParams .ADD) progAdd) = some advanceState ∧
    APEX_cpu_cycle advanceState = some (false, advanceNext) ∧
    (advanceState.memory.pc, advanceState.execute.pc, advanceState.decode.pc)
      = (4000, 4008, 4012) ∧
    advanceNext.writeback =
      { advanceState.memory with result_buffer := advanceNext.writeback.result_buffer } ∧
    advanceNext.memory =
      { advanceState.execute with
        result_buffer := advanceNext.memory.result_buffer,
        memory_address := advanceNext.memory.memory_address,
        rd := advanceNext.memory.rd } ∧
    advanceNext.memory.rd = advanceState.execute.rd ∧
    advanceNext.execute =
      { advanceState.decode with
        rs1_value := advanceNext.execute.rs1_value,
        rs2_value := advanceNext.execute.rs2_value,
        rd_value := advanceNext.execute.rd_value } :=
  have h := C21_latches_advance_one_stage advanceState advanceNext rfl rfl rfl rfl rfl
  ⟨rfl, rfl, rfl, h.1 rfl, (h.2.1 rfl).1, (h.2.1 rfl).2 (by decide), h.2.2 rfl rfl⟩
/-! ### A stall is never released -/

/-- A register-writing opcode in Execute never redirects the fetch. -/
theorem writer_not_taken (s : APEX_CPU)
    (h : is_write_to_reg_instruction s.execute.opcode = true) :
    takes_branch s = false := by
  unfold takes_branch
  cases hop : s.execute.opcode <;> simp_all [is_write_to_reg_instruction]

/-- While the invariant holds, nothing in a stalled state is flushed. -/
theorem StallInv_not_flushed (s : APEX_CPU) (hS : StallInv s)
    (hd : s.decode.stall = true) : flushes_decode s = false := by
  unfold flushes_decode
  by_cases hv : s.execute.has_insn = true
  · rw [writer_not_taken s (hS.writer hd hv)]
    simp
  · simp [hv]

theorem StallInv_writeback (s c : APEX_CPU) (b : Bool) (hS : StallInv s)
    (h : APEX_writeback s = some (b, c)) : StallInv c := by
  rw [writeback_form s c b h]
  obtain ⟨h1, h2, h3⟩ := hS
  exact ⟨h1, h2, h3⟩

theorem StallInv_memory (s c : APEX_CPU) (hS : StallInv s)
    (h : APEX_memory s = some c) : StallInv c := by
  rw [(memory_form s c h).1]
  obtain ⟨h1, h2, h3⟩ := hS
  exact ⟨h1, h2, h3⟩

/-- Execute, not stalled, leaves its latch invalid. -/
theorem execute_empties (s c : APEX_CPU) (hst : s.execute.stall = false)
    (h : APEX_execute s = some c) : c.execute.has_insn = false := by
  unfold APEX_execute at h
  rw [hst] at h
  simp only [Bool.false_eq_true, if_false] at h
  split_ifs at h with h2
  · cases hs : execute_switch s with
    | none => simp [hs] at h
    | some c1 => simp [hs] at h; subst h; rfl
  · simp at h; subst h; simpa using h2

theorem StallInv_execute (s c : APEX_CPU) (hS : StallInv s)
    (hst : s.execute.stall = false) (h : APEX_execute s = some c) : StallInv c := by
  obtain ⟨-, -, -, -, x5, x6, -, x8⟩ := execute_form s c h
  have he := execute_empties s c hst h
  have ds : c.decode.stall = s.decode.stall := by rw [x5]
  have fs : c.fetch.stall = s.fetch.stall := by rw [x6]
  refine ⟨by rw [ds, fs]; exact hS.same, ?_, ?_⟩
  · intro hd
    rw [ds] at hd
    rw [(x8 (StallInv_not_flushed s hS hd)).1]
    exact hS.held hd
  · intro _ hv
    rw [he] at hv
    exact absurd hv (by decide)

theorem StallInv_decode (s c : APEX_CPU) (hS : StallInv s)
    (h : APEX_decode s = some c) : StallInv c := by
  unfold APEX_decode at h
  split_ifs at h with h1 h2
  · simp at h; subst h; exact hS
  · cases hs : decode_read s.regs (decode_forward s) with
    | none => simp [hs] at h
    | some d =>
      simp [hs] at h
      subst h
      have hd := decode_read_form _ _ _ hs
      rw [decode_forward_form] at hd
      have e : d.stall = false := by rw [hd]; simpa using h1
      have f : s.fetch.stall = false := by rw [hS.same]; simpa using h1
      refine ⟨?_, ?_, ?_⟩
      · show s.fetch.stall = d.stall
        rw [e, f]
      · intro g
        have g2 : d.stall = true := g
        rw [e] at g2
        exact absurd g2 (by decide)
      · intro g
        have g2 : d.stall = true := g
        rw [e] at g2
        exact absurd g2 (by decide)
  · simp at h; subst h; exact hS

/-- The read of Fetch, not stalled, leaves both stall flags clear. -/
theorem StallInv_fetch_insn (s c : APEX_CPU) (hS : StallInv s)
    (hst : s.fetch.stall = false) (h : fetch_insn s = some c) : StallInv c := by
  have hds : s.decode.stall = false := by rw [← hS.same]; exact hst
  unfold fetch_insn at h
  split_ifs at h
  · simp at h; subst h
    obtain ⟨h1, h2, h3⟩ := hS
    exact ⟨h1, h2, h3⟩
  · cases hr : readAt s.code_memory (get_code_memory_index_from_pc s.pc) with
    | none => simp [hr] at h
    | some ins =>
      simp [hr] at h
      subst h
      refine ⟨?_, ?_, ?_⟩
      · show (if ins.opcode = .HALT then _ else _ : CPU_Stage).stall
          = (if ins.opcode = .NOP then _ else _ : CPU_Stage).stall
        split_ifs <;> rfl
      · intro g
        have g2 : (if ins.opcode = .NOP then _ else _ : CPU_Stage).stall = true := g
        split_ifs at g2 <;> simp [hst] at g2
      · intro g
        have g2 : (if ins.opcode = .NOP then _ else _ : CPU_Stage).stall = true := g
        split_ifs at g2 <;> simp [hst] at g2
  · simp at h; subst h; exact hS

theorem StallInv_fetch_body (s c : APEX_CPU) (hS : StallInv s)
    (hst : s.fetch.stall = false) (h : APEX_fetch_body s = some c) : StallInv c := by
  unfold APEX_fetch_body at h
  cases hp : fetch_predict s with
  | none => simp [hp] at h
  | some c1 =>
    simp [hp] at h
    have hf := fetch_predict_form s c1 hp
    apply StallInv_fetch_insn c1 c _ _ h
    · rw [hf]
      obtain ⟨h1, h2, h3⟩ := hS
      exact ⟨h1, h2, h3⟩
    · rw [hf]; exact hst

theorem StallInv_detect (s c : APEX_CPU) (hS : StallInv s)
    (h : detect_data_hazards s = some c) : StallInv c := by
  unfold detect_data_hazards at h
  split_ifs at h with h1 h2 h3
  · simp at h; subst h
    simp only [Bool.and_eq_true] at h1
    refine ⟨rfl, fun _ => h1.2, fun _ _ => ?_⟩
    show is_write_to_reg_instruction s.execute.opcode = true
    rcases h2 with e | e | e | e | e | e | e | e | e <;> rw [e] <;> rfl
  · have r := StallInv_fetch_body _ c
      ⟨rfl, fun g => absurd g (by simp), fun g => absurd g (by simp)⟩ rfl h
    exact r
  · simp at h; subst h
    exact ⟨rfl, fun g => absurd g (by simp), fun g => absurd g (by simp)⟩
  · simp at h; subst h; exact hS

theorem StallInv_fetch (s c : APEX_CPU) (hS : StallInv s)
    (h : APEX_fetch s = some c) : StallInv c := by
  unfold APEX_fetch at h
  split_ifs at h with h1
  · exact StallInv_detect s c hS h
  · exact StallInv_fetch_body s c hS (by simpa using h1) h

theorem StallInv_stages (s c : APEX_CPU) (hI : HaltOrder s) (hS : StallInv s)
    (h : APEX_stages s = some c) : StallInv c := by
  unfold APEX_stages at h
  simp only [Option.bind_eq_some] at h
  obtain ⟨c4, ⟨c3, ⟨c2, ⟨c1, e1, e2⟩, e3⟩, e4⟩, e5⟩ := h
  have i1 : HaltOrder c1 ∧ StallInv c1 := by
    split_ifs at e1
    · exact ⟨HaltOrder_detect s c1 hI e1, StallInv_detect s c1 hS e1⟩
    · exact ⟨HaltOrder_memory s c1 hI e1, StallInv_memory s c1 hS e1⟩
  have i2 : StallInv c2 := by
    split_ifs at e2
    · exact StallInv_detect c1 c2 i1.2 e2
    · exact StallInv_execute c1 c2 i1.2 i1.1.execute_stall e2
  have i3 : StallInv c3 := by
    split_ifs at e3
    · exact StallInv_detect c2 c3 i2 e3
    · exact StallInv_decode c2 c3 i2 e3
  have i4 : StallInv c4 := by
    split_ifs at e4
    · exact StallInv_detect c3 c4 i3 e4
    · exact StallInv_fetch c3 c4 i3 e4
  exact StallInv_detect c4 c i4 e5

theorem StallInv_cycle (s c : APEX_CPU) (b : Bool) (hI : HaltOrder s) (hS : StallInv s)
    (h : APEX_cpu_cycle s = some (b, c)) : StallInv c := by
  unfold APEX_cpu_cycle at h
  cases hw : APEX_writeback s with
  | none => simp [hw] at h
  | some v =>
    obtain ⟨b1, c1⟩ := v
    have i1 := HaltOrder_writeback s c1 b1 hI hw
    have j1 := StallInv_writeback s c1 b1 hS hw
    cases b1 with
    | true =>
      simp [hw] at h
      rw [← h.2]
      exact j1
    | false =>
      cases hs : APEX_stages c1 with
      | none => simp [hw, hs] at h
      | some c2 =>
        simp [hw, hs] at h
        have j2 := StallInv_stages c1 c2 i1 j1 hs
        rw [← h.2]
        obtain ⟨h1, h2, h3⟩ := j2
        exact ⟨h1, h2, h3⟩

theorem StallInv_init (p : APEX_Params) (code : List APEX_Instruction) :
    StallInv (APEX_cpu_init p code) := by
  constructor <;> simp [APEX_cpu_init]

theorem StallInv_cycles (n : Nat) :
    ∀ (s c : APEX_CPU), HaltOrder s → StallInv s → APEX_cycles n s = some c →
      StallInv c := by
  induction n with
  | zero => intro s c _ hS h; simp [APEX_cycles] at h; subst h; exact hS
  | succ k ih =>
    intro s c hI hS h
    simp only [APEX_cycles] at h
    cases hc : APEX_cpu_cycle s with
    | none => simp [hc] at h
    | some v =>
      obtain ⟨b, c1⟩ := v
      cases b with
      | true => simp [hc] at h
      | false =>
        simp [hc] at h
        exact ih c1 c (HaltOrder_cycle s c1 false hI hc) (StallInv_cycle s c1 false hI hS hc) h
/-- Writeback signals Halt only for a valid `HALT` in its latch. -/
theorem writeback_halt (s c : APEX_CPU) (h : APEX_writeback s = some (true, c)) :
    s.writeback.has_insn = true ∧ s.writeback.opcode = .HALT := by
  unfold APEX_writeback at h
  split_ifs at h with h1 h2
  · simp at h
  · cases hs : writeback_switch s with
    | none => simp [hs] at h
    | some c1 =>
      simp [hs] at h
      have hf := writeback_switch_form s c1 hs
      refine ⟨h2, ?_⟩
      have := h.1
      rw [hf] at this
      exact this
  · simp at h

/-- With an invalid Execute latch the hazard check changes nothing. -/
theorem detect_idle (s : APEX_CPU) (h : s.execute.has_insn = false) :
    detect_data_hazards s = some s := by
  simp [detect_data_hazards, h]

/-- A cycle that starts with Decode stalled retires no Halt, keeps the Fetch
and Decode latches as they are and leaves the Execute latch invalid. -/
theorem stalled_cycle (s r : APEX_CPU) (b : Bool) (hI : HaltOrder s) (hS : StallInv s)
    (hd : s.decode.stall = true) (h : APEX_cpu_cycle s = some (b, r)) :
    b = false ∧ r.decode = s.decode ∧ r.fetch = s.fetch ∧
      r.execute.has_insn = false := by
  unfold APEX_cpu_cycle at h
  cases hwb : APEX_writeback s with
  | none => simp [hwb] at h
  | some v =>
    obtain ⟨b1, w⟩ := v
    cases b1 with
    | true =>
      obtain ⟨g1, g2⟩ := writeback_halt s w hwb
      have := (hI.in_writeback g1 g2).2.1
      rw [hS.held hd] at this
      exact absurd this (by decide)
    | false =>
      cases hs : APEX_stages w with
      | none => simp [hwb, hs] at h
      | some c5 =>
        simp [hwb, hs] at h
        obtain ⟨hb, hr⟩ := h
        subst hr
        have fw := writeback_form s w false hwb
        have iw := HaltOrder_writeback s w false hI hwb
        have jw := StallInv_writeback s w false hS hwb
        unfold APEX_stages at hs
        simp only [Option.bind_eq_some] at hs
        obtain ⟨c4, ⟨c3, ⟨c2, ⟨c1, e1, e2⟩, e3⟩, e4⟩, e5⟩ := hs
        have wd : w.decode = s.decode := by rw [fw]
        have wf : w.fetch = s.fetch := by rw [fw]
        rw [iw.memory_stall] at e1
        simp only [Bool.false_eq_true, if_false] at e1
        obtain ⟨f1, -⟩ := memory_form w c1 e1
        have i1 := HaltOrder_memory w c1 iw e1
        have j1 := StallInv_memory w c1 jw e1
        have cd : c1.decode = s.decode := by rw [f1]; exact wd
        have cf : c1.fetch = s.fetch := by rw [f1]; exact wf
        rw [i1.execute_stall] at e2
        simp only [Bool.false_eq_true, if_false] at e2
        obtain ⟨-, -, -, -, -, -, -, x8⟩ := execute_form c1 c2 e2
        have he := execute_empties c1 c2 i1.execute_stall e2
        obtain ⟨b1, -, b3, -⟩ := x8 (StallInv_not_flushed c1 j1 (by rw [cd]; exact hd))
        have ds : c2.decode.stall = true := by rw [b1, cd]; exact hd
        rw [ds] at e3
        simp only [if_true] at e3
        rw [detect_idle c2 he] at e3
        simp at e3
        subst e3
        have fs : c2.fetch.stall = true := by rw [b3, cf, hS.same]; exact hd
        rw [fs] at e4
        simp only [if_true] at e4
        rw [detect_idle c2 he] at e4
        simp at e4
        subst e4
        rw [detect_idle c2 he] at e5
        simp at e5
        subst e5
        exact ⟨hb, by show c2.decode = _; rw [b1, cd],
          by show c2.fetch = _; rw [b3, cf], he⟩

/-- From a stalled state on: however many cycles are run, each is a full
cycle without a Halt, and the Fetch and Decode latches stay as they are. -/
theorem stalled_cycles (m : Nat) :
    ∀ (s r : APEX_CPU), HaltOrder s → StallInv s → s.decode.stall = true →
      APEX_cycles m s = some r →
      HaltOrder r ∧ StallInv r ∧ r.decode = s.decode ∧ r.fetch = s.fetch ∧
        (0 < m → r.execute.has_insn = false) := by
  induction m with
  | zero =>
    intro s r hI hS _ h
    simp [APEX_cycles] at h
    subst h
    exact ⟨hI, hS, rfl, rfl, fun g => absurd g (by decide)⟩
  | succ k ih =>
    intro s r hI hS hd h
    simp only [APEX_cycles] at h
    cases hc : APEX_cpu_cycle s with
    | none => simp [hc] at h
    | some v =>
      obtain ⟨b, c1⟩ := v
      cases b with
      | true => simp [hc] at h
      | false =>
        simp [hc] at h
        obtain ⟨-, a2, a3, a4⟩ := stalled_cycle s c1 false hI hS hd hc
        obtain ⟨q1, q2, q3, q4, q5⟩ := ih c1 r (HaltOrder_cycle s c1 false hI hc)
          (StallInv_cycle s c1 false hI hS hc) (by rw [a2]; exact hd) h
        refine ⟨q1, q2, by rw [q3, a2], by rw [q4, a3], fun _ => ?_⟩
        rcases Nat.eq_zero_or_pos k with hk | hk
        · subst hk
          simp [APEX_cycles] at h
          subst h
          exact a4
        · exact q5 hk

/-- From a stalled state the run returns no result, whatever the fuel. -/
theorem stalled_run (fuel : Nat) :
    ∀ (s : APEX_CPU), HaltOrder s → StallInv s → s.decode.stall = true →
      APEX_cpu_run fuel s = none := by
  induction fuel with
  | zero => intro s _ _ _; rfl
  | succ k ih =>
    intro s hI hS hd
    simp only [APEX_cpu_run]
    cases hc : APEX_cpu_cycle s with
    | none => rfl
    | some v =>
      obtain ⟨b, c1⟩ := v
      obtain ⟨a1, a2, -, -⟩ := stalled_cycle s c1 b hI hS hd hc
      subst a1
      exact ih c1 (HaltOrder_cycle s c1 false hI hc) (StallInv_cycle s c1 false hI hS hc)
        (by rw [a2]; exact hd)

/-- C22. A stall, once asserted, is never released. Let `s` be a state reached
from the initial state of any program by full cycles in which `Fetch.stall`
and `Decode.stall` are 1. Then the Decode latch of `s` is valid, and after
every number `m` of further cycles both flags are still 1, the Decode latch
still holds the same instruction, the Execute latch is invalid (for `m > 0`),
so the held instruction never reaches Execute, and the next cycle does not
signal Halt; the run from `s` returns no result, whatever the fuel. -/
theorem C22_stall_never_released (p : APEX_Params) (code : List APEX_Instruction)
    (n : Nat) (s : APEX_CPU)
    (hreach : APEX_cycles n (APEX_cpu_init p code) = some s)
    (hf : s.fetch.stall = true) (hd : s.decode.stall = true) :
    s.decode.has_insn = true ∧
    (∀ m r, APEX_cycles m s = some r →
      r.fetch.stall = true ∧ r.decode.stall = true ∧ r.decode = s.decode ∧
      (0 < m → r.execute.has_insn = false) ∧
      ∀ b c, APEX_cpu_cycle r = some (b, c) → b = false) ∧
    ∀ fuel, APEX_cpu_run fuel s = none := by
  have hI : HaltOrder s := HaltOrder_cycles n _ s (HaltOrder_init p code) hreach
  have hS : StallInv s :=
    StallInv_cycles n _ s (HaltOrder_init p code) (StallInv_init p code) hreach
  refine ⟨hS.held hd, ?_, fun fuel => stalled_run fuel s hI hS hd⟩
  intro m r hr
  obtain ⟨q1, q2, q3, q4, q5⟩ := stalled_cycles m s r hI hS hd hr
  refine ⟨by rw [q4]; exact hf, by rw [q3]; exact hd, q3, q5, ?_⟩
  intro b c hc
  exact (stalled_cycle r c b q1 q2 (by rw [q3]; exact hd) hc).1

/-- Witness for C22: `MOVC R1,#5; ADD R2,R1,R0; HALT` after two cycles, when the
stall has just been asserted with `MOVC` still in Execute; three cycles later
the `ADD` of address 4004 is still in Decode. -/
theorem C22_stall_never_released_witness :
    APEX_cycles 2 (APEX_cpu_init (sampleParams .ADD) progHazard) = some stallStart ∧
    (stallStart.fetch.stall, stallStart.decode.stall, stallStart.decode.has_insn,
      stallStart.decode.pc, stallStart.execute.has_insn) = (true, true, true, 4004, true) ∧
    APEX_cycles 3 stallStart = some (hazardStuck 5) ∧
    ((hazardStuck 5).fetch.stall = true ∧ (hazardStuck 5).decode.stall = true ∧
      (hazardStuck 5).decode = stallStart.decode ∧
      (0 < 3 → (hazardStuck 5).execute.has_insn = false) ∧
      ∀ b c, APEX_cpu_cycle (hazardStuck 5) = some (b, c) → b = false) ∧
    APEX_cpu_run 100 stallStart = none :=
  have h := C22_stall_never_released (sampleParams .ADD) progHazard 2 stallStart
    rfl rfl rfl
  ⟨rfl, rfl, rfl, h.2.1 3 (hazardStuck 5) rfl, h.2.2 100⟩
/-- C23 (code defect). In the second cycle of `MOVC R1,#5; MOVC R2,#10;
ADD R3,R1,R2; HALT` the closing hazard check is called on `noHazardState`
(Execute holds `MOVC R1,#5`, Decode holds `MOVC R2,#10`, no hazard), and there
`detect_data_hazards` changes more than the stall flags: the program counter
moves from 4008 to 4012 and the Decode latch, which held the instruction of
address 4004, holds the `ADD` of address 4008 afterwards. The no-hazard branch
calls `APEX_fetch`. -/
theorem C23_detect_fetches_again :
    (APEX_cycles 1 (APEX_cpu_init (sampleParams .ADD) progAdd)).bind
        (APEX_calls [.writeback, .memory, .execute, .decode, .fetch])
      = some noHazardState ∧
    (noHazardState.pc, noHazardState.decode.pc, noHazardState.decode.opcode,
      noHazardState.decode.has_insn, noHazardState.fetch.pc)
      = (4008, 4004, Opcode.MOVC, true, 4004) ∧
    (detect_data_hazards noHazardState).map
        (fun c => (c.pc, c.decode.pc, c.decode.opcode, c.decode.has_insn, c.fetch.pc))
      = some (4012, 4008, Opcode.ADD, true, 4008) := by
  refine ⟨rfl, by decide, by decide⟩

/-- C24 (code defect). The register-writing list of the hazard and forwarding
logic misses three opcodes that Writeback writes. On a Writeback latch with
`rd = 1` and result buffer 5 over a zero register file, Writeback sets
`registers[1]` to 5 exactly for the nine opcodes for which
`is_write_to_reg_instruction` returns 1 and for `LOAD`, `LOADP` and `JALR`,
and for these three the function returns 0. -/
theorem C24_hazard_list_misses_loads :
    (∀ op : Opcode,
      (APEX_writeback (writebackState op 1 5)).map (fun r => readAt r.2.regs 1)
          = some (some 5) ↔
        (is_write_to_reg_instruction op = true ∨ op = .LOAD ∨ op = .LOADP ∨ op = .JALR)) ∧
    is_write_to_reg_instruction .LOAD = false ∧
    is_write_to_reg_instruction .LOADP = false ∧
    is_write_to_reg_instruction .JALR = false := by
  refine ⟨fun op => ?_, rfl, rfl, rfl⟩
  cases op <;> decide

/-- C25 (code defect). Execute on a valid, non-stalled latch hands the address,
opcode, `rs1`, `rs2` and immediate of the instruction on to Memory unchanged,
and `rd` as well for every opcode but `LOADP`: the LOADP case assigns
`rd_value + 4` to the field `rd` of the latch, so for `LOADP` the register
index later used by Writeback is not the instruction's own `rd`. -/
theorem C25_loadp_rewrites_rd (s c : APEX_CPU)
    (hst : s.execute.stall = false) (hv : s.execute.has_insn = true)
    (h : APEX_execute s = some c) :
    c.memory.pc = s.execute.pc ∧ c.memory.opcode = s.execute.opcode ∧
    c.memory.rs1 = s.execute.rs1 ∧ c.memory.rs2 = s.execute.rs2 ∧
    c.memory.imm = s.execute.imm ∧
    c.memory.rd =
      (if s.execute.opcode = .LOADP then wrap32 (s.execute.rd_value + 4)
       else s.execute.rd) := by
  obtain ⟨-, -, -, -, -, -, x7, -⟩ := execute_form s c h
  obtain ⟨a1, a2⟩ := x7 hst hv
  exact ⟨by rw [a1], by rw [a1], by rw [a1], by rw [a1], by rw [a1], a2⟩

/-- Witness for C25, the failing input: a `LOADP` with `rd = 0` and
`rd_value = 0` reaches Memory with `rd = 4`. -/
theorem C25_loadp_rewrites_rd_witness :
    insn_fields (executeState .LOADP 0 0 0).execute = (4000, Opcode.LOADP, 0, 1, 2, 0) ∧
    ∃ c, APEX_execute (executeState .LOADP 0 0 0) = some c ∧
      insn_fields c.memory = (4000, Opcode.LOADP, 4, 1, 2, 0) := by
  refine ⟨rfl, _, rfl, ?_⟩
  obtain ⟨h1, h2, h3, h4, h5, h6⟩ :=
    C25_loadp_rewrites_rd (executeState .LOADP 0 0 0) _ rfl rfl rfl
  unfold insn_fields
  rw [h1, h2, h3, h4, h5, h6]
  rfl

/-- C26 (code defect). Execute on a valid, non-stalled `MUL` latch puts the
difference `rs1_value - rs2_value` into the result buffer, for all operand
values; for the operands 2 and 3 the result buffer is -1 while the product
is 6. -/
theorem C26_mul_subtracts :
    (∀ a b : Int, (APEX_execute (executeState .MUL a b 0)).map
        (fun c => c.memory.result_buffer) = some (wrap32 (a - b))) ∧
    (APEX_execute (executeState .MUL 2 3 0)).map (fun c => c.memory.result_buffer)
      = some (-1) ∧
    wrap32 (2 * 3) = 6 := by
  refine ⟨fun a b => rfl, by decide, by decide⟩

/-! ### Programs without branches: Fetch stays inside code memory -/

/-- The index of the instruction at address `4000 + 4 * j`. -/
theorem code_index (j : Nat) (hj : j ≤ 500000000) :
    get_code_memory_index_from_pc (4000 + 4 * (j : Int)) = (j : Int) := by
  unfold get_code_memory_index_from_pc
  have e : (4000 + 4 * (j : Int) - 4000) = 4 * (j : Int) := by ring
  rw [e, wrap32_of_range _ (by omega) (by omega),
    Int.mul_tdiv_cancel_left _ (by decide : (4 : Int) ≠ 0)]

/-- With the BTB empty the consultation of Fetch changes nothing. -/
theorem fetch_predict_idle (n : Nat) (s : APEX_CPU) (hb : s.btb = initialize_BTB n)
    (hp : s.fetch.pc ≠ -1) : fetch_predict s = some s := by
  unfold fetch_predict
  simp only [hb, find_in_BTB_initialize n _ hp]
  simp

/-- A state that differs from one with the invariant in nothing the invariant
looks at, apart from latches that satisfy it, has the invariant. -/
theorem FetchInv_frame (p : APEX_Params) (code : List APEX_Instruction) (s c : APEX_CPU)
    (hI : FetchInv p code s) (h1 : c.code_memory = s.code_memory) (h2 : c.btb = s.btb)
    (h3 : c.fetch = { s.fetch with stall := c.fetch.stall })
    (h5 : c.pc = s.pc)
    (hd : c.decode.has_insn = true → is_branch_or_jump c.decode.opcode = false)
    (he : c.execute.has_insn = true → is_branch_or_jump c.execute.opcode = false) :
    FetchInv p code c := by
  obtain ⟨a1, a2, a3, a4, a5, -, -⟩ := hI
  have e1 : c.fetch.pc = s.fetch.pc := by rw [h3]
  have e2 : c.fetch.has_insn = s.fetch.has_insn := by rw [h3]
  have e3 : c.fetch.opcode = s.fetch.opcode := by rw [h3]
  refine ⟨by rw [h1]; exact a1, by rw [h2]; exact a2, by rw [e1]; exact a3,
    by rw [e1, e2, e3]; exact a4, ?_, hd, he⟩
  rw [e2, h5]
  exact a5

theorem FetchInv_writeback (p : APEX_Params) (code : List APEX_Instruction)
    (s c : APEX_CPU) (b : Bool) (hI : FetchInv p code s)
    (h : APEX_writeback s = some (b, c)) : FetchInv p code c := by
  have f := writeback_form s c b h
  apply FetchInv_frame p code s c hI
  all_goals first
    | (rw [f]; done)
    | (rw [f]; first | exact hI.decode_ok | exact hI.execute_ok)

theorem FetchInv_memory (p : APEX_Params) (code : List APEX_Instruction)
    (s c : APEX_CPU) (hI : FetchInv p code s)
    (h : APEX_memory s = some c) : FetchInv p code c := by
  have f := (memory_form s c h).1
  apply FetchInv_frame p code s c hI
  all_goals first
    | (rw [f]; done)
    | (rw [f]; first | exact hI.decode_ok | exact hI.execute_ok)

/-- An opcode that is no branch and no jump never redirects the fetch. -/
theorem straight_not_taken (s : APEX_CPU)
    (h : is_branch_or_jump s.execute.opcode = false) : takes_branch s = false := by
  unfold takes_branch
  cases hop : s.execute.opcode <;> simp_all [is_branch_or_jump]

/-- Execute keeps the opcode of its latch, or leaves the latch invalid. -/
theorem execute_latch (s c : APEX_CPU) (h : APEX_execute s = some c) :
    c.execute = s.execute ∨ c.execute.has_insn = false := by
  unfold APEX_execute at h
  split_ifs at h
  · simp at h; subst h; exact Or.inl rfl
  · cases hs : execute_switch s with
    | none => simp [hs] at h
    | some c1 => simp [hs] at h; subst h; exact Or.inr rfl
  · simp at h; subst h; exact Or.inl rfl

theorem FetchInv_execute (p : APEX_Params) (code : List APEX_Instruction)
    (s c : APEX_CPU) (hI : FetchInv p code s)
    (h : APEX_execute s = some c) : FetchInv p code c := by
  obtain ⟨-, -, x3, x4, -, -, -, x8⟩ := execute_form s c h
  have hfl : flushes_decode s = false := by
    unfold flushes_decode
    by_cases hv : s.execute.has_insn = true
    · rw [straight_not_taken s (hI.execute_ok hv)]; simp
    · simp [hv]
  obtain ⟨b1, b2, b3, -⟩ := x8 hfl
  apply FetchInv_frame p code s c hI x3 x4 (by rw [b3]) b2
  · rw [b1]; exact hI.decode_ok
  · rcases execute_latch s c h with e | e
    · rw [e]; exact hI.execute_ok
    · intro g; rw [e] at g; exact absurd g (by decide)

/-- Decode leaves both latches alone, or leaves its latch invalid and hands
the opcode on. -/
theorem decode_latches (s c : APEX_CPU) (h : APEX_decode s = some c) :
    (c.decode = s.decode ∧ c.execute = s.execute) ∨
    (c.decode.has_insn = false ∧ c.execute.opcode = s.decode.opcode ∧
      s.decode.has_insn = true) := by
  unfold APEX_decode at h
  split_ifs at h with h1 h2
  · simp at h; subst h; exact Or.inl ⟨rfl, rfl⟩
  · cases hs : decode_read s.regs (decode_forward s) with
    | none => simp [hs] at h
    | some d =>
      simp [hs] at h
      subst h
      have hd := decode_read_form _ _ _ hs
      rw [decode_forward_form] at hd
      refine Or.inr ⟨rfl, ?_, h2⟩
      show d.opcode = s.decode.opcode
      rw [hd]
  · simp at h; subst h; exact Or.inl ⟨rfl, rfl⟩

theorem FetchInv_decode (p : APEX_Params) (code : List APEX_Instruction)
    (s c : APEX_CPU) (hI : FetchInv p code s)
    (h : APEX_decode s = some c) : FetchInv p code c := by
  have f := (decode_form s c h).1
  apply FetchInv_frame p code s c hI (by rw [f]) (by rw [f]) (by rw [f]) (by rw [f])
  · rcases decode_latches s c h with ⟨e, -⟩ | ⟨e, -, -⟩
    · rw [e]; exact hI.decode_ok
    · intro g; rw [e] at g; exact absurd g (by decide)
  · rcases decode_latches s c h with ⟨-, e⟩ | ⟨-, e, v⟩
    · rw [e]; exact hI.execute_ok
    · intro _; rw [e]; exact hI.decode_ok v

/-- While Fetch is enabled the program counter points inside the program. -/
theorem FetchInv_index (p : APEX_Params) (code : List APEX_Instruction) (s : APEX_CPU)
    (hlast : ∃ h, code.getLast? = some h ∧ h.opcode = .HALT)
    (hlen : code.length ≤ 500000000)
    (hI : FetchInv p code s) (hv : s.fetch.has_insn = true) :
    ∃ j : Nat, j < code.length ∧ s.pc = 4000 + 4 * (j : Int) ∧
      get_code_memory_index_from_pc s.pc = (j : Int) ∧
      (∀ i x, i < j → code.get? i = some x → x.opcode ≠ .HALT) := by
  obtain ⟨j, j1, j2, j3⟩ := hI.pc_at
  obtain ⟨h, g1, g2⟩ := hlast
  refine ⟨j, ?_, j2, by rw [j2]; exact code_index j (by omega), j3 hv⟩
  rcases Nat.lt_or_ge j code.length with q | q
  · exact q
  · exfalso
    have hj : j = code.length := by omega
    rw [List.getLast?_eq_getElem?] at g1
    have hpos : 0 < code.length := by
      rcases Nat.eq_zero_or_pos code.length with z | z
      · rw [List.length_eq_zero] at z
        rw [z] at g1
        simp at g1
      · exact z
    exact j3 hv (code.length - 1) h (by omega) (by rw [List.get?_eq_getElem?]; exact g1) g2

theorem FetchInv_fetch_body (p : APEX_Params) (code : List APEX_Instruction)
    (s c : APEX_CPU)
    (hnj : ∀ i ∈ code, is_branch_or_jump i.opcode = false)
    (hlast : ∃ h, code.getLast? = some h ∧ h.opcode = .HALT)
    (hlen : code.length ≤ 500000000)
    (hI : FetchInv p code s)
    (h : APEX_fetch_body s = some c) : FetchInv p code c := by
  unfold APEX_fetch_body at h
  rw [fetch_predict_idle _ s hI.btb_eq hI.fetch_pc] at h
  simp only [Option.some_bind] at h
  unfold fetch_insn at h
  by_cases hv : s.fetch.has_insn = true
  · by_cases hn : s.fetch_from_next_cycle = true
    · simp [hv, hn] at h
      subst h
      exact FetchInv_frame p code s _ hI rfl rfl rfl rfl hI.decode_ok hI.execute_ok
    · obtain ⟨j, j1, j2, j3, j4⟩ := FetchInv_index p code s hlast hlen hI hv
      have hr : readAt s.code_memory (get_code_memory_index_from_pc s.pc) = code.get? j := by
        rw [j3, hI.code_eq]
        unfold readAt
        simp
      have hj : j < code.length := j1
      obtain ⟨ins, hins⟩ : ∃ ins, code.get? j = some ins :=
        ⟨code.get ⟨j, hj⟩, List.get?_eq_get hj⟩
      rw [hins] at hr
      simp [hv, hn, hr] at h
      subst h
      have hmem : ins ∈ code := List.get?_mem hins
      have hpc : wrap32 (s.pc + 4) = 4000 + 4 * ((j + 1 : Nat) : Int) := by
        rw [j2, wrap32_of_range _ (by omega) (by omega)]
        push_cast
        ring
      obtain ⟨a1, a2, a3, -, -, -, a6⟩ := hI
      refine ⟨a1, a2, ?_, ?_, ⟨j + 1, by omega, hpc, ?_⟩, ?_, a6⟩
      · show (if ins.opcode = .HALT then _ else _ : CPU_Stage).pc ≠ -1
        split_ifs <;> simp <;> omega
      · intro g
        have g2 : (if ins.opcode = .HALT then _ else _ : CPU_Stage).has_insn = true := g
        right
        show (if ins.opcode = .HALT then _ else _ : CPU_Stage).opcode ≠ .HALT
        split_ifs with hh
        · rw [if_pos hh] at g2
          simp at g2
        · exact hh
      · intro g i x hi hx
        have g2 : (if ins.opcode = .HALT then _ else _ : CPU_Stage).has_insn = true := g
        rcases Nat.lt_or_ge i j with q | q
        · exact j4 i x q hx
        · have : i = j := by omega
          subst this
          rw [hins] at hx
          cases hx
          intro hh
          rw [if_pos hh] at g2
          simp at g2
      · intro _
        show is_branch_or_jump (if ins.opcode = .NOP then _ else _ : CPU_Stage).opcode = false
        split_ifs <;> exact hnj ins hmem
  · simp [hv] at h
    subst h
    exact hI

/-- Setting both stall flags keeps the invariant. -/
theorem FetchInv_set_stall (p : APEX_Params) (code : List APEX_Instruction)
    (s : APEX_CPU) (b : Bool) (hI : FetchInv p code s) :
    FetchInv p code { s with
      decode := { s.decode with stall := b }
      fetch := { s.fetch with stall := b } } :=
  FetchInv_frame p code s _ hI rfl rfl rfl rfl hI.decode_ok hI.execute_ok

theorem FetchInv_detect (p : APEX_Params) (code : List APEX_Instruction)
    (s c : APEX_CPU)
    (hnj : ∀ i ∈ code, is_branch_or_jump i.opcode = false)
    (hlast : ∃ h, code.getLast? = some h ∧ h.opcode = .HALT)
    (hlen : code.length ≤ 500000000)
    (hI : FetchInv p code s)
    (h : detect_data_hazards s = some c) : FetchInv p code c := by
  unfold detect_data_hazards at h
  split_ifs at h
  · simp at h; subst h; exact FetchInv_set_stall p code s true hI
  · have r := FetchInv_fetch_body p code _ c hnj hlast hlen
      (FetchInv_set_stall p code s false hI) h
    exact r
  · simp at h; subst h; exact FetchInv_set_stall p code s false hI
  · simp at h; subst h; exact hI

theorem FetchInv_fetch (p : APEX_Params) (code : List APEX_Instruction)
    (s c : APEX_CPU)
    (hnj : ∀ i ∈ code, is_branch_or_jump i.opcode = false)
    (hlast : ∃ h, code.getLast? = some h ∧ h.opcode = .HALT)
    (hlen : code.length ≤ 500000000)
    (hI : FetchInv p code s)
    (h : APEX_fetch s = some c) : FetchInv p code c := by
  unfold APEX_fetch at h
  split_ifs at h
  · exact FetchInv_detect p code s c hnj hlast hlen hI h
  · exact FetchInv_fetch_body p code s c hnj hlast hlen hI h

theorem FetchInv_call (p : APEX_Params) (code : List APEX_Instruction)
    (s c : APEX_CPU) (x : Stage_call)
    (hnj : ∀ i ∈ code, is_branch_or_jump i.opcode = false)
    (hlast : ∃ h, code.getLast? = some h ∧ h.opcode = .HALT)
    (hlen : code.length ≤ 500000000)
    (hI : FetchInv p code s)
    (h : APEX_call x s = some c) : FetchInv p code c := by
  cases x with
  | writeback =>
    simp only [APEX_call, Option.map_eq_some'] at h
    obtain ⟨⟨b, c1⟩, h1, h2⟩ := h
    simp at h2
    subst h2
    exact FetchInv_writeback p code s c1 b hI h1
  | memory => exact FetchInv_memory p code s c hI h
  | execute => exact FetchInv_execute p code s c hI h
  | decode => exact FetchInv_decode p code s c hI h
  | fetch => exact FetchInv_fetch p code s c hnj hlast hlen hI h
  | hazards => exact FetchInv_detect p code s c hnj hlast hlen hI h
  | tick =>
    simp only [APEX_call, Option.some.injEq] at h
    subst h
    exact FetchInv_frame p code s _ hI rfl rfl rfl rfl hI.decode_ok hI.execute_ok

theorem FetchInv_calls (p : APEX_Params) (code : List APEX_Instruction)
    (hnj : ∀ i ∈ code, is_branch_or_jump i.opcode = false)
    (hlast : ∃ h, code.getLast? = some h ∧ h.opcode = .HALT)
    (hlen : code.length ≤ 500000000) (calls : List Stage_call) :
    ∀ (s c : APEX_CPU), FetchInv p code s → APEX_calls calls s = some c →
      FetchInv p code c := by
  induction calls with
  | nil => intro s c hI h; simp [APEX_calls] at h; subst h; exact hI
  | cons x rest ih =>
    intro s c hI h
    simp only [APEX_calls, Option.bind_eq_some] at h
    obtain ⟨c1, h1, h2⟩ := h
    exact ih c1 c (FetchInv_call p code s c1 x hnj hlast hlen hI h1) h2

/-- A full cycle is a sequence of calls. -/
theorem APEX_cycle_calls (s c : APEX_CPU) (b : Bool)
    (h : APEX_cpu_cycle s = some (b, c)) : ∃ calls, APEX_calls calls s = some c := by
  unfold APEX_cpu_cycle at h
  cases hwb : APEX_writeback s with
  | none => simp [hwb] at h
  | some v =>
    obtain ⟨b1, w⟩ := v
    cases b1 with
    | true =>
      simp [hwb] at h
      exact ⟨[.writeback], by simp [APEX_calls, APEX_call, hwb, h.2]⟩
    | false =>
      cases hs : APEX_stages w with
      | none => simp [hwb, hs] at h
      | some c5 =>
        simp [hwb, hs] at h
        obtain ⟨-, hr⟩ := h
        subst hr
        unfold APEX_stages at hs
        simp only [Option.bind_eq_some] at hs
        obtain ⟨c4, ⟨c3, ⟨c2, ⟨c1, e1, e2⟩, e3⟩, e4⟩, e5⟩ := hs
        have k1 : ∃ x, APEX_call x w = some c1 := by
          split_ifs at e1
          · exact ⟨.hazards, e1⟩
          · exact ⟨.memory, e1⟩
        have k2 : ∃ x, APEX_call x c1 = some c2 := by
          split_ifs at e2
          · exact ⟨.hazards, e2⟩
          · exact ⟨.execute, e2⟩
        have k3 : ∃ x, APEX_call x c2 = some c3 := by
          split_ifs at e3
          · exact ⟨.hazards, e3⟩
          · exact ⟨.decode, e3⟩
        have k4 : ∃ x, APEX_call x c3 = some c4 := by
          split_ifs at e4
          · exact ⟨.hazards, e4⟩
          · exact ⟨.fetch, e4⟩
        obtain ⟨x1, k1⟩ := k1
        obtain ⟨x2, k2⟩ := k2
        obtain ⟨x3, k3⟩ := k3
        obtain ⟨x4, k4⟩ := k4
        refine ⟨[.writeback, x1, x2, x3, x4, .hazards, .tick], ?_⟩
        have k5 : APEX_call .hazards c4 = some c5 := e5
        have k0 : APEX_call .writeback s = some w := by simp [APEX_call, hwb]
        simp only [APEX_calls, k0, k1, k2, k3, k4, k5, Option.some_bind]
        rfl

theorem FetchInv_init (p : APEX_Params) (code : List APEX_Instruction) :
    FetchInv p code (APEX_cpu_init p code) := by
  refine ⟨rfl, rfl, by simp [APEX_cpu_init], fun _ => Or.inl rfl,
    ⟨0, Nat.zero_le _, by simp [APEX_cpu_init], ?_⟩,
    by simp [APEX_cpu_init], by simp [APEX_cpu_init]⟩
  intro _ i x hi
  exact absurd hi (Nat.not_lt_zero i)

theorem FetchInv_cycles (p : APEX_Params) (code : List APEX_Instruction)
    (hnj : ∀ i ∈ code, is_branch_or_jump i.opcode = false)
    (hlast : ∃ h, code.getLast? = some h ∧ h.opcode = .HALT)
    (hlen : code.length ≤ 500000000) (n : Nat) :
    ∀ (s c : APEX_CPU), FetchInv p code s → APEX_cycles n s = some c →
      FetchInv p code c := by
  induction n with
  | zero => intro s c hI h; simp [APEX_cycles] at h; subst h; exact hI
  | succ k ih =>
    intro s c hI h
    simp only [APEX_cycles] at h
    cases hc : APEX_cpu_cycle s with
    | none => simp [hc] at h
    | some v =>
      obtain ⟨b, c1⟩ := v
      cases b with
      | true => simp [hc] at h
      | false =>
        simp [hc] at h
        obtain ⟨calls, hcalls⟩ := APEX_cycle_calls s c1 false hc
        exact ih c1 c (FetchInv_calls p code hnj hlast hlen calls s c1 hI hcalls) h

/-- C27. Code-memory accesses of Fetch stay in bounds for programs without
branches and jumps that end in `HALT` (of at most 500000000 instructions, so
that the 32-bit program counter does not overflow). Let `s` be reached from
the initial state by full cycles followed by any sequence of calls of the
stages and of the hazard check, so `s` is any state between two calls of the
driver. (1) The index `(pc - 4000) / 4` that the body of Fetch reads when run
on `s` lies in `0 .. n - 1`, and the read finds an instruction. (2) The body of
Fetch is defined on `s`. (3) The index is the same with both stall flags
cleared, the state on which `detect_data_hazards` makes its extra call of
Fetch. (4) Once Fetch has fetched `HALT` (its latch holds `HALT` at an address
other than the 0 of the initial latch) it reads nothing. -/
theorem C27_fetch_in_bounds (p : APEX_Params) (code : List APEX_Instruction)
    (n : Nat) (calls : List Stage_call) (s0 s : APEX_CPU)
    (hnj : ∀ i ∈ code, is_branch_or_jump i.opcode = false)
    (hlast : ∃ h, code.getLast? = some h ∧ h.opcode = .HALT)
    (hlen : code.length ≤ 500000000)
    (hreach : APEX_cycles n (APEX_cpu_init p code) = some s0)
    (hcalls : APEX_calls calls s0 = some s) :
    (∀ i, fetch_read_index s = some i →
      0 ≤ i ∧ i < code.length ∧ ∃ ins, readAt s.code_memory i = some ins) ∧
    (∃ c, APEX_fetch_body s = some c) ∧
    fetch_read_index { s with
        decode := { s.decode with stall := false }
        fetch := { s.fetch with stall := false } } = fetch_read_index s ∧
    (s.fetch.opcode = .HALT → s.fetch.pc ≠ 0 → fetch_read_index s = none) := by
  have h0 : FetchInv p code s0 :=
    FetchInv_cycles p code hnj hlast hlen n _ s0 (FetchInv_init p code) hreach
  have hI : FetchInv p code s := FetchInv_calls p code hnj hlast hlen calls s0 s h0 hcalls
  have hp : fetch_predict s = some s := fetch_predict_idle _ s hI.btb_eq hI.fetch_pc
  have hI2 := FetchInv_set_stall p code s false hI
  have hp2 := fetch_predict_idle _ _ hI2.btb_eq hI2.fetch_pc
  refine ⟨?_, ?_, ?_, ?_⟩
  · intro i hi
    unfold fetch_read_index at hi
    rw [hp] at hi
    simp only at hi
    split_ifs at hi with hc
    obtain ⟨j, j1, -, j3, -⟩ := FetchInv_index p code s hlast hlen hI hc.1
    simp only [Option.some.injEq] at hi
    rw [j3] at hi
    subst hi
    refine ⟨by omega, by exact_mod_cast j1, code.get ⟨j, j1⟩, ?_⟩
    rw [hI.code_eq]
    unfold readAt
    simp [List.get?_eq_get j1]
  · unfold APEX_fetch_body
    rw [hp]
    simp only [Option.some_bind]
    unfold fetch_insn
    by_cases hv : s.fetch.has_insn = true
    · by_cases hn : s.fetch_from_next_cycle = true
      · simp [hv, hn]
      · obtain ⟨j, j1, -, j3, -⟩ := FetchInv_index p code s hlast hlen hI hv
        have hr : readAt s.code_memory (get_code_memory_index_from_pc s.pc)
            = some (code.get ⟨j, j1⟩) := by
          rw [j3, hI.code_eq]
          unfold readAt
          simp [List.get?_eq_get j1]
        simp [hv, hn, hr]
    · simp [hv]
  · unfold fetch_read_index
    rw [hp, hp2]
  · intro ho hpc
    unfold fetch_read_index
    rw [hp]
    simp only
    rw [if_neg]
    intro hc
    rcases hI.fetch_halt hc.1 with e | e
    · exact hpc e
    · exact e ho

/-- Witness for C27: in the second cycle of `MOVC R1,#5; MOVC R2,#10;
ADD R3,R1,R2; HALT`, after Fetch has run, the extra fetch of the hazard check
reads index 2 of the four instructions. -/
theorem C27_fetch_in_bounds_witness :
    APEX_cycles 1 (APEX_cpu_init (sampleParams .ADD) progAdd) = some progAddCycle1 ∧
    APEX_calls [.writeback, .memory, .execute, .decode, .fetch] progAddCycle1
      = some noHazardState ∧
    fetch_read_index noHazardState = some 2 ∧
    ((0 : Int) ≤ 2 ∧ (2 : Int) < progAdd.length ∧
      ∃ ins, readAt noHazardState.code_memory 2 = some ins) ∧
    ∃ c, APEX_fetch_body noHazardState = some c :=
  have h := C27_fetch_in_bounds (sampleParams .ADD) progAdd 1
    [.writeback, .memory, .execute, .decode, .fetch] progAddCycle1 noHazardState
    (by decide) ⟨_, rfl, rfl⟩ (by decide) rfl rfl
  ⟨rfl, rfl, rfl, h.1 2 rfl, h.2.1⟩
/-- C28. Store/load round trip in the Memory stage. Let the Memory latch of `s`
be valid, not stalled, and hold `STORE` or `STOREP` with memory address `a`
inside data memory and result buffer `v`. Then Memory succeeds, every cell
`b` other than `a` reads the same as before, and in every state with the data
memory the store left whose Memory latch is valid, not stalled, and holds
`LOAD` or `LOADP` with memory address `a`, Memory succeeds and hands a valid
latch with result buffer `v` to Writeback. -/
theorem C28_store_load_round_trip (s : APEX_CPU) (a v : Int)
    (hst : s.memory.stall = false) (hv : s.memory.has_insn = true)
    (hop : s.memory.opcode = .STORE ∨ s.memory.opcode = .STOREP)
    (ha : s.memory.memory_address = a) (hr : s.memory.result_buffer = v)
    (h0 : 0 ≤ a) (h1 : a < s.data_memory.length) :
    ∃ c, APEX_memory s = some c ∧
      (∀ b : Int, b ≠ a → readAt c.data_memory b = readAt s.data_memory b) ∧
      ∀ s2 : APEX_CPU, s2.data_memory = c.data_memory →
        s2.memory.stall = false → s2.memory.has_insn = true →
        (s2.memory.opcode = .LOAD ∨ s2.memory.opcode = .LOADP) →
        s2.memory.memory_address = a →
        ∃ r, APEX_memory s2 = some r ∧ r.writeback.result_buffer = v ∧
          r.writeback.has_insn = true ∧ r.data_memory = c.data_memory := by
  have h2 : a.toNat < s.data_memory.length := by omega
  subst ha hr
  refine ⟨{ s with
      data_memory := s.data_memory.set s.memory.memory_address.toNat s.memory.result_buffer
      writeback := s.memory
      memory := { s.memory with has_insn := false } }, ?_, ?_, ?_⟩
  · unfold APEX_memory memory_switch writeAt
    rcases hop with hop | hop <;> simp [hst, hv, hop, h0, h2]
  · intro b hb
    exact readAt_set_other _ _ _ _ h0 hb
  · intro s2 hdm hst2 hv2 hop2 ha2
    have hrd : readAt s2.data_memory s2.memory.memory_address
        = some s.memory.result_buffer := by
      rw [hdm, ha2]
      exact readAt_set_self _ _ _ h0 h2
    refine ⟨{ s2 with
        writeback := { s2.memory with result_buffer := s.memory.result_buffer }
        memory := { s2.memory with result_buffer := s.memory.result_buffer,
                                   has_insn := false } }, ?_, rfl, hv2, hdm⟩
    unfold APEX_memory memory_switch
    rcases hop2 with hop2 | hop2 <;> simp [hst2, hv2, hop2, hrd]

/-- Witness for C28: `STORE` of 7 to address 2 of the memory 10, 20, 30, 40,
then `LOAD` from address 2. -/
theorem C28_store_load_round_trip_witness :
    ∃ c, APEX_memory (memoryState .STORE 2 7) = some c ∧
      readAt c.data_memory 1 = some 20 ∧
      ∃ r, APEX_memory { memoryState .LOAD 2 0 with data_memory := c.data_memory }
          = some r ∧ r.writeback.result_buffer = 7 := by
  obtain ⟨c, h1, h2, h3⟩ := C28_store_load_round_trip (memoryState .STORE 2 7) 2 7
    (by decide) (by decide) (by decide) (by decide) (by decide) (by decide) (by decide)
  obtain ⟨r, g1, g2, -, -⟩ :=
    h3 { memoryState .LOAD 2 0 with data_memory := c.data_memory } rfl
      rfl rfl (Or.inl rfl) rfl
  exact ⟨c, h1, by rw [h2 1 (by decide)]; decide, r, g1, g2⟩

end APEX
